import Mathlib

/-!
AI Campus Task Optimizer: priority scorer, fallback scheduler, schedule store.

A shallow embedding of the scoring and scheduling logic of the repository
(`src/services/aiService.js`, `src/models/Schedule.js`, `src/models/Task.js`)
together with the properties its specification states about them.

Conventions of the embedding.

* A `Date` is its time value, an integer number of milliseconds, or invalid; an
  ISO string produced by `toISOString` is identified with the time value it
  denotes.  A `Date` holds time values up to 8.64e15 milliseconds on either side
  of the epoch: `new Date(t)` and `setHours` make an invalid date beyond that, and
  `toISOString` throws on an invalid date.
* JavaScript numbers that hold minutes or milliseconds are mathematical
  integers, quotients of them are rationals.  A comparison the code makes on a
  quotient by a positive constant (`hoursLeft <= 24`, `slotDuration >= duration`)
  is the comparison of the numerators; the rounding of a quotient or of a sum
  beyond 2^53 to a double is not modelled.  Whether a sum of milliseconds is
  within the range of `Date` does not depend on that rounding, since the bound
  8.64e15 is below 2^53.
* `Date.now()` and `new Date()` read a clock; the clock value is an explicit
  argument, the same for every read during one call.  The offset of local time
  from UTC is an argument as well, a function of the moment.
* `Array.prototype.sort` is the sort of the engine of Node.js: the run at the
  start of the array is found and the other elements are put into it by binary
  insertion.
* Strings are arbitrary strings, and a property read `table[key]` on an object
  literal follows the prototype chain, as it does in JavaScript.
* A thrown exception is an `Except.error`.
* The fields of a parsed task hold arbitrary JavaScript values.  What the runtime
  makes of a string, an array or an object in `ToNumber` and in `new Date(v)`,
  and what the language library makes of a text, are arguments of the model.
* The task routes run over a store of task documents that is passed in and out
  explicitly.  A request body is given field by field as the persistence library
  casts it; the database orders strings character by character.
-/

namespace Campus

/-! JavaScript values used by the scorer -/

/-- Exceptions the modelled code can throw. -/
inductive JSError where
  | typeError
  | rangeError
  deriving DecidableEq, Repr

deriving instance DecidableEq for Except

/-- A JavaScript number as far as the scorer can produce one: an integer or `NaN`. -/
inductive JSNumber where
  | num (n : Int)
  | nan
  deriving DecidableEq, Repr

/-- JavaScript `a >= b` on numbers: false as soon as one side is `NaN`. -/
def JSNumber.ge : JSNumber → JSNumber → Bool
  | .num a, .num b => decide (b ≤ a)
  | _, _ => false

/-- JavaScript `a - b` on numbers. -/
def JSNumber.sub : JSNumber → JSNumber → JSNumber
  | .num a, .num b => .num (a - b)
  | _, _ => .nan

/-- Names of the string-keyed members every object literal inherits from
`Object.prototype`.  Reading one of them from a weight table yields a function
(or, for `__proto__`, the prototype object), never `undefined`. -/
def objectPrototypeKeys : List String :=
  ["constructor", "__defineGetter__", "__defineSetter__", "hasOwnProperty",
   "__lookupGetter__", "__lookupSetter__", "isPrototypeOf", "propertyIsEnumerable",
   "toString", "valueOf", "__proto__", "toLocaleString"]

/-- What a property read `table[key]` on an object literal of numbers gives. -/
inductive PropertyValue where
  | number (n : Int)
  | inheritedMember
  | undefined
  deriving DecidableEq, Repr

/-- Property read `table[key]`: an own property wins, then the prototype chain. -/
def getProperty (table : List (String × Int)) (key : String) : PropertyValue :=
  match table.lookup key with
  | some n => .number n
  | none => if key ∈ objectPrototypeKeys then .inheritedMember else .undefined

/-- The expression `table[key] || dflt`: a falsy left operand (`undefined`, `0`)
gives the default, anything else gives the left operand. -/
def orDefault (v : PropertyValue) (dflt : Int) : PropertyValue :=
  match v with
  | .number n => if n = 0 then .number dflt else .number n
  | .inheritedMember => .inheritedMember
  | .undefined => .number dflt

/-- The running value of `score`: a number, `NaN`, or (after `+=` met a function
or an object) a string that starts with the digits of the score so far and goes
on with the text of that function or object.  No later `+=` turns such a string
back into a number, and `ToNumber` maps it to `NaN`. -/
inductive Score where
  | num (n : Int)
  | nan
  | text
  deriving DecidableEq, Repr

/-- The statement `score += v`. -/
def Score.add : Score → PropertyValue → Score
  | .num a, .number b => .num (a + b)
  | .num _, .undefined => .nan
  | .num _, .inheritedMember => .text
  | .nan, .inheritedMember => .text
  | .nan, _ => .nan
  | .text, _ => .text

/-- The expression `Math.min(100, Math.max(0, score))`. -/
def Score.clamp : Score → JSNumber
  | .num n => .num (min 100 (max 0 n))
  | .nan => .nan
  | .text => .nan

/-! Tasks and the priority scorer (`aiService.js`) -/

/-- A task as the scorer and the scheduler read it.  `deadline` is `none` when the
field is `null`. -/
structure Task where
  _id : Nat
  category : String
  priority : String
  difficulty : String
  estimatedDuration : Int
  deadline : Option Int
  deriving DecidableEq, Repr

/-- Milliseconds in one hour, `1000 * 60 * 60`. -/
def msPerHour : Int := 1000 * 60 * 60

/-- Milliseconds in one minute, the constant `60000`. -/
def msPerMinute : Int := 60000

/-- The time bucket of `calculateAIPriority`; `timeLeft` is in milliseconds and
`hoursLeft = timeLeft / msPerHour`, so `hoursLeft <= 24` is
`timeLeft ≤ 24 * msPerHour`. -/
def timeScore (timeLeft : Int) : Int :=
  if timeLeft ≤ 24 * msPerHour then 40
  else if timeLeft ≤ 72 * msPerHour then 30
  else if timeLeft ≤ 168 * msPerHour then 20
  else 10

/-- The object literal `categoryWeights`. -/
def categoryWeights : List (String × Int) :=
  [("exam", 35), ("assignment", 30), ("project", 25), ("lab", 20), ("attendance", 15),
   ("academic", 20), ("internship", 25), ("personal", 10), ("other", 15)]

/-- The object literal `difficultyWeights`. -/
def difficultyWeights : List (String × Int) :=
  [("hard", 20), ("medium", 10), ("easy", 5)]

/-- The object literal `priorityWeights`. -/
def priorityWeights : List (String × Int) :=
  [("urgent", 30), ("high", 20), ("medium", 10), ("low", 5)]

/-- The method `calculateAIPriority(task, userContext)` evaluated when the clock
reads `now`; `userContext` is not read by the method.  `task.deadline.getTime()`
throws a `TypeError` when the deadline is `null`. -/
def calculateAIPriority (task : Task) (now : Int) : Except JSError JSNumber :=
  match task.deadline with
  | none => .error .typeError
  | some deadline =>
    let timeLeft := deadline - now
    let score := Score.num (0 + timeScore timeLeft)
    let score := score.add (orDefault (getProperty categoryWeights task.category) 15)
    let score := score.add (orDefault (getProperty difficultyWeights task.difficulty) 10)
    let score := score.add (orDefault (getProperty priorityWeights task.priority) 10)
    .ok score.clamp

/-! The scorer as the specification words it -/

/-- Time bucket in the words of the specification, on the time left in
milliseconds: at most 24 hours 40, at most 72 hours 30, at most 168 hours 20,
otherwise 10. -/
def specTimeBucket (timeLeft : Int) : Int :=
  if timeLeft ≤ 24 * 3600000 then 40
  else if timeLeft ≤ 72 * 3600000 then 30
  else if timeLeft ≤ 168 * 3600000 then 20
  else 10

/-- Category bucket in the words of the specification. -/
def specCategoryBucket (category : String) : Int :=
  if category = "exam" then 35
  else if category = "assignment" then 30
  else if category = "project" then 25
  else if category = "internship" then 25
  else if category = "lab" then 20
  else if category = "academic" then 20
  else if category = "other" then 15
  else if category = "attendance" then 15
  else if category = "personal" then 10
  else 15

/-- Difficulty bucket in the words of the specification. -/
def specDifficultyBucket (difficulty : String) : Int :=
  if difficulty = "hard" then 20
  else if difficulty = "medium" then 10
  else if difficulty = "easy" then 5
  else 10

/-- User-priority bucket in the words of the specification. -/
def specPriorityBucket (priority : String) : Int :=
  if priority = "urgent" then 30
  else if priority = "high" then 20
  else if priority = "medium" then 10
  else if priority = "low" then 5
  else 10

/-- Final score in the words of the specification: the sum of the four buckets
clamped to the range 0 to 100. -/
def specScore (category priority difficulty : String) (timeLeft : Int) : Int :=
  min 100 (max 0 (specTimeBucket timeLeft + specCategoryBucket category
    + specDifficultyBucket difficulty + specPriorityBucket priority))

/-- A task whose category, difficulty and priority are not names of members
inherited from `Object.prototype`. -/
def Task.plainKeys (task : Task) : Prop :=
  task.category ∉ objectPrototypeKeys ∧ task.difficulty ∉ objectPrototypeKeys
    ∧ task.priority ∉ objectPrototypeKeys

instance (task : Task) : Decidable task.plainKeys := by
  unfold Task.plainKeys; infer_instance

/-! Schedule entries (`models/Schedule.js`) -/

/-- A schedule entry, with the fields the conflict check and the free-slot query
read. -/
structure Schedule where
  userId : Nat
  startTime : Int
  endTime : Int
  isActive : Bool
  deriving DecidableEq, Repr

/-- The method `conflictsWith(otherSchedule)`. -/
def Schedule.conflictsWith (self otherSchedule : Schedule) : Bool :=
  decide (self.startTime < otherSchedule.endTime)
    && decide (self.endTime > otherSchedule.startTime)

/-- The quotient `(to.getTime() - from.getTime()) / (1000 * 60)`: the length of a
time span in minutes. -/
def minutesBetween (startTime endTime : Int) : ℚ :=
  ((endTime - startTime : Int) : ℚ) / (1000 * 60)

/-- The method `getDuration()`. -/
def Schedule.getDuration (self : Schedule) : ℚ :=
  minutesBetween self.startTime self.endTime

/-- An element of the array `findAvailableSlots` returns. -/
structure Slot where
  startTime : Int
  endTime : Int
  duration : ℚ
  deriving DecidableEq, Repr

/-- The query of `findAvailableSlots`: the active entries of the user that start
at or after `startDate` and end at or before `endDate`, sorted by ascending
`startTime` (entries with equal `startTime` stay in stored order). -/
def Schedule.find (collection : List Schedule) (userId : Nat) (startDate endDate : Int) :
    List Schedule :=
  (collection.filter fun s =>
      s.userId == userId && decide (startDate ≤ s.startTime)
        && decide (s.endTime ≤ endDate) && s.isActive).insertionSort
    (fun a b => a.startTime ≤ b.startTime)

/-- The scan of `findAvailableSlots` over the entries `schedules` the query
returned, started with `currentTime`: the slots pushed inside the loop, in the
order they are pushed, followed by the slot pushed after the loop. -/
def scanSchedules (endDate duration : Int) : Int → List Schedule → List Slot
  | currentTime, [] =>
    if currentTime < endDate ∧ (duration : ℚ) ≤ minutesBetween currentTime endDate then
      [{ startTime := currentTime, endTime := endDate,
         duration := minutesBetween currentTime endDate }]
    else []
  | currentTime, schedule :: rest =>
    (if currentTime < schedule.startTime
        ∧ (duration : ℚ) ≤ minutesBetween currentTime schedule.startTime then
      [{ startTime := currentTime, endTime := schedule.startTime,
         duration := minutesBetween currentTime schedule.startTime }]
    else [])
    ++ scanSchedules endDate duration (max currentTime schedule.endTime) rest

/-- The body of `findAvailableSlots` after its query: `currentTime` starts at
`startDate`. -/
def availableSlots (schedules : List Schedule) (startDate endDate duration : Int) : List Slot :=
  scanSchedules endDate duration startDate schedules

/-- The static method `findAvailableSlots(userId, startDate, endDate, duration)` on
a collection of stored entries. -/
def Schedule.findAvailableSlots (collection : List Schedule) (userId : Nat)
    (startDate endDate duration : Int) : List Slot :=
  availableSlots (Schedule.find collection userId startDate endDate) startDate endDate duration

/-- The time value of `h:m` on the day that starts at time value 0. -/
def atClock (h m : Int) : Int := (h * 60 + m) * 60000

/-- Entries sorted by ascending `startTime`. -/
def SortedByStart (schedules : List Schedule) : Prop :=
  schedules.Pairwise fun a b => a.startTime ≤ b.startTime

instance (schedules : List Schedule) : Decidable (SortedByStart schedules) := by
  unfold SortedByStart; infer_instance

/-! The fallback scheduler (`aiService.js`) -/

/-- The preference `workingHours`; `stop` is the field `end`. -/
structure WorkingHours where
  start : String
  stop : String
  deriving DecidableEq, Repr

/-- The user preferences the scheduler is given. -/
structure UserPreferences where
  workingHours : WorkingHours
  breakDuration : Int
  studySessions : Int
  deriving DecidableEq, Repr

/-- An element of the array `fallbackOptimization` returns.  The two ISO strings
are held as the time values they denote. -/
structure Assignment where
  taskId : Nat
  scheduledStartTime : Int
  scheduledEndTime : Int
  reasoning : String
  deriving DecidableEq, Repr

/-- What the scheduler reads from its environment: the clock, and the offset of
local time from UTC in milliseconds.  `localTZA t true` is the offset in force at
the UTC time value `t`, `localTZA t false` the offset in force at the local time
value `t`; the two differ from hour to hour on a day the offset changes. -/
structure Clock where
  now : Int
  localTZA : Int → Bool → Int

/-- The UTC clock: local time is UTC at every moment. -/
def utcClock (now : Int) : Clock := { now := now, localTZA := fun _ _ => 0 }

/-- Code points of the white space and line terminators `parseInt` skips at the
start of its argument. -/
def whiteSpaceCodes : List Nat :=
  [0x09, 0x0A, 0x0B, 0x0C, 0x0D, 0x20, 0xA0, 0x1680, 0x2000, 0x2001, 0x2002, 0x2003, 0x2004,
   0x2005, 0x2006, 0x2007, 0x2008, 0x2009, 0x200A, 0x2028, 0x2029, 0x202F, 0x205F, 0x3000,
   0xFEFF]

/-- Whether `parseInt` skips the character when it leads the string. -/
def isWhiteSpace (c : Char) : Bool := decide (c.toNat ∈ whiteSpaceCodes)

/-- The value of a character as a digit, in any radix up to 36. -/
def digitValue (c : Char) : Option Nat :=
  if 48 ≤ c.toNat ∧ c.toNat ≤ 57 then some (c.toNat - 48)
  else if 97 ≤ c.toNat ∧ c.toNat ≤ 122 then some (c.toNat - 87)
  else if 65 ≤ c.toNat ∧ c.toNat ≤ 90 then some (c.toNat - 55)
  else none

/-- The values of the longest prefix of characters that are digits of the radix. -/
def leadingDigits (radix : Nat) : List Char → List Nat
  | [] => []
  | c :: cs =>
    match digitValue c with
    | some v => if v < radix then v :: leadingDigits radix cs else []
    | none => []

/-- The number a list of digit values denotes in the radix. -/
def digitsValue (radix : Nat) (digits : List Nat) : Nat :=
  digits.foldl (fun acc v => acc * radix + v) 0

/-- The function `parseInt(string)` without a radix argument, on the characters of
its argument: leading white space is skipped, a sign is read, a prefix `0x` or
`0X` selects radix 16, and the longest run of digits is the value; `none` is
`NaN`. -/
def parseIntChars (chars : List Char) : Option Int :=
  let trimmed := chars.dropWhile isWhiteSpace
  let signed : Int × List Char :=
    match trimmed with
    | '-' :: rest => (-1, rest)
    | '+' :: rest => (1, rest)
    | _ => (1, trimmed)
  let based : Nat × List Char :=
    match signed.2 with
    | '0' :: 'x' :: rest => (16, rest)
    | '0' :: 'X' :: rest => (16, rest)
    | _ => (10, signed.2)
  let digits := leadingDigits based.1 based.2
  if digits = [] then none else some (signed.1 * (digitsValue based.1 digits : Int))

/-- The function `parseInt(string)`. -/
def parseInt (s : String) : Option Int := parseIntChars s.toList

/-- The expression `s.split(':')[0]`: the characters before the first colon. -/
def firstSegment (s : String) : String :=
  String.mk (s.toList.takeWhile fun c => c != ':')

/-- Milliseconds in one day. -/
def msPerDay : Int := 86400000

/-- The largest time value a `Date` holds: 8.64e15 milliseconds on either side of
the epoch. -/
def maxTimeValue : Int := 8640000000000000

/-- The operation `TimeClip` on an integral number of milliseconds: a time value
beyond the range of `Date` makes the date invalid (`none`). -/
def timeClip (time : Int) : Option Int :=
  if -maxTimeValue ≤ time ∧ time ≤ maxTimeValue then some time else none

/-- The call `new Date(time + minutes * 60000)` on the time value of a date; the
time value of an invalid date is `NaN` and so is the sum. -/
def dateAfter (date : Option Int) (minutes : Int) : Option Int :=
  date.bind fun time => timeClip (time + minutes * 60000)

/-- The call `date.setHours(hours, 0, 0, 0)` on a valid date with time value
`time`: the local time of `time`, its day, `hours` hours after the start of that
day, taken back to UTC and clipped to the range of `Date`; the date becomes
invalid (`none`) when `hours` is `NaN` or the result is out of range. -/
def setHours (clock : Clock) (time : Int) (hours : Option Int) : Option Int :=
  hours.bind fun h =>
    let localTime := time + clock.localTZA time true
    let date := localTime - localTime % msPerDay + h * msPerHour
    timeClip (date - clock.localTZA date false)

/-- The method `toISOString()`: throws a `RangeError` on an invalid date, which is
one whose time value is `NaN` (after `setHours(NaN, ...)`, or after a time value
out of the range of `Date`). -/
def toISOString : Option Int → Except JSError Int
  | some time => .ok time
  | none => .error .rangeError

/-- The comparator handed to `tasks.sort`: `bScore - aScore`. -/
def compareTasks (now : Int) (a b : Task) : Except JSError JSNumber := do
  let aScore ← calculateAIPriority a now
  let bScore ← calculateAIPriority b now
  pure (bScore.sub aScore)

/-- The test `order < 0` the engine makes on a comparator result, after it has
replaced a result of `NaN` by `+0`. -/
def JSNumber.isNegative : JSNumber → Bool
  | .num n => decide (n < 0)
  | .nan => false

/-- The loop of `CountAndMakeRun`: it reads the elements that follow
`previousElement` while they go on with the run, a descending run while the
comparator gives a negative number and an ascending run while it does not.  The
result is the elements that joined the run and the elements left over. -/
def extendRun (now : Int) (isDescending : Bool) :
    Task → List Task → Except JSError (List Task × List Task)
  | _, [] => pure ([], [])
  | previousElement, currentElement :: rest => do
    let order ← compareTasks now currentElement previousElement
    if order.isNegative = isDescending then
      let found ← extendRun now isDescending currentElement rest
      pure (currentElement :: found.1, found.2)
    else
      pure ([], currentElement :: rest)

/-- The step `CountAndMakeRun` of the engine's sort: the run at the start of the
array, reversed when it is descending, and the elements after it. -/
def countAndMakeRun (now : Int) : List Task → Except JSError (List Task × List Task)
  | [] => pure ([], [])
  | [only] => pure ([only], [])
  | elementHigh :: elementLow :: rest => do
    let order ← compareTasks now elementLow elementHigh
    let isDescending := order.isNegative
    let found ← extendRun now isDescending elementLow rest
    let run := elementHigh :: elementLow :: found.1
    pure (if isDescending then run.reverse else run, found.2)

/-- The binary search of `BinaryInsertionSort` for `pivot` in `window`, the part of
the sorted run between `left` and `right`: the number of elements of the window
in front of the place where the pivot belongs.  The element in the middle is at
index `(right - left) >> 1` of the window; the search goes on in front of it
when the comparator gives a negative number and behind it when it does not.
`steps` bounds the number of halvings and is the length of the window. -/
def insertionPoint (now : Int) (pivot : Task) : Nat → List Task → Except JSError Nat
  | 0, _ => pure 0
  | steps + 1, window =>
    match window.drop (window.length / 2) with
    | [] => pure 0
    | middle :: behind => do
      let order ← compareTasks now pivot middle
      if order.isNegative then
        insertionPoint now pivot steps (window.take (window.length / 2))
      else do
        let found ← insertionPoint now pivot steps behind
        pure (window.length / 2 + 1 + found)

/-- The step `BinaryInsertionSort` of the engine's sort: each element after the run
is put into the sorted run at the place the binary search finds. -/
def binaryInsertionSort (now : Int) : List Task → List Task → Except JSError (List Task)
  | sorted, [] => pure sorted
  | sorted, pivot :: rest => do
    let left ← insertionPoint now pivot sorted.length sorted
    binaryInsertionSort now (sorted.take left ++ pivot :: sorted.drop left) rest

/-- The call `tasks.sort(comparator)` as the engine of Node.js carries it out: an
array of fewer than two elements is returned as it is and the comparator is not
called; otherwise the run at the start of the array is found and the remaining
elements are put into it by binary insertion.  A comparator result of `NaN`
counts as zero, and an exception of the comparator ends the sort.  With two or
more tasks every task is handed to the comparator at least once.  For an array
of 64 elements or more the engine sorts stretches of 32 to 64 elements in this
way and merges them; the merge is not spelled out, and its result is the one
given here whenever no score is `NaN` (a stable sort has one result). -/
def sortTasks (now : Int) (tasks : List Task) : Except JSError (List Task) :=
  if tasks.length < 2 then pure tasks
  else do
    let found ← countAndMakeRun now tasks
    binaryInsertionSort now found.1 found.2

/-- The `for` loop of `fallbackOptimization`, started with `currentTime`. -/
def placeTasks (breakDuration : Int) : Option Int → List Task → Except JSError (List Assignment)
  | _, [] => pure []
  | currentTime, task :: rest => do
    let endTime := dateAfter currentTime task.estimatedDuration
    let scheduledStartTime ← toISOString currentTime
    let scheduledEndTime ← toISOString endTime
    let later ← placeTasks breakDuration (dateAfter endTime breakDuration) rest
    pure ({ taskId := task._id, scheduledStartTime := scheduledStartTime,
            scheduledEndTime := scheduledEndTime,
            reasoning := "Fallback scheduling based on priority" } :: later)

/-- The method `fallbackOptimization(tasks, schedule, userPreferences)`; the
argument `schedule` is not read by the method. -/
def fallbackOptimization (tasks : List Task) (_schedule : List Schedule)
    (userPreferences : UserPreferences) (clock : Clock) : Except JSError (List Assignment) := do
  let sortedTasks ← sortTasks clock.now tasks
  let currentTime := setHours clock clock.now
    (parseInt (firstSegment userPreferences.workingHours.start))
  placeTasks userPreferences.breakDuration currentTime sortedTasks

/-- A working-hours time of the form `HH:MM`: two digits, a colon, two digits, the
hour at most 23 and the minute at most 59. -/
def wellFormedTime (s : String) : Bool :=
  match s.toList with
  | [a, b, ':', c, d] =>
    match digitValue a, digitValue b, digitValue c, digitValue d with
    | some h1, some h2, some m1, some m2 =>
      decide (h1 < 10) && decide (h2 < 10) && decide (m1 < 10) && decide (m2 < 10)
        && decide (h1 * 10 + h2 ≤ 23) && decide (m1 * 10 + m2 ≤ 59)
    | _, _, _, _ => false
  | _ => false

/-- The ten decimal digit characters. -/
def decimalDigitChars : List Char := ['0', '1', '2', '3', '4', '5', '6', '7', '8', '9']

/-- The method `fallbackOptimization` with the array `tasks` as explicit state:
`tasks.sort` sorts the caller's array in place and returns that same array, so
when the call returns the array holds `sortedTasks`.  The second component is
the content of `tasks` after the call. -/
def fallbackOptimizationInPlace (tasks : List Task) (_schedule : List Schedule)
    (userPreferences : UserPreferences) (clock : Clock) :
    Except JSError (List Assignment × List Task) := do
  let sortedTasks ← sortTasks clock.now tasks
  let currentTime := setHours clock clock.now
    (parseInt (firstSegment userPreferences.workingHours.start))
  let optimizedTasks ← placeTasks userPreferences.breakDuration currentTime sortedTasks
  pure (optimizedTasks, sortedTasks)

/-! The contract of the scheduler as the specification words it -/

/-- The time of day a well-formed `HH:MM` string denotes, in milliseconds after
midnight. -/
def clockTimeOfDay (s : String) : Option Int :=
  match s.toList with
  | [a, b, ':', c, d] =>
    match digitValue a, digitValue b, digitValue c, digitValue d with
    | some h1, some h2, some m1, some m2 =>
      if h1 < 10 ∧ h2 < 10 ∧ m1 < 10 ∧ m2 < 10 ∧ h1 * 10 + h2 ≤ 23 ∧ m1 * 10 + m2 ≤ 59 then
        some (atClock (h1 * 10 + h2 : Nat) (m1 * 10 + m2 : Nat))
      else none
    | _, _, _, _ => none
  | _ => none

/-- The time value of the moment the local clocks show `timeOfDay` milliseconds
after midnight on the local day the clock is in. -/
def onLocalDay (clock : Clock) (timeOfDay : Int) : Int :=
  let localTime := clock.now + clock.localTZA clock.now true
  let date := localTime - localTime % msPerDay + timeOfDay
  date - clock.localTZA date false

/-- Midnight of the local day the clock is in. -/
def startOfLocalDay (clock : Clock) : Int := onLocalDay clock 0

/-- The working-hours window of the scheduling day in the words of the
specification: from the configured start to the configured end of that day. -/
def workingWindow (userPreferences : UserPreferences) (clock : Clock) : Option (Int × Int) :=
  match clockTimeOfDay userPreferences.workingHours.start,
    clockTimeOfDay userPreferences.workingHours.stop with
  | some s, some e => some (onLocalDay clock s, onLocalDay clock e)
  | _, _ => none

/-- The start the plan gives the task at index `i` of the sorted list when the
first task starts at `first`: every task before it takes its duration and is
followed by the break, all in minutes. -/
def plannedStart (first breakDuration : Int) (sortedTasks : List Task) (i : Nat) : Int :=
  first + ((sortedTasks.take i).map fun t =>
    (t.estimatedDuration + breakDuration) * 60000).sum

/-- The end the plan gives the task at index `i`: its duration after its start. -/
def plannedEnd (first breakDuration : Int) (sortedTasks : List Task) (i : Nat) : Int :=
  plannedStart first breakDuration sortedTasks i
    + ((sortedTasks.drop i).head?.elim 0 fun t => t.estimatedDuration) * 60000

/-- A time value a `Date` can hold: at most 8.64e15 milliseconds from the epoch. -/
def InDateRange (time : Int) : Prop := -maxTimeValue ≤ time ∧ time ≤ maxTimeValue

instance (time : Int) : Decidable (InDateRange time) := by
  unfold InDateRange; infer_instance

/-- Every start and every end of the plan is a time value a `Date` can hold. -/
def PlanInRange (first breakDuration : Int) (sortedTasks : List Task) : Prop :=
  ∀ i, i < sortedTasks.length →
    InDateRange (plannedStart first breakDuration sortedTasks i)
      ∧ InDateRange (plannedEnd first breakDuration sortedTasks i)

instance (first breakDuration : Int) (sortedTasks : List Task) :
    Decidable (PlanInRange first breakDuration sortedTasks) := by
  unfold PlanInRange; infer_instance

/-- The end the plan gives the last task when the first task starts at `first`:
all durations and the breaks between the tasks later. -/
def plannedLastEnd (first breakDuration : Int) (tasks : List Task) : Int :=
  first + (tasks.map fun t => t.estimatedDuration).sum * 60000
    + ((tasks.length : Int) - 1) * breakDuration * 60000

/-- The order the specification asks of the assignments `out` for the input
`tasks`: they follow, one for one, a rearrangement of the tasks in which no
task scores higher than a task before it, and in which tasks of equal score
keep the order they have in the input. -/
def OrderedByScore (now : Int) (tasks : List Task) (out : List Assignment) : Prop :=
  ∃ sortedTasks : List Task,
    List.Forall₂ (fun (a : Assignment) (t : Task) => a.taskId = t._id) out sortedTasks
    ∧ sortedTasks.Perm tasks
    ∧ sortedTasks.Pairwise (fun a b => ∃ sa sb : Int,
        calculateAIPriority a now = .ok (.num sa)
        ∧ calculateAIPriority b now = .ok (.num sb) ∧ sb ≤ sa)
    ∧ ∀ v : Int,
        sortedTasks.filter (fun t => decide (calculateAIPriority t now = .ok (.num v)))
          = tasks.filter (fun t => decide (calculateAIPriority t now = .ok (.num v)))

/-! Parsed tasks: `validateParsedTask` and `fallbackParsing` (`aiService.js`) -/

/-- A JavaScript number as `JSON.parse` and `Math.min`, `Math.max` can produce it. -/
inductive NumberValue where
  | finite (q : ℚ)
  | infinity
  | negInfinity
  | nan
  deriving DecidableEq, Repr

/-- A JavaScript value as a field of a parsed task can hold it.  A `Date` object
carries its time value, `none` for an invalid date. -/
inductive JSValue where
  | undefined
  | null
  | boolean (b : Bool)
  | number (x : NumberValue)
  | string (s : String)
  | date (time : Option Int)
  | array (items : List JSValue)
  | object (fields : List (String × JSValue))

/-- Whether a value counts as true in `||` and `? :`. -/
def JSValue.truthy : JSValue → Bool
  | .undefined => false
  | .null => false
  | .boolean b => b
  | .number (.finite q) => decide (q ≠ 0)
  | .number .nan => false
  | .number _ => true
  | .string s => decide (s ≠ "")
  | _ => true

/-- The expression `a || b`. -/
def JSValue.or (a b : JSValue) : JSValue := if a.truthy then a else b

/-- The call `list.includes(v)` on an array of strings: only an equal string is
included. -/
def includesString (list : List String) : JSValue → Bool
  | .string s => decide (s ∈ list)
  | _ => false

/-- The conversions of the JavaScript runtime that the embedding does not spell
out: `ToNumber` on a string, an array or an object, and the time value that
`new Date(v)` gets from a string, an array or an object. -/
structure Runtime where
  toNumber : JSValue → NumberValue
  timeValue : JSValue → Option Int

/-- The conversion `ToNumber`, applied by `Math.min` and `Math.max` to an argument. -/
def toNumber (rt : Runtime) : JSValue → NumberValue
  | .undefined => .nan
  | .null => .finite 0
  | .boolean b => .finite (if b then 1 else 0)
  | .number x => x
  | .date (some time) => .finite time
  | .date none => .nan
  | v => rt.toNumber v

/-- The call `Math.min(a, b)` on numbers. -/
def NumberValue.min : NumberValue → NumberValue → NumberValue
  | .nan, _ => .nan
  | _, .nan => .nan
  | .negInfinity, _ => .negInfinity
  | _, .negInfinity => .negInfinity
  | .infinity, y => y
  | x, .infinity => x
  | .finite a, .finite b => .finite (Min.min a b)

/-- The call `Math.max(a, b)` on numbers. -/
def NumberValue.max : NumberValue → NumberValue → NumberValue
  | .nan, _ => .nan
  | _, .nan => .nan
  | .infinity, _ => .infinity
  | _, .infinity => .infinity
  | .negInfinity, y => y
  | x, .negInfinity => x
  | .finite a, .finite b => .finite (Max.max a b)

/-- The time value of `new Date(v)`: a number within the range of `Date` is cut to
an integer, a number beyond it gives an invalid date, a `Date` is copied. -/
def newDate (rt : Runtime) : JSValue → Option Int
  | .undefined => none
  | .null => some 0
  | .boolean b => some (if b then 1 else 0)
  | .number (.finite q) =>
    if -(maxTimeValue : ℚ) ≤ q ∧ q ≤ (maxTimeValue : ℚ) then
      some (if 0 ≤ q then Rat.floor q else -Rat.floor (-q))
    else none
  | .number _ => none
  | .date time => time
  | v => rt.timeValue v

/-- The object `validateParsedTask` is given and the object it returns, and the
object `fallbackParsing` returns.  A field the object does not have is
`undefined`. -/
structure ParsedTask where
  title : JSValue
  description : JSValue
  category : JSValue
  priority : JSValue
  difficulty : JSValue
  estimatedDuration : JSValue
  deadline : JSValue
  subject : JSValue
  location : JSValue
  tags : JSValue

/-- The array `validCategories`. -/
def validCategories : List String :=
  ["academic", "assignment", "lab", "exam", "project", "internship", "attendance", "personal",
   "other"]

/-- The array `validPriorities`. -/
def validPriorities : List String := ["low", "medium", "high", "urgent"]

/-- The array `validDifficulties`. -/
def validDifficulties : List String := ["easy", "medium", "hard"]

/-- The method `validateParsedTask(task)`. -/
def validateParsedTask (rt : Runtime) (task : ParsedTask) : ParsedTask :=
  { title := task.title.or (.string "Untitled Task"),
    description := task.description.or (.string ""),
    category :=
      if includesString validCategories task.category then task.category else .string "other",
    priority :=
      if includesString validPriorities task.priority then task.priority else .string "medium",
    difficulty :=
      if includesString validDifficulties task.difficulty then task.difficulty
      else .string "medium",
    estimatedDuration :=
      .number (NumberValue.max (.finite 15) (NumberValue.min (.finite 480)
        (toNumber rt (task.estimatedDuration.or (.number (.finite 60)))))),
    deadline := if task.deadline.truthy then .date (newDate rt task.deadline) else .null,
    subject := task.subject.or .null,
    location := task.location.or .null,
    tags :=
      match task.tags with
      | .array items => .array (items.take 10)
      | _ => .array [] }

/-- The two readings `fallbackParsing` takes from the language library
`compromise`: the nouns and the verbs of a text. -/
structure Compromise where
  nouns : String → List String
  verbs : String → List String

/-- The number of UTF-16 code units of a character: two outside the Basic
Multilingual Plane, one inside. -/
def codeUnits (c : Char) : Nat := if c.toNat < 0x10000 then 1 else 2

/-- The longest run of leading characters that takes at most `n` code units. -/
def takeCodeUnits : Nat → List Char → List Char
  | _, [] => []
  | n, c :: cs => if codeUnits c ≤ n then c :: takeCodeUnits (n - codeUnits c) cs else []

/-- The call `s.substring(0, n)`, which counts UTF-16 code units.  When the cut
falls between the two code units of one character, JavaScript keeps the first
of the two, which is no character by itself; it is left out here. -/
def substringFromStart (s : String) (n : Nat) : String := String.mk (takeCodeUnits n s.toList)

/-- The method `fallbackParsing(input)`. -/
def fallbackParsing (doc : Compromise) (input : String) : ParsedTask :=
  { title := .string (substringFromStart input 100),
    description := .string input,
    category := .string "other",
    priority := .string "medium",
    difficulty := .string "medium",
    estimatedDuration := .number (.finite 60),
    deadline := .null,
    subject := .null,
    location := .null,
    tags := .array (((doc.nouns input ++ doc.verbs input).take 5).map JSValue.string) }

/-! The urgency score of the Task model (`models/Task.js`) -/

/-- The method `getUrgencyScore()` of a task, evaluated when the clock reads `now`.
Its time bucket is the same chain of comparisons as in `calculateAIPriority`;
the two `switch` statements have no `default` branch. -/
def getUrgencyScore (task : Task) (now : Int) : Except JSError JSNumber :=
  match task.deadline with
  | none => .error .typeError
  | some deadline =>
    let timeLeft := deadline - now
    let urgencyScore : Int := 0 + timeScore timeLeft
    let urgencyScore := urgencyScore +
      (if task.priority = "urgent" then 30
       else if task.priority = "high" then 20
       else if task.priority = "medium" then 10
       else if task.priority = "low" then 5
       else 0)
    let urgencyScore := urgencyScore +
      (if task.difficulty = "hard" then 20
       else if task.difficulty = "medium" then 10
       else if task.difficulty = "easy" then 5
       else 0)
    .ok (.num (min 100 urgencyScore))

/-! The task routes (`routes/tasks.js`) over a store of task documents -/

/-- A stored task document: the fields the scorer reads (`task`), its owner, its
title, its status and its creation time.  The optional text fields of the
schema are not read by any handler below and are left out. -/
structure StoredTask where
  userId : Nat
  title : String
  status : String
  createdAt : Int
  task : Task
  deriving DecidableEq, Repr

/-- What the persistence library makes of a field of a request body when it casts
it to the type of its schema path: the body does not carry the field, the
field holds a value of the type, or the value cannot be cast. -/
inductive Cast (α : Type) where
  | absent
  | value (a : α)
  | error
  deriving DecidableEq, Repr

/-- The body of a request to `POST /tasks` or `PUT /tasks/:id`, field by field
after the cast. -/
structure TaskBody where
  userId : Cast Nat
  title : Cast String
  category : Cast String
  priority : Cast String
  difficulty : Cast String
  status : Cast String
  estimatedDuration : Cast Int
  deadline : Cast Int
  deriving DecidableEq, Repr

/-- The answer of a handler: the status code, the `message` of the JSON body (empty
when the body has none) and the tasks of the body, each with the `aiPriority`
the handler computed for it. -/
structure Response where
  status : Nat
  message : String
  tasks : List (StoredTask × JSNumber)
  deriving DecidableEq, Repr

/-- The `enum` of the schema path `category`. -/
def categoryEnum : List String :=
  ["academic", "assignment", "lab", "exam", "project", "internship", "attendance", "personal",
   "other"]

/-- The `enum` of the schema path `priority`. -/
def priorityEnum : List String := ["low", "medium", "high", "urgent"]

/-- The `enum` of the schema path `difficulty`. -/
def difficultyEnum : List String := ["easy", "medium", "hard"]

/-- The `enum` of the schema path `status`. -/
def statusEnum : List String := ["pending", "in_progress", "completed", "cancelled"]

/-- The method `trim()` of a string: white space and line terminators are removed
at both ends. -/
def jsTrim (s : String) : String :=
  String.mk ((s.toList.dropWhile isWhiteSpace).reverse.dropWhile isWhiteSpace).reverse

/-- Validation of a required string path with `trim`: the trimmed value, which must
not be empty. -/
def requiredTrimmed : Cast String → Option String
  | .value s => if jsTrim s = "" then none else some (jsTrim s)
  | _ => none

/-- Validation of a required string path with an `enum`. -/
def requiredEnum (enum : List String) : Cast String → Option String
  | .value s => if s ∈ enum then some s else none
  | _ => none

/-- Validation of a string path with an `enum` and a `default`. -/
def defaultedEnum (enum : List String) (dflt : String) : Cast String → Option String
  | .absent => some dflt
  | .value s => if s ∈ enum then some s else none
  | .error => none

/-- Validation of a required path without further validators. -/
def requiredValue {α : Type} : Cast α → Option α
  | .value a => some a
  | _ => none

/-- The document `new Task(taskData)` makes for the owner `userId` when `save()`
accepts it; `none` when validation rejects it.  `newId` is the identifier the
library gives the document. -/
def newTask (body : TaskBody) (userId newId : Nat) (now : Int) : Option StoredTask := do
  let title ← requiredTrimmed body.title
  let category ← requiredEnum categoryEnum body.category
  let priority ← defaultedEnum priorityEnum "medium" body.priority
  let difficulty ← defaultedEnum difficultyEnum "medium" body.difficulty
  let status ← defaultedEnum statusEnum "pending" body.status
  let estimatedDuration ← requiredValue body.estimatedDuration
  let deadline ← requiredValue body.deadline
  pure { userId := userId, title := title, status := status, createdAt := now,
         task := { _id := newId, category := category, priority := priority,
                   difficulty := difficulty, estimatedDuration := estimatedDuration,
                   deadline := some deadline } }

/-- The answer of every `catch` block of the task routes. -/
def serverError : Response := { status := 500, message := "Server error", tasks := [] }

/-- The handler of `POST /tasks` for the authenticated user `userId`: the answer and
the store afterwards.  The `userId` of the body is replaced by the
authenticated user before the document is made. -/
def createTask (store : List StoredTask) (userId : Nat) (body : TaskBody) (newId : Nat)
    (now : Int) : Response × List StoredTask :=
  match newTask { body with userId := .value userId } userId newId now with
  | none => (serverError, store)
  | some task =>
    match calculateAIPriority task.task now with
    | .ok aiPriority =>
      ({ status := 201, message := "Task created successfully",
         tasks := [(task, aiPriority)] }, store ++ [task])
    | .error _ => (serverError, store ++ [task])

/-- The test `if (value)` on a query parameter: an absent or empty parameter sets
no filter. -/
def queryFilter (parameter : Option String) (field : String) : Bool :=
  match parameter with
  | none => true
  | some value => if value = "" then true else decide (field = value)

/-- Ascending order of the `deadline` path; a missing value sorts first. -/
def deadlineAscending (a b : StoredTask) : Bool :=
  match a.task.deadline, b.task.deadline with
  | none, _ => true
  | some _, none => false
  | some x, some y => decide (x ≤ y)

/-- The order of the database on strings: character by character, by code point,
a proper prefix first. -/
def charsLess : List Char → List Char → Bool
  | [], [] => false
  | [], _ :: _ => true
  | _ :: _, [] => false
  | a :: as, b :: bs =>
    if a.toNat < b.toNat then true
    else if b.toNat < a.toNat then false
    else charsLess as bs

/-- The sort `{ priority: -1, deadline: 1 }`: the database orders the strings of
the path `priority` by their characters, descending, then by deadline. -/
def priorityDescending (a b : StoredTask) : Bool :=
  charsLess b.task.priority.toList a.task.priority.toList
    || (decide (a.task.priority = b.task.priority) && deadlineAscending a b)

/-- The sort `{ createdAt: -1 }`. -/
def createdDescending (a b : StoredTask) : Bool := decide (b.createdAt ≤ a.createdAt)

/-- The handler of `GET /tasks` for the authenticated user `userId`, with the query
parameters `status`, `category`, `priority` and `sortBy`. -/
def getTasks (store : List StoredTask) (userId : Nat) (status category priority : Option String)
    (sortBy : Option String) (now : Int) : Response :=
  let found := store.filter fun t =>
    decide (t.userId = userId) && queryFilter status t.status
      && queryFilter category t.task.category && queryFilter priority t.task.priority
  let tasks :=
    if sortBy = some "priority" then
      found.insertionSort (fun a b => priorityDescending a b = true)
    else if sortBy = some "created" then
      found.insertionSort (fun a b => createdDescending a b = true)
    else
      found.insertionSort (fun a b => deadlineAscending a b = true)
  match tasks.mapM (fun t => (calculateAIPriority t.task now).map fun p => (t, p)) with
  | .ok tasksWithAI => { status := 200, message := "", tasks := tasksWithAI }
  | .error _ => serverError

/-- Validation of a path of an update: an absent path is not validated. -/
def updateValid {α : Type} (check : α → Bool) : Cast α → Bool
  | .absent => true
  | .value a => check a
  | .error => false

/-- The update validators of `findOneAndUpdate` with `runValidators`. -/
def updateAccepted (body : TaskBody) : Bool :=
  updateValid (fun _ => true) body.userId
    && updateValid (fun s => decide (jsTrim s ≠ "")) body.title
    && updateValid (fun s => decide (s ∈ categoryEnum)) body.category
    && updateValid (fun s => decide (s ∈ priorityEnum)) body.priority
    && updateValid (fun s => decide (s ∈ difficultyEnum)) body.difficulty
    && updateValid (fun s => decide (s ∈ statusEnum)) body.status
    && updateValid (fun _ => true) body.estimatedDuration
    && updateValid (fun _ => true) body.deadline

/-- The value of a path after an update. -/
def Cast.getD {α : Type} (c : Cast α) (old : α) : α :=
  match c with
  | .value a => a
  | _ => old

/-- The document after the paths of the body are set on it. -/
def applyUpdate (body : TaskBody) (t : StoredTask) : StoredTask :=
  { userId := body.userId.getD t.userId,
    title := match body.title with
      | .value s => jsTrim s
      | _ => t.title,
    status := body.status.getD t.status,
    createdAt := t.createdAt,
    task := { _id := t.task._id,
              category := body.category.getD t.task.category,
              priority := body.priority.getD t.task.priority,
              difficulty := body.difficulty.getD t.task.difficulty,
              estimatedDuration := body.estimatedDuration.getD t.task.estimatedDuration,
              deadline := match body.deadline with
                | .value d => some d
                | _ => t.task.deadline } }

/-- The store after the first selected document is replaced. -/
def replaceFirst (selected : StoredTask → Bool) (f : StoredTask → StoredTask) :
    List StoredTask → List StoredTask
  | [] => []
  | t :: rest => if selected t then f t :: rest else t :: replaceFirst selected f rest

/-- The handler of `PUT /tasks/:id` for the authenticated user `userId`:
`findOneAndUpdate` with the filter `_id` and `userId` and with the request body
as the update. -/
def updateTask (store : List StoredTask) (userId taskId : Nat) (body : TaskBody) (now : Int) :
    Response × List StoredTask :=
  if updateAccepted body then
    match store.find? (fun t => decide (t.task._id = taskId) && decide (t.userId = userId)) with
    | none => ({ status := 404, message := "Task not found", tasks := [] }, store)
    | some found =>
      let task := applyUpdate body found
      let store := replaceFirst
        (fun t => decide (t.task._id = taskId) && decide (t.userId = userId))
        (applyUpdate body) store
      match calculateAIPriority task.task now with
      | .ok aiPriority =>
        ({ status := 200, message := "Task updated successfully",
           tasks := [(task, aiPriority)] }, store)
      | .error _ => (serverError, store)
  else (serverError, store)

/-- The casts of the persistence library the embedding does not spell out: what it
makes of a value that is not a string when the path is a string, of a value
that is not a whole number when the path is a number, and of a value that is
not a `Date` when the path is a date; `none` when it cannot cast the value. -/
structure Mongoose where
  castString : JSValue → Option String
  castNumber : JSValue → Option Int
  castDate : JSValue → Option Int

/-- An optional result of the library as the outcome of a cast. -/
def Cast.ofOption {α : Type} : Option α → Cast α
  | some a => .value a
  | none => .error

/-- The cast of a field to a string path. -/
def castStringField (lib : Mongoose) : JSValue → Cast String
  | .undefined => .absent
  | .null => .absent
  | .string s => .value s
  | v => Cast.ofOption (lib.castString v)

/-- The cast of a field to a number path that holds whole minutes. -/
def castNumberField (lib : Mongoose) : JSValue → Cast Int
  | .undefined => .absent
  | .null => .absent
  | .number (.finite q) =>
    if q.den = 1 then .value q.num else Cast.ofOption (lib.castNumber (.number (.finite q)))
  | v => Cast.ofOption (lib.castNumber v)

/-- The cast of a field to a date path. -/
def castDateField (lib : Mongoose) : JSValue → Cast Int
  | .undefined => .absent
  | .null => .absent
  | .date (some time) => .value time
  | .date none => .error
  | v => Cast.ofOption (lib.castDate v)

/-- Whether the library can cast the fields of a parsed task that no handler below
reads: `description`, `subject`, `location` and the strings of `tags`. -/
def otherFieldsCast (lib : Mongoose) (parsedTask : ParsedTask) : Bool :=
  decide (castStringField lib parsedTask.description ≠ .error)
    && decide (castStringField lib parsedTask.subject ≠ .error)
    && decide (castStringField lib parsedTask.location ≠ .error)
    && (match parsedTask.tags with
        | .undefined => true
        | .null => true
        | .array items => items.all fun item => decide (castStringField lib item ≠ .error)
        | v => decide (castStringField lib v ≠ .error))

/-- The fields of `{ ...parsedTask }` after the cast to the paths of the schema. -/
def bodyOfParsedTask (lib : Mongoose) (parsedTask : ParsedTask) : TaskBody :=
  { userId := .absent,
    title := castStringField lib parsedTask.title,
    category := castStringField lib parsedTask.category,
    priority := castStringField lib parsedTask.priority,
    difficulty := castStringField lib parsedTask.difficulty,
    status := .absent,
    estimatedDuration := castNumberField lib parsedTask.estimatedDuration,
    deadline := castDateField lib parsedTask.deadline }

/-- The method `parseTaskInput(input, userContext)`.  `remote` is the object the
remote model answered with, `none` when the call or the reading of its answer
threw, which is when the `catch` block returns `fallbackParsing(input)`. -/
def parseTaskInput (rt : Runtime) (doc : Compromise) (input : String)
    (remote : Option ParsedTask) : ParsedTask :=
  match remote with
  | some parsedTask => validateParsedTask rt parsedTask
  | none => fallbackParsing doc input

/-- The handler of `POST /tasks/from-text` for the authenticated user `userId` and
the body field `text`: the answer and the store afterwards. -/
def createTaskFromText (lib : Mongoose) (rt : Runtime) (doc : Compromise)
    (store : List StoredTask) (userId : Nat) (text : String) (remote : Option ParsedTask)
    (newId : Nat) (now : Int) : Response × List StoredTask :=
  if text = "" then
    ({ status := 400, message := "Text input is required", tasks := [] }, store)
  else
    let parsedTask := parseTaskInput rt doc text remote
    match (if otherFieldsCast lib parsedTask
        then newTask (bodyOfParsedTask lib parsedTask) userId newId now else none) with
    | none => (serverError, store)
    | some task =>
      match calculateAIPriority task.task now with
      | .ok aiPriority =>
        ({ status := 201, message := "Task created from text successfully",
           tasks := [(task, aiPriority)] }, store ++ [task])
      | .error _ => (serverError, store ++ [task])

end Campus

/-! Properties of the embedded code. -/

namespace Campus

/-! Priority scorer -/

theorem lookup_cons_ne {key k : String} {v : Int} {rest : List (String × Int)} (h : key ≠ k) :
    List.lookup key ((k, v) :: rest) = List.lookup key rest := by
  have hb : (key == k) = false := beq_eq_false_iff_ne.mpr h
  simp only [List.lookup, hb]

/-- For a key that is not an inherited member name, `categoryWeights[key] || 15`
is the number the specification's category table gives. -/
theorem category_operand (key : String) (h : key ∉ objectPrototypeKeys) :
    orDefault (getProperty categoryWeights key) 15 = .number (specCategoryBucket key) := by
  unfold getProperty specCategoryBucket categoryWeights
  by_cases h1 : key = "exam"
  · subst h1; decide
  by_cases h2 : key = "assignment"
  · subst h2; decide
  by_cases h3 : key = "project"
  · subst h3; decide
  by_cases h4 : key = "lab"
  · subst h4; decide
  by_cases h5 : key = "attendance"
  · subst h5; decide
  by_cases h6 : key = "academic"
  · subst h6; decide
  by_cases h7 : key = "internship"
  · subst h7; decide
  by_cases h8 : key = "personal"
  · subst h8; decide
  by_cases h9 : key = "other"
  · subst h9; decide
  rw [lookup_cons_ne h1, lookup_cons_ne h2, lookup_cons_ne h3, lookup_cons_ne h4,
    lookup_cons_ne h5, lookup_cons_ne h6, lookup_cons_ne h7, lookup_cons_ne h8,
    lookup_cons_ne h9]
  simp only [List.lookup, if_neg h, orDefault, if_neg h1, if_neg h2, if_neg h3,
    if_neg h4, if_neg h5, if_neg h6, if_neg h7, if_neg h8, if_neg h9]

/-- For a key that is not an inherited member name, `difficultyWeights[key] || 10`
is the number the specification's difficulty table gives. -/
theorem difficulty_operand (key : String) (h : key ∉ objectPrototypeKeys) :
    orDefault (getProperty difficultyWeights key) 10 = .number (specDifficultyBucket key) := by
  unfold getProperty specDifficultyBucket difficultyWeights
  by_cases h1 : key = "hard"
  · subst h1; decide
  by_cases h2 : key = "medium"
  · subst h2; decide
  by_cases h3 : key = "easy"
  · subst h3; decide
  rw [lookup_cons_ne h1, lookup_cons_ne h2, lookup_cons_ne h3]
  simp only [List.lookup, if_neg h, orDefault, if_neg h1, if_neg h2, if_neg h3]

/-- For a key that is not an inherited member name, `priorityWeights[key] || 10`
is the number the specification's priority table gives. -/
theorem priority_operand (key : String) (h : key ∉ objectPrototypeKeys) :
    orDefault (getProperty priorityWeights key) 10 = .number (specPriorityBucket key) := by
  unfold getProperty specPriorityBucket priorityWeights
  by_cases h1 : key = "urgent"
  · subst h1; decide
  by_cases h2 : key = "high"
  · subst h2; decide
  by_cases h3 : key = "medium"
  · subst h3; decide
  by_cases h4 : key = "low"
  · subst h4; decide
  rw [lookup_cons_ne h1, lookup_cons_ne h2, lookup_cons_ne h3, lookup_cons_ne h4]
  simp only [List.lookup, if_neg h, orDefault, if_neg h1, if_neg h2, if_neg h3, if_neg h4]

theorem timeScore_eq_spec (timeLeft : Int) : timeScore timeLeft = specTimeBucket timeLeft := by
  unfold timeScore specTimeBucket msPerHour
  norm_num

/-- The time bucket never grows when the time left grows. -/
theorem timeScore_antitone {x y : Int} (h : x ≤ y) : timeScore y ≤ timeScore x := by
  unfold timeScore msPerHour
  split_ifs <;> omega

/-- The scorer computes the specification's formula on every task with a deadline
whose three keys are not inherited member names. -/
theorem calculateAIPriority_plain (task : Task) (deadline now : Int)
    (hd : task.deadline = some deadline) (h : task.plainKeys) :
    calculateAIPriority task now
      = .ok (.num (specScore task.category task.priority task.difficulty (deadline - now))) := by
  obtain ⟨hc, hdi, hp⟩ := h
  simp only [calculateAIPriority, hd, category_operand _ hc, difficulty_operand _ hdi,
    priority_operand _ hp, Score.add, Score.clamp, specScore, timeScore_eq_spec, zero_add]

theorem specScore_range (c p d : String) (timeLeft : Int) :
    0 ≤ specScore c p d timeLeft ∧ specScore c p d timeLeft ≤ 100 := by
  unfold specScore
  exact ⟨le_min (by norm_num) (le_max_left _ _), min_le_left _ _⟩

theorem specScore_antitone (c p d : String) {x y : Int} (h : x ≤ y) :
    specScore c p d y ≤ specScore c p d x := by
  unfold specScore
  have ht : specTimeBucket y ≤ specTimeBucket x := by
    rw [← timeScore_eq_spec, ← timeScore_eq_spec]; exact timeScore_antitone h
  exact min_le_min le_rfl (max_le_max le_rfl (by linarith))

/-- Where the code does what C1 says: for every task whose category, difficulty
and priority are not names of members that every object inherits, and for
every deadline and current time (deadlines in the past included),
`calculateAIPriority` returns an integer score between 0 and 100. -/
theorem calculateAIPriority_range (task : Task) (deadline now : Int) (h : task.plainKeys) :
    ∃ s : Int, calculateAIPriority { task with deadline := some deadline } now = .ok (.num s)
      ∧ 0 ≤ s ∧ s ≤ 100 :=
  ⟨_, calculateAIPriority_plain { task with deadline := some deadline } deadline now rfl h,
    specScore_range _ _ _ _⟩

/-- C1, the code at the failing input: with the category `constructor` the read
`categoryWeights[task.category]` finds the inherited constructor function, so
the default of `|| 15` is not taken, `score` becomes a string and the method
returns `NaN`, which is no integer between 0 and 100. -/
theorem calculateAIPriority_range_fails_on_inherited_key :
    getProperty categoryWeights "constructor" = .inheritedMember
    ∧ calculateAIPriority ⟨1, "constructor", "medium", "medium", 60, some 0⟩ 0 = .ok .nan
    ∧ ¬ ∃ s : Int, calculateAIPriority ⟨1, "constructor", "medium", "medium", 60, some 0⟩ 0
        = .ok (.num s) ∧ 0 ≤ s ∧ s ≤ 100 := by
  have hnan : calculateAIPriority ⟨1, "constructor", "medium", "medium", 60, some 0⟩ 0
      = .ok .nan := by decide
  refine ⟨by decide, hnan, ?_⟩
  rintro ⟨s, hs, -⟩
  rw [hnan] at hs
  cases hs

/-- Where the code does what C2 says: for every current time and every two tasks
with the same category, difficulty and priority, none of them the name of a
member that every object inherits, whose deadlines satisfy `d1 ≤ d2`, both
scores are integers and the score of the task with deadline `d1` is greater
than or equal to the score of the task with deadline `d2`. -/
theorem calculateAIPriority_monotone (t1 t2 : Task) (d1 d2 now : Int)
    (hc : t1.category = t2.category) (hdi : t1.difficulty = t2.difficulty)
    (hp : t1.priority = t2.priority) (h1 : t1.deadline = some d1) (h2 : t2.deadline = some d2)
    (hk : t1.plainKeys) (hle : d1 ≤ d2) :
    ∃ s1 s2 : Int, calculateAIPriority t1 now = .ok (.num s1)
      ∧ calculateAIPriority t2 now = .ok (.num s2) ∧ s2 ≤ s1 := by
  have hk2 : t2.plainKeys := by
    unfold Task.plainKeys at hk ⊢
    rw [← hc, ← hdi, ← hp]; exact hk
  refine ⟨_, _, calculateAIPriority_plain t1 d1 now h1 hk,
    calculateAIPriority_plain t2 d2 now h2 hk2, ?_⟩
  rw [← hc, ← hdi, ← hp]
  exact specScore_antitone _ _ _ (by omega)

/-- C2, the code at the failing input: two tasks of category `constructor` that
differ only in their deadlines both score `NaN`, and `NaN >= NaN` is false: the
score of the task with the closer deadline is not greater than or equal to the
score of the other. -/
theorem calculateAIPriority_monotone_fails_on_inherited_key :
    calculateAIPriority ⟨1, "constructor", "medium", "medium", 60, some 0⟩ 0 = .ok .nan
    ∧ calculateAIPriority ⟨1, "constructor", "medium", "medium", 60, some 3600000⟩ 0
      = .ok .nan
    ∧ JSNumber.ge .nan .nan = false
    ∧ ¬ ∃ s1 s2 : Int,
      calculateAIPriority ⟨1, "constructor", "medium", "medium", 60, some 0⟩ 0 = .ok (.num s1)
      ∧ calculateAIPriority ⟨1, "constructor", "medium", "medium", 60, some 3600000⟩ 0
        = .ok (.num s2)
      ∧ s2 ≤ s1 := by
  have hnan : calculateAIPriority ⟨1, "constructor", "medium", "medium", 60, some 0⟩ 0
      = .ok .nan := by decide
  refine ⟨hnan, by decide, rfl, ?_⟩
  rintro ⟨s1, s2, hs, -, -⟩
  rw [hnan] at hs
  cases hs

/-- Where the code does what C3 says: for every task whose category, difficulty
and priority are not names of members that every object inherits, and every
deadline and current time, `calculateAIPriority` equals
`min(100, max(0, T + C + D + P))` with the four buckets of the specification
(unrecognised category 15, difficulty 10, priority 10); and an exam, urgent,
hard task due in 20 hours scores exactly 100. -/
theorem calculateAIPriority_formula :
    (∀ (task : Task) (deadline now : Int), task.plainKeys →
      calculateAIPriority { task with deadline := some deadline } now
        = .ok (.num (min 100 (max 0 (specTimeBucket (deadline - now)
            + specCategoryBucket task.category + specDifficultyBucket task.difficulty
            + specPriorityBucket task.priority)))))
    ∧ (∀ (taskId : Nat) (estimatedDuration now : Int),
        calculateAIPriority
          ⟨taskId, "exam", "urgent", "hard", estimatedDuration, some (now + 20 * 3600000)⟩ now
          = .ok (.num 100)) := by
  constructor
  · intro task deadline now h
    exact calculateAIPriority_plain { task with deadline := some deadline } deadline now rfl h
  · intro taskId estimatedDuration now
    have hk : Task.plainKeys
        ⟨taskId, "exam", "urgent", "hard", estimatedDuration, some (now + 20 * 3600000)⟩ :=
      ⟨(by decide : "exam" ∉ objectPrototypeKeys), (by decide : "hard" ∉ objectPrototypeKeys),
        (by decide : "urgent" ∉ objectPrototypeKeys)⟩
    rw [calculateAIPriority_plain _ (now + 20 * 3600000) now rfl hk]
    simp [specScore, specTimeBucket, specCategoryBucket, specDifficultyBucket,
      specPriorityBucket]

/-- C3, the code at the failing input: the category `toString` is not in the
table, so the formula gives it the category value 15 and the task the score
10 + 15 + 5 + 5 = 35; the code reads the inherited function `toString` from the
table instead of taking the default and returns `NaN`. -/
theorem calculateAIPriority_formula_fails_on_inherited_key :
    specCategoryBucket "toString" = 15
    ∧ min 100 (max 0 (specTimeBucket (3600000000 - 0) + specCategoryBucket "toString"
        + specDifficultyBucket "easy" + specPriorityBucket "low")) = 35
    ∧ calculateAIPriority ⟨1, "toString", "low", "easy", 60, some 3600000000⟩ 0 = .ok .nan
    ∧ calculateAIPriority ⟨1, "toString", "low", "easy", 60, some 3600000000⟩ 0
      ≠ .ok (.num (min 100 (max 0 (specTimeBucket (3600000000 - 0)
          + specCategoryBucket "toString" + specDifficultyBucket "easy"
          + specPriorityBucket "low")))) := by
  have hnan : calculateAIPriority ⟨1, "toString", "low", "easy", 60, some 3600000000⟩ 0
      = .ok .nan := by decide
  refine ⟨by decide, by decide, hnan, ?_⟩
  rw [hnan]
  intro h
  cases h

/-! Schedule entries: conflicts and free slots -/

theorem le_minutesBetween_iff (d x y : Int) :
    (d : ℚ) ≤ minutesBetween x y ↔ d * 60000 ≤ y - x := by
  unfold minutesBetween
  rw [le_div_iff₀ (by norm_num : (0 : ℚ) < 1000 * 60)]
  constructor
  · intro h
    have h2 : ((d * 60000 : Int) : ℚ) ≤ ((y - x : Int) : ℚ) := by
      push_cast at h ⊢; linarith
    exact_mod_cast h2
  · intro h
    have h2 : ((d * 60000 : Int) : ℚ) ≤ ((y - x : Int) : ℚ) := by exact_mod_cast h
    push_cast at h2 ⊢; linarith

/-- Every slot of a scan starts at or after the scan's `currentTime`, and when the
entries are sorted by `startTime` it overlaps none of them. -/
theorem scanSchedules_sound (endDate duration : Int) :
    ∀ (schedules : List Schedule) (currentTime : Int), SortedByStart schedules →
      ∀ slot ∈ scanSchedules endDate duration currentTime schedules,
        currentTime ≤ slot.startTime
        ∧ ∀ x ∈ schedules, ¬ (slot.startTime < x.endTime ∧ slot.endTime > x.startTime) := by
  intro schedules
  induction schedules with
  | nil =>
    intro currentTime _ slot hslot
    unfold scanSchedules at hslot
    split_ifs at hslot with hc
    · simp only [List.mem_singleton] at hslot
      subst hslot
      exact ⟨le_rfl, fun x hx => by cases hx⟩
    · cases hslot
  | cons s rest ih =>
    intro currentTime hsorted slot hslot
    unfold SortedByStart at hsorted
    rw [List.pairwise_cons] at hsorted
    obtain ⟨hhead, htail⟩ := hsorted
    unfold scanSchedules at hslot
    rw [List.mem_append] at hslot
    rcases hslot with hpush | hlater
    · split_ifs at hpush with hc
      · simp only [List.mem_singleton] at hpush
        subst hpush
        refine ⟨le_rfl, fun x hx => ?_⟩
        rintro ⟨-, hgt⟩
        rcases List.mem_cons.mp hx with rfl | hx
        · exact lt_irrefl _ hgt
        · have := hhead x hx
          simp only at hgt
          omega
      · cases hpush
    · obtain ⟨hstart, hfree⟩ := ih (max currentTime s.endTime) htail slot hlater
      have h1 : currentTime ≤ max currentTime s.endTime := le_max_left _ _
      have h2 : s.endTime ≤ max currentTime s.endTime := le_max_right _ _
      refine ⟨by omega, fun x hx => ?_⟩
      rcases List.mem_cons.mp hx with rfl | hx
      · rintro ⟨hlt, -⟩
        omega
      · exact hfree x hx

/-- A free interval that starts at or after the scan's `currentTime` and is long
enough lies inside one of the slots of the scan. -/
theorem scanSchedules_complete (endDate duration a b : Int) (hab : a < b) (hb : b ≤ endDate)
    (hlen : duration * 60000 ≤ b - a) :
    ∀ (schedules : List Schedule) (currentTime : Int), currentTime ≤ a →
      (∀ e ∈ schedules, ¬ (e.startTime < b ∧ e.endTime > a)) →
      ∃ slot ∈ scanSchedules endDate duration currentTime schedules,
        slot.startTime ≤ a ∧ b ≤ slot.endTime := by
  intro schedules
  induction schedules with
  | nil =>
    intro currentTime hcur _
    have hcond : currentTime < endDate
        ∧ (duration : ℚ) ≤ minutesBetween currentTime endDate :=
      ⟨by omega, (le_minutesBetween_iff _ _ _).mpr (by omega)⟩
    refine ⟨⟨currentTime, endDate, minutesBetween currentTime endDate⟩, ?_, hcur, hb⟩
    unfold scanSchedules
    rw [if_pos hcond]
    exact List.mem_singleton.mpr rfl
  | cons s rest ih =>
    intro currentTime hcur hfree
    have hs := hfree s (List.mem_cons_self _ _)
    have hrest : ∀ e ∈ rest, ¬ (e.startTime < b ∧ e.endTime > a) :=
      fun e he => hfree e (List.mem_cons_of_mem _ he)
    unfold scanSchedules
    by_cases hbefore : s.endTime ≤ a
    · obtain ⟨slot, hmem, hslot⟩ := ih (max currentTime s.endTime) (max_le hcur hbefore) hrest
      exact ⟨slot, List.mem_append_right _ hmem, hslot⟩
    · have hafter : b ≤ s.startTime := by
        by_contra hcon
        exact hs ⟨by omega, by omega⟩
      have hcond : currentTime < s.startTime
          ∧ (duration : ℚ) ≤ minutesBetween currentTime s.startTime :=
        ⟨by omega, (le_minutesBetween_iff _ _ _).mpr (by omega)⟩
      refine ⟨⟨currentTime, s.startTime, minutesBetween currentTime s.startTime⟩, ?_,
        hcur, hafter⟩
      rw [if_pos hcond]
      exact List.mem_append_left _ (List.mem_singleton.mpr rfl)

/-- Every slot of a scan is a non-empty span inside the window that carries its own
length in minutes, which is at least the requested duration. -/
theorem scanSchedules_slot (endDate duration : Int) :
    ∀ (schedules : List Schedule) (currentTime : Int),
      (∀ e ∈ schedules, e.startTime ≤ endDate) →
      ∀ slot ∈ scanSchedules endDate duration currentTime schedules,
        currentTime ≤ slot.startTime ∧ slot.startTime < slot.endTime
        ∧ slot.endTime ≤ endDate
        ∧ slot.duration = minutesBetween slot.startTime slot.endTime
        ∧ (duration : ℚ) ≤ slot.duration := by
  intro schedules
  induction schedules with
  | nil =>
    intro currentTime _ slot hslot
    unfold scanSchedules at hslot
    split_ifs at hslot with hc
    · simp only [List.mem_singleton] at hslot
      subst hslot
      exact ⟨le_rfl, hc.1, le_rfl, rfl, hc.2⟩
    · cases hslot
  | cons s rest ih =>
    intro currentTime hin slot hslot
    unfold scanSchedules at hslot
    rw [List.mem_append] at hslot
    rcases hslot with hpush | hlater
    · split_ifs at hpush with hc
      · simp only [List.mem_singleton] at hpush
        subst hpush
        exact ⟨le_rfl, hc.1, hin s (List.mem_cons_self _ _), rfl, hc.2⟩
      · cases hpush
    · obtain ⟨h1, h2⟩ := ih (max currentTime s.endTime)
        (fun e he => hin e (List.mem_cons_of_mem _ he)) slot hlater
      exact ⟨le_trans (le_max_left _ _) h1, h2⟩

/-- The scan of the entries 9:00 to 10:00 and 11:00 to 12:00 over the window 9:00
to 13:00 with a minimum duration of 60 minutes. -/
theorem availableSlots_two_entries :
    availableSlots
        [⟨1, atClock 9 0, atClock 10 0, true⟩, ⟨1, atClock 11 0, atClock 12 0, true⟩]
        (atClock 9 0) (atClock 13 0) 60
      = [⟨atClock 10 0, atClock 11 0, 60⟩, ⟨atClock 12 0, atClock 13 0, 60⟩] := by
  simp [availableSlots, scanSchedules, atClock, minutesBetween]
  norm_num

/-- C4: for two entries with `startTime < endTime`, `a.conflictsWith(b)` is true
exactly when the half-open intervals of `a` and `b` share an instant; on any
day the entries 10:00 to 11:00 and 10:30 to 11:30 conflict, and the entries
10:00 to 11:00 and 11:00 to 12:00 do not, in either order. -/
theorem conflictsWith_iff_share_instant :
    (∀ a b : Schedule, a.startTime < a.endTime → b.startTime < b.endTime →
      (a.conflictsWith b = true ↔
        ∃ t : Int, (a.startTime ≤ t ∧ t < a.endTime) ∧ (b.startTime ≤ t ∧ t < b.endTime)))
    ∧ (∀ (day : Int) (u v : Nat) (p q : Bool),
        Schedule.conflictsWith ⟨u, day + atClock 10 0, day + atClock 11 0, p⟩
          ⟨v, day + atClock 10 30, day + atClock 11 30, q⟩ = true)
    ∧ (∀ (day : Int) (u v : Nat) (p q : Bool),
        Schedule.conflictsWith ⟨u, day + atClock 10 0, day + atClock 11 0, p⟩
            ⟨v, day + atClock 11 0, day + atClock 12 0, q⟩ = false
        ∧ Schedule.conflictsWith ⟨v, day + atClock 11 0, day + atClock 12 0, q⟩
            ⟨u, day + atClock 10 0, day + atClock 11 0, p⟩ = false) := by
  refine ⟨?_, ?_, ?_⟩
  · intro a b ha hb
    simp only [Schedule.conflictsWith, Bool.and_eq_true, decide_eq_true_eq]
    constructor
    · rintro ⟨h1, h2⟩
      exact ⟨max a.startTime b.startTime,
        ⟨le_max_left _ _, max_lt ha (by omega)⟩, ⟨le_max_right _ _, max_lt h1 hb⟩⟩
    · rintro ⟨t, ⟨h1, h2⟩, ⟨h3, h4⟩⟩
      exact ⟨by omega, by omega⟩
  · intro day u v p q
    simp [Schedule.conflictsWith, atClock]
  · intro day u v p q
    simp [Schedule.conflictsWith, atClock]

/-- C4, witness: the entries 10:00 to 11:00 and 10:30 to 11:30 conflict, and share
the instant 10:30. -/
theorem conflictsWith_iff_share_instant_witness :
    Schedule.conflictsWith ⟨1, atClock 10 0, atClock 11 0, true⟩
        ⟨1, atClock 10 30, atClock 11 30, true⟩ = true
      ↔ ∃ t : Int, (atClock 10 0 ≤ t ∧ t < atClock 11 0)
          ∧ (atClock 10 30 ≤ t ∧ t < atClock 11 30) :=
  conflictsWith_iff_share_instant.1 ⟨1, atClock 10 0, atClock 11 0, true⟩
    ⟨1, atClock 10 30, atClock 11 30, true⟩ (by decide) (by decide)

/-- C5: the free-slot search is complete.  For entries sorted by `startTime` with
`startTime ≤ endTime`, every window and every minimum duration `d`, each
interval from `a` to `b` inside the window that is at least `d` minutes long
and conflicts with no entry lies inside one of the returned slots; and for the
entries 9:00 to 10:00 and 11:00 to 12:00, the window 9:00 to 13:00 and
`d = 60` the query returns exactly the slots 10:00 to 11:00 and 12:00 to
13:00. -/
theorem findAvailableSlots_complete :
    (∀ (schedules : List Schedule) (startDate endDate d a b : Int),
      SortedByStart schedules → (∀ e ∈ schedules, e.startTime ≤ e.endTime) →
      startDate ≤ a → a < b → b ≤ endDate → d * 60000 ≤ b - a →
      (∀ e ∈ schedules, ¬ (e.startTime < b ∧ e.endTime > a)) →
      ∃ slot ∈ availableSlots schedules startDate endDate d,
        slot.startTime ≤ a ∧ b ≤ slot.endTime)
    ∧ Schedule.findAvailableSlots
        [⟨1, atClock 9 0, atClock 10 0, true⟩, ⟨1, atClock 11 0, atClock 12 0, true⟩]
        1 (atClock 9 0) (atClock 13 0) 60
      = [⟨atClock 10 0, atClock 11 0, 60⟩, ⟨atClock 12 0, atClock 13 0, 60⟩] := by
  constructor
  · intro schedules startDate endDate d a b _ _ ha hab hb hlen hfree
    exact scanSchedules_complete endDate d a b hab hb hlen schedules startDate ha hfree
  · simp [Schedule.findAvailableSlots, Schedule.find, availableSlots, scanSchedules, atClock,
      minutesBetween]
    norm_num

/-- C5, witness: with one entry 10:00 to 11:00 in the window 9:00 to 13:00, the
free interval 11:30 to 12:30 lies inside a returned slot. -/
theorem findAvailableSlots_complete_witness :
    ∃ slot ∈ availableSlots [⟨1, atClock 10 0, atClock 11 0, true⟩]
        (atClock 9 0) (atClock 13 0) 60,
      slot.startTime ≤ atClock 11 30 ∧ atClock 12 30 ≤ slot.endTime :=
  findAvailableSlots_complete.1 [⟨1, atClock 10 0, atClock 11 0, true⟩]
    (atClock 9 0) (atClock 13 0) 60 (atClock 11 30) (atClock 12 30)
    (by decide) (by decide) (by decide) (by decide) (by decide) (by decide) (by decide)

/-- C6: the free-slot search is sound.  For every list of entries sorted by
`startTime`, in particular the list the query selects, no returned slot
overlaps any of the entries. -/
theorem findAvailableSlots_sound :
    (∀ (schedules : List Schedule) (startDate endDate d : Int), SortedByStart schedules →
      ∀ slot ∈ availableSlots schedules startDate endDate d, ∀ x ∈ schedules,
        ¬ (slot.startTime < x.endTime ∧ slot.endTime > x.startTime))
    ∧ (∀ (collection : List Schedule) (userId : Nat) (startDate endDate d : Int),
      ∀ slot ∈ Schedule.findAvailableSlots collection userId startDate endDate d,
        ∀ x ∈ Schedule.find collection userId startDate endDate,
          ¬ (slot.startTime < x.endTime ∧ slot.endTime > x.startTime)) := by
  constructor
  · intro schedules startDate endDate d hsorted slot hslot
    exact (scanSchedules_sound endDate d schedules startDate hsorted slot hslot).2
  · intro collection userId startDate endDate d slot hslot
    haveI : IsTotal Schedule (fun a b => a.startTime ≤ b.startTime) :=
      ⟨fun a b => le_total a.startTime b.startTime⟩
    haveI : IsTrans Schedule (fun a b => a.startTime ≤ b.startTime) :=
      ⟨fun a b c hab hbc => le_trans hab hbc⟩
    have hsorted : SortedByStart (Schedule.find collection userId startDate endDate) :=
      List.sorted_insertionSort (fun a b : Schedule => a.startTime ≤ b.startTime) _
    exact (scanSchedules_sound endDate d _ startDate hsorted slot hslot).2

/-- C6, witness: with the entries 9:00 to 10:00 and 11:00 to 12:00 in the window
9:00 to 13:00 the slot 10:00 to 11:00 is returned, and it does not overlap the
entry 11:00 to 12:00. -/
theorem findAvailableSlots_sound_witness :
    (⟨atClock 10 0, atClock 11 0, 60⟩ : Slot) ∈ availableSlots
        [⟨1, atClock 9 0, atClock 10 0, true⟩, ⟨1, atClock 11 0, atClock 12 0, true⟩]
        (atClock 9 0) (atClock 13 0) 60
    ∧ ¬ ((⟨atClock 10 0, atClock 11 0, 60⟩ : Slot).startTime
          < (⟨1, atClock 11 0, atClock 12 0, true⟩ : Schedule).endTime
        ∧ (⟨atClock 10 0, atClock 11 0, 60⟩ : Slot).endTime
          > (⟨1, atClock 11 0, atClock 12 0, true⟩ : Schedule).startTime) :=
  ⟨by rw [availableSlots_two_entries]; exact List.mem_cons_self _ _,
   findAvailableSlots_sound.1
    [⟨1, atClock 9 0, atClock 10 0, true⟩, ⟨1, atClock 11 0, atClock 12 0, true⟩]
    (atClock 9 0) (atClock 13 0) 60 (by decide) ⟨atClock 10 0, atClock 11 0, 60⟩
    (by rw [availableSlots_two_entries]; exact List.mem_cons_self _ _)
    ⟨1, atClock 11 0, atClock 12 0, true⟩ (by decide)⟩

/-- C7: for selected entries (`startDate ≤ startTime ≤ endTime ≤ endDate`) sorted by
`startTime` and every minimum duration `d`, each returned slot satisfies
`startDate ≤ slot.startTime < slot.endTime ≤ endDate`, its `duration` field is
the length of the slot in minutes, and that duration is at least `d`. -/
theorem findAvailableSlots_slot_shape (schedules : List Schedule) (startDate endDate d : Int)
    (_hsorted : SortedByStart schedules)
    (hselected : ∀ e ∈ schedules,
      startDate ≤ e.startTime ∧ e.startTime ≤ e.endTime ∧ e.endTime ≤ endDate) :
    ∀ slot ∈ availableSlots schedules startDate endDate d,
      startDate ≤ slot.startTime ∧ slot.startTime < slot.endTime ∧ slot.endTime ≤ endDate
      ∧ slot.duration = ((slot.endTime - slot.startTime : Int) : ℚ) / 60000
      ∧ (d : ℚ) ≤ slot.duration := by
  intro slot hslot
  obtain ⟨h1, h2, h3, h4, h5⟩ := scanSchedules_slot endDate d schedules startDate
    (fun e he => by have := hselected e he; omega) slot hslot
  refine ⟨h1, h2, h3, ?_, h5⟩
  rw [h4]
  unfold minutesBetween
  norm_num

/-- C7, witness: with the entries 9:00 to 10:00 and 11:00 to 12:00 in the window
9:00 to 13:00 and a minimum duration of 60 minutes, the returned slot 12:00 to
13:00 lies in the window and carries its length of 60 minutes. -/
theorem findAvailableSlots_slot_shape_witness :
    (⟨atClock 12 0, atClock 13 0, 60⟩ : Slot) ∈ availableSlots
        [⟨1, atClock 9 0, atClock 10 0, true⟩, ⟨1, atClock 11 0, atClock 12 0, true⟩]
        (atClock 9 0) (atClock 13 0) 60
    ∧ (atClock 9 0 ≤ (⟨atClock 12 0, atClock 13 0, 60⟩ : Slot).startTime
      ∧ (⟨atClock 12 0, atClock 13 0, 60⟩ : Slot).startTime
          < (⟨atClock 12 0, atClock 13 0, 60⟩ : Slot).endTime
      ∧ (⟨atClock 12 0, atClock 13 0, 60⟩ : Slot).endTime ≤ atClock 13 0
      ∧ (⟨atClock 12 0, atClock 13 0, 60⟩ : Slot).duration
          = (((⟨atClock 12 0, atClock 13 0, 60⟩ : Slot).endTime
              - (⟨atClock 12 0, atClock 13 0, 60⟩ : Slot).startTime : Int) : ℚ) / 60000
      ∧ ((60 : Int) : ℚ) ≤ (⟨atClock 12 0, atClock 13 0, 60⟩ : Slot).duration) :=
  ⟨by rw [availableSlots_two_entries]; exact List.mem_cons_of_mem _ (List.mem_cons_self _ _),
   findAvailableSlots_slot_shape
    [⟨1, atClock 9 0, atClock 10 0, true⟩, ⟨1, atClock 11 0, atClock 12 0, true⟩]
    (atClock 9 0) (atClock 13 0) 60 (by decide) (by decide) ⟨atClock 12 0, atClock 13 0, 60⟩
    (by rw [availableSlots_two_entries]; exact List.mem_cons_of_mem _ (List.mem_cons_self _ _))⟩

/-! Fallback scheduler -/

theorem calculateAIPriority_isOk (task : Task) (now : Int) (h : task.deadline ≠ none) :
    ∃ v, calculateAIPriority task now = .ok v := by
  unfold calculateAIPriority
  cases hd : task.deadline with
  | none => exact absurd hd h
  | some d => exact ⟨_, rfl⟩

/-- The scorer returns exactly for the tasks that have a deadline. -/
theorem calculateAIPriority_ok_iff (task : Task) (now : Int) :
    (∃ v, calculateAIPriority task now = .ok v) ↔ task.deadline ≠ none := by
  constructor
  · rintro ⟨v, hv⟩ hnone
    simp only [calculateAIPriority, hnone] at hv
    cases hv
  · exact calculateAIPriority_isOk task now

theorem compareTasks_isOk (now : Int) (a b : Task) (ha : a.deadline ≠ none)
    (hb : b.deadline ≠ none) : ∃ c, compareTasks now a b = .ok c := by
  obtain ⟨va, hva⟩ := calculateAIPriority_isOk a now ha
  obtain ⟨vb, hvb⟩ := calculateAIPriority_isOk b now hb
  exact ⟨vb.sub va, by simp only [compareTasks, hva, hvb, bind, Except.bind, pure, Except.pure]⟩

theorem compareTasks_ok_deadlines (now : Int) (a b : Task) (c : JSNumber)
    (h : compareTasks now a b = .ok c) : a.deadline ≠ none ∧ b.deadline ≠ none := by
  simp only [compareTasks, bind, Except.bind] at h
  cases ha : calculateAIPriority a now with
  | error e => rw [ha] at h; cases h
  | ok va =>
    rw [ha] at h
    simp only at h
    cases hb : calculateAIPriority b now with
    | error e => rw [hb] at h; cases h
    | ok vb =>
      exact ⟨(calculateAIPriority_ok_iff a now).mp ⟨va, ha⟩,
        (calculateAIPriority_ok_iff b now).mp ⟨vb, hb⟩⟩

/-- What `extendRun` returns splits the elements it was given, and every element
that joined the run was handed to the comparator. -/
theorem extendRun_spec (now : Int) (isDescending : Bool) :
    ∀ (l : List Task) (previousElement : Task) (found : List Task × List Task),
      extendRun now isDescending previousElement l = .ok found →
      found.1 ++ found.2 = l ∧ ∀ t ∈ found.1, t.deadline ≠ none := by
  intro l
  induction l with
  | nil =>
    intro p found h
    simp only [extendRun, pure, Except.pure, Except.ok.injEq] at h
    subst h
    exact ⟨rfl, fun t ht => by cases ht⟩
  | cons c rest ih =>
    intro p found h
    simp only [extendRun, bind, Except.bind] at h
    cases hc : compareTasks now c p with
    | error e => rw [hc] at h; cases h
    | ok order =>
      rw [hc] at h
      simp only at h
      by_cases hrun : order.isNegative = isDescending
      · rw [if_pos hrun] at h
        cases hr : extendRun now isDescending c rest with
        | error e => rw [hr] at h; cases h
        | ok f =>
          rw [hr] at h
          simp only [pure, Except.pure, Except.ok.injEq] at h
          subst h
          obtain ⟨happ, hdl⟩ := ih c f hr
          refine ⟨by simp only [List.cons_append, happ], ?_⟩
          intro t ht
          rcases List.mem_cons.mp ht with rfl | ht
          · exact (compareTasks_ok_deadlines now _ p order hc).1
          · exact hdl t ht
      · rw [if_neg hrun] at h
        simp only [pure, Except.pure, Except.ok.injEq] at h
        subst h
        exact ⟨rfl, fun t ht => by cases ht⟩

theorem extendRun_isOk (now : Int) (isDescending : Bool) :
    ∀ (l : List Task) (previousElement : Task), previousElement.deadline ≠ none →
      (∀ t ∈ l, t.deadline ≠ none) →
      ∃ found, extendRun now isDescending previousElement l = .ok found := by
  intro l
  induction l with
  | nil => intro p _ _; exact ⟨_, rfl⟩
  | cons c rest ih =>
    intro p hp hl
    have hcd := hl c (List.mem_cons_self _ _)
    obtain ⟨order, hc⟩ := compareTasks_isOk now c p hcd hp
    obtain ⟨f, hf⟩ := ih c hcd (fun t ht => hl t (List.mem_cons_of_mem _ ht))
    simp only [extendRun, bind, Except.bind, hc, hf]
    by_cases hrun : order.isNegative = isDescending
    · exact ⟨_, by rw [if_pos hrun]; rfl⟩
    · exact ⟨_, by rw [if_neg hrun]; rfl⟩

/-- The run and the rest that `countAndMakeRun` returns hold the elements of the
array; with two elements or more the run is not empty and each of its elements
was handed to the comparator. -/
theorem countAndMakeRun_spec (now : Int) (l : List Task) (found : List Task × List Task)
    (h : countAndMakeRun now l = .ok found) :
    (found.1 ++ found.2).Perm l
      ∧ (2 ≤ l.length → found.1 ≠ [] ∧ ∀ t ∈ found.1, t.deadline ≠ none) := by
  match l, h with
  | [], h =>
    simp only [countAndMakeRun, pure, Except.pure, Except.ok.injEq] at h
    subst h
    exact ⟨List.Perm.refl _, fun hlen => by simp at hlen⟩
  | [only], h =>
    simp only [countAndMakeRun, pure, Except.pure, Except.ok.injEq] at h
    subst h
    exact ⟨List.Perm.refl _, fun hlen => by simp at hlen⟩
  | elementHigh :: elementLow :: rest, h =>
    simp only [countAndMakeRun, bind, Except.bind] at h
    cases hc : compareTasks now elementLow elementHigh with
    | error e => rw [hc] at h; cases h
    | ok order =>
      rw [hc] at h
      simp only at h
      cases hr : extendRun now order.isNegative elementLow rest with
      | error e => rw [hr] at h; cases h
      | ok f =>
        rw [hr] at h
        simp only [pure, Except.pure, Except.ok.injEq] at h
        subst h
        obtain ⟨happ, hdl⟩ := extendRun_spec now order.isNegative rest elementLow f hr
        obtain ⟨hlow, hhigh⟩ := compareTasks_ok_deadlines now _ _ order hc
        have hrun : ∀ t ∈ elementHigh :: elementLow :: f.1, t.deadline ≠ none := by
          intro t ht
          rcases List.mem_cons.mp ht with rfl | ht
          · exact hhigh
          · rcases List.mem_cons.mp ht with rfl | ht
            · exact hlow
            · exact hdl t ht
        have hwhole : (elementHigh :: elementLow :: f.1) ++ f.2
            = elementHigh :: elementLow :: rest := by
          simp only [List.cons_append, happ]
        by_cases hdesc : order.isNegative = true
        · rw [if_pos hdesc]
          refine ⟨?_, fun _ => ⟨?_, ?_⟩⟩
          · rw [← hwhole]
            exact (List.reverse_perm _).append_right _
          · intro hnil
            have := congrArg List.length hnil
            simp at this
          · intro t ht
            exact hrun t (List.mem_reverse.mp ht)
        · rw [if_neg hdesc]
          refine ⟨?_, fun _ => ⟨?_, hrun⟩⟩
          · rw [hwhole]
          · intro hnil
            cases hnil

theorem countAndMakeRun_isOk (now : Int) (l : List Task) (hl : ∀ t ∈ l, t.deadline ≠ none) :
    ∃ found, countAndMakeRun now l = .ok found := by
  match l, hl with
  | [], _ => exact ⟨_, rfl⟩
  | [only], _ => exact ⟨_, rfl⟩
  | elementHigh :: elementLow :: rest, hl =>
    have hh := hl elementHigh (List.mem_cons_self _ _)
    have hlo := hl elementLow (List.mem_cons_of_mem _ (List.mem_cons_self _ _))
    obtain ⟨order, hc⟩ := compareTasks_isOk now elementLow elementHigh hlo hh
    obtain ⟨f, hf⟩ := extendRun_isOk now order.isNegative rest elementLow hlo
      (fun t ht => hl t (List.mem_cons_of_mem _ (List.mem_cons_of_mem _ ht)))
    exact ⟨_, by simp only [countAndMakeRun, bind, Except.bind, hc, hf]; rfl⟩

/-- A binary search over a window that is not empty hands the pivot to the
comparator. -/
theorem insertionPoint_ok_deadline (now : Int) (pivot : Task) (steps : Nat)
    (window : List Task) (left : Nat) (hne : window ≠ [])
    (h : insertionPoint now pivot (steps + 1) window = .ok left) : pivot.deadline ≠ none := by
  simp only [insertionPoint] at h
  cases hd : window.drop (window.length / 2) with
  | nil =>
    exfalso
    have hlen := List.drop_eq_nil_iff.mp hd
    have hpos : 0 < window.length := List.length_pos.mpr hne
    omega
  | cons middle behind =>
    rw [hd] at h
    simp only [bind, Except.bind] at h
    cases hc : compareTasks now pivot middle with
    | error e => rw [hc] at h; cases h
    | ok order => exact (compareTasks_ok_deadlines now pivot middle order hc).1

theorem insertionPoint_isOk (now : Int) (pivot : Task) (hp : pivot.deadline ≠ none) :
    ∀ (steps : Nat) (window : List Task), (∀ t ∈ window, t.deadline ≠ none) →
      ∃ left, insertionPoint now pivot steps window = .ok left := by
  intro steps
  induction steps with
  | zero => intro _ _; exact ⟨0, rfl⟩
  | succ n ih =>
    intro window hw
    simp only [insertionPoint]
    cases hd : window.drop (window.length / 2) with
    | nil => exact ⟨0, rfl⟩
    | cons middle behind =>
      have hsub : ∀ t ∈ middle :: behind, t.deadline ≠ none := fun t ht =>
        hw t (List.mem_of_mem_drop (hd ▸ ht))
      obtain ⟨order, hc⟩ := compareTasks_isOk now pivot middle hp
        (hsub middle (List.mem_cons_self _ _))
      simp only [bind, Except.bind, hc]
      by_cases hneg : order.isNegative = true
      · rw [if_pos hneg]
        exact ih _ (fun t ht => hw t (List.mem_of_mem_take ht))
      · rw [if_neg hneg]
        obtain ⟨found, hf⟩ := ih behind (fun t ht => hsub t (List.mem_cons_of_mem _ ht))
        exact ⟨_, by rw [hf]; rfl⟩

/-- Binary insertion returns a rearrangement of the run and the elements put into
it; when the run is not empty, every element put into it was handed to the
comparator. -/
theorem binaryInsertionSort_spec (now : Int) :
    ∀ (rest sorted out : List Task), binaryInsertionSort now sorted rest = .ok out →
      out.Perm (sorted ++ rest) ∧ (sorted ≠ [] → ∀ t ∈ rest, t.deadline ≠ none) := by
  intro rest
  induction rest with
  | nil =>
    intro sorted out h
    simp only [binaryInsertionSort, pure, Except.pure, Except.ok.injEq] at h
    subst h
    exact ⟨by simp, fun _ t ht => by cases ht⟩
  | cons pivot rest ih =>
    intro sorted out h
    simp only [binaryInsertionSort, bind, Except.bind] at h
    cases hl : insertionPoint now pivot sorted.length sorted with
    | error e => rw [hl] at h; cases h
    | ok left =>
      rw [hl] at h
      simp only at h
      obtain ⟨hperm, hdl⟩ := ih _ out h
      have hmid : (sorted.take left ++ pivot :: sorted.drop left).Perm (pivot :: sorted) := by
        have := @List.perm_middle _ pivot (sorted.take left) (sorted.drop left)
        rwa [List.take_append_drop] at this
      refine ⟨?_, ?_⟩
      · refine hperm.trans ?_
        refine (hmid.append_right rest).trans ?_
        simp only [List.cons_append]
        exact (@List.perm_middle _ pivot sorted rest).symm
      · intro hne t ht
        rcases List.mem_cons.mp ht with rfl | ht
        · cases hs : sorted with
          | nil => exact absurd hs hne
          | cons x xs =>
            rw [hs] at hl
            exact insertionPoint_ok_deadline now _ xs.length (x :: xs) left (by simp) hl
        · exact hdl (by simp) t ht

theorem binaryInsertionSort_isOk (now : Int) :
    ∀ (rest sorted : List Task), (∀ t ∈ sorted, t.deadline ≠ none) →
      (∀ t ∈ rest, t.deadline ≠ none) →
      ∃ out, binaryInsertionSort now sorted rest = .ok out := by
  intro rest
  induction rest with
  | nil => intro sorted _ _; exact ⟨sorted, rfl⟩
  | cons pivot rest ih =>
    intro sorted hs hr
    have hp := hr pivot (List.mem_cons_self _ _)
    obtain ⟨left, hl⟩ := insertionPoint_isOk now pivot hp sorted.length sorted hs
    simp only [binaryInsertionSort, bind, Except.bind, hl]
    apply ih
    · intro t ht
      rcases List.mem_append.mp ht with ht | ht
      · exact hs t (List.mem_of_mem_take ht)
      · rcases List.mem_cons.mp ht with rfl | ht
        · exact hp
        · exact hs t (List.mem_of_mem_drop ht)
    · exact fun t ht => hr t (List.mem_cons_of_mem _ ht)

theorem sortTasks_isOk_short (now : Int) (l : List Task) (h : l.length ≤ 1) :
    sortTasks now l = .ok l := by
  unfold sortTasks
  rw [if_pos (by omega)]
  rfl

theorem sortTasks_perm (now : Int) :
    ∀ (l out : List Task), sortTasks now l = .ok out → out.Perm l := by
  intro l out h
  unfold sortTasks at h
  by_cases hlen : l.length < 2
  · rw [if_pos hlen] at h
    simp only [pure, Except.pure, Except.ok.injEq] at h
    subst h
    exact List.Perm.refl _
  · rw [if_neg hlen] at h
    simp only [bind, Except.bind] at h
    cases hf : countAndMakeRun now l with
    | error e => rw [hf] at h; cases h
    | ok found =>
      rw [hf] at h
      exact (binaryInsertionSort_spec now _ _ out h).1.trans
        (countAndMakeRun_spec now l found hf).1

theorem sortTasks_isOk (now : Int) :
    ∀ l : List Task, (∀ t ∈ l, t.deadline ≠ none) → ∃ out, sortTasks now l = .ok out := by
  intro l hl
  unfold sortTasks
  by_cases hlen : l.length < 2
  · rw [if_pos hlen]
    exact ⟨l, rfl⟩
  · rw [if_neg hlen]
    obtain ⟨found, hf⟩ := countAndMakeRun_isOk now l hl
    have hmem : ∀ t ∈ found.1 ++ found.2, t.deadline ≠ none := fun t ht =>
      hl t ((countAndMakeRun_spec now l found hf).1.mem_iff.mp ht)
    obtain ⟨out, ho⟩ := binaryInsertionSort_isOk now found.2 found.1
      (fun t ht => hmem t (List.mem_append_left _ ht))
      (fun t ht => hmem t (List.mem_append_right _ ht))
    exact ⟨out, by simp only [bind, Except.bind, hf, ho]⟩

/-- The sort returns only when there is at most one task or every task has a
deadline. -/
theorem sortTasks_ok_deadlines (now : Int) :
    ∀ (l out : List Task), sortTasks now l = .ok out →
      l.length ≤ 1 ∨ ∀ t ∈ l, t.deadline ≠ none := by
  intro l out h
  unfold sortTasks at h
  by_cases hlen : l.length < 2
  · exact Or.inl (by omega)
  · right
    rw [if_neg hlen] at h
    simp only [bind, Except.bind] at h
    cases hf : countAndMakeRun now l with
    | error e => rw [hf] at h; cases h
    | ok found =>
      rw [hf] at h
      obtain ⟨hperm, hrun⟩ := countAndMakeRun_spec now l found hf
      obtain ⟨hne, hdl⟩ := hrun (by omega)
      have hrest := (binaryInsertionSort_spec now _ _ out h).2 hne
      intro t ht
      rcases List.mem_append.mp (hperm.mem_iff.mpr ht) with ht | ht
      · exact hdl t ht
      · exact hrest t ht

theorem timeClip_eq_some (time u : Int) :
    timeClip time = some u ↔ InDateRange time ∧ u = time := by
  unfold timeClip InDateRange
  by_cases h : -maxTimeValue ≤ time ∧ time ≤ maxTimeValue
  · rw [if_pos h]
    simp only [Option.some.injEq, h, true_and]
    exact eq_comm
  · rw [if_neg h]
    constructor
    · intro hn
      cases hn
    · intro hf
      exact absurd hf.1 h

theorem timeClip_of_inDateRange (time : Int) (h : InDateRange time) :
    timeClip time = some time :=
  (timeClip_eq_some time time).mpr ⟨h, rfl⟩

theorem timeClip_eq_none (time : Int) (h : ¬ InDateRange time) : timeClip time = none := by
  unfold timeClip
  exact if_neg h

/-- One turn of the loop: when it returns, the cursor is a valid date, the end of
the task is a time value a `Date` can hold, and the rest of the loop runs from
the end plus the break. -/
theorem placeTasks_cons_ok (breakDuration : Int) (currentTime : Option Int) (task : Task)
    (rest : List Task) (out : List Assignment)
    (h : placeTasks breakDuration currentTime (task :: rest) = .ok out) :
    ∃ (cur : Int) (later : List Assignment), currentTime = some cur
      ∧ InDateRange (cur + task.estimatedDuration * 60000)
      ∧ placeTasks breakDuration
          (timeClip (cur + task.estimatedDuration * 60000 + breakDuration * 60000)) rest
        = .ok later
      ∧ out = { taskId := task._id, scheduledStartTime := cur,
                scheduledEndTime := cur + task.estimatedDuration * 60000,
                reasoning := "Fallback scheduling based on priority" } :: later := by
  cases currentTime with
  | none => simp [placeTasks, toISOString, bind, Except.bind] at h
  | some cur =>
    by_cases hr : InDateRange (cur + task.estimatedDuration * 60000)
    · have hclip := timeClip_of_inDateRange _ hr
      simp only [placeTasks, dateAfter, Option.bind, hclip, toISOString, bind,
        Except.bind] at h
      cases hl : placeTasks breakDuration
          (timeClip (cur + task.estimatedDuration * 60000 + breakDuration * 60000)) rest with
      | error e => rw [hl] at h; cases h
      | ok later =>
        rw [hl] at h
        simp only [pure, Except.pure, Except.ok.injEq] at h
        exact ⟨cur, later, rfl, hr, hl, h.symm⟩
    · have hclip := timeClip_eq_none _ hr
      simp [placeTasks, dateAfter, Option.bind, hclip, toISOString, bind, Except.bind] at h

/-- One turn of the loop, the other way round. -/
theorem placeTasks_cons_of_ok (breakDuration cur : Int) (task : Task) (rest : List Task)
    (later : List Assignment) (hr : InDateRange (cur + task.estimatedDuration * 60000))
    (hl : placeTasks breakDuration
        (timeClip (cur + task.estimatedDuration * 60000 + breakDuration * 60000)) rest
      = .ok later) :
    placeTasks breakDuration (some cur) (task :: rest)
      = .ok ({ taskId := task._id, scheduledStartTime := cur,
               scheduledEndTime := cur + task.estimatedDuration * 60000,
               reasoning := "Fallback scheduling based on priority" } :: later) := by
  have hclip := timeClip_of_inDateRange _ hr
  simp only [placeTasks, dateAfter, Option.bind, hclip, toISOString, bind, Except.bind, hl]
  rfl

/-- What the loop guarantees about the assignments it returns for `tasks`. -/
theorem placeTasks_spec (breakDuration : Int) :
    ∀ (tasks : List Task) (currentTime : Option Int) (out : List Assignment),
      placeTasks breakDuration currentTime tasks = .ok out →
      List.Forall₂ (fun (a : Assignment) (t : Task) => a.taskId = t._id
          ∧ a.scheduledEndTime - a.scheduledStartTime = t.estimatedDuration * 60000) out tasks
      ∧ (∀ a, out.head? = some a → currentTime = some a.scheduledStartTime)
      ∧ ∀ (i : Nat) (x y : Assignment), out[i]? = some x → out[i + 1]? = some y →
          y.scheduledStartTime = x.scheduledEndTime + breakDuration * 60000 := by
  intro tasks
  induction tasks with
  | nil =>
    intro currentTime out h
    simp only [placeTasks, pure, Except.pure, Except.ok.injEq] at h
    subst h
    refine ⟨List.Forall₂.nil, ?_, ?_⟩
    · intro a ha
      simp only [List.head?_nil] at ha
      cases ha
    · intro i x y hx
      simp only [List.getElem?_nil] at hx
      cases hx
  | cons task rest ih =>
    intro currentTime out h
    obtain ⟨cur, later, rfl, -, hl, rfl⟩ :=
      placeTasks_cons_ok breakDuration currentTime task rest out h
    obtain ⟨hpair, hhead, hstep⟩ := ih _ later hl
    refine ⟨List.Forall₂.cons ⟨rfl, by simp⟩ hpair, ?_, ?_⟩
    · intro a ha
      simp only [List.head?_cons, Option.some.injEq] at ha
      subst ha
      rfl
    · intro i x y hx hy
      cases i with
      | zero =>
        simp only [List.getElem?_cons_zero, Option.some.injEq] at hx
        simp only [zero_add, List.getElem?_cons_succ] at hy
        subst hx
        have hy0 : later.head? = some y := by
          rw [List.head?_eq_getElem?]; exact hy
        have hcur := hhead y hy0
        obtain ⟨-, hval⟩ := (timeClip_eq_some _ _).mp hcur
        exact hval
      | succ j =>
        simp only [List.getElem?_cons_succ] at hx hy
        exact hstep j x y hx hy

/-- The plan of a list that starts with `task`: its start and its end, and the
plan of the rest from the end plus the break. -/
theorem planInRange_cons (first breakDuration : Int) (task : Task) (rest : List Task) :
    PlanInRange first breakDuration (task :: rest)
      ↔ InDateRange first ∧ InDateRange (first + task.estimatedDuration * 60000)
        ∧ PlanInRange (first + task.estimatedDuration * 60000 + breakDuration * 60000)
            breakDuration rest := by
  have hstart : ∀ i, plannedStart first breakDuration (task :: rest) (i + 1)
      = plannedStart (first + task.estimatedDuration * 60000 + breakDuration * 60000)
          breakDuration rest i := by
    intro i
    simp only [plannedStart, List.take_succ_cons, List.map_cons, List.sum_cons]
    ring
  have hend : ∀ i, plannedEnd first breakDuration (task :: rest) (i + 1)
      = plannedEnd (first + task.estimatedDuration * 60000 + breakDuration * 60000)
          breakDuration rest i := by
    intro i
    simp only [plannedEnd, hstart, List.drop_succ_cons]
  have hstart0 : plannedStart first breakDuration (task :: rest) 0 = first := by
    simp [plannedStart]
  have hend0 : plannedEnd first breakDuration (task :: rest) 0
      = first + task.estimatedDuration * 60000 := by
    simp [plannedEnd, hstart0]
  constructor
  · intro h
    have h0 := h 0 (by simp)
    rw [hstart0, hend0] at h0
    refine ⟨h0.1, h0.2, ?_⟩
    intro i hi
    have hi1 := h (i + 1) (by simpa using hi)
    rwa [hstart, hend] at hi1
  · rintro ⟨h1, h2, h3⟩ i hi
    cases i with
    | zero =>
      rw [hstart0, hend0]
      exact ⟨h1, h2⟩
    | succ j =>
      rw [hstart, hend]
      exact h3 j (by simpa using hi)

/-- Started at a time value `first`, clipped to the range of `Date`, the loop
returns exactly when every start and end of the plan is in that range. -/
theorem placeTasks_ok_iff (breakDuration : Int) :
    ∀ (tasks : List Task) (first : Int),
      (∃ out, placeTasks breakDuration (timeClip first) tasks = .ok out)
        ↔ PlanInRange first breakDuration tasks := by
  intro tasks
  induction tasks with
  | nil =>
    intro first
    exact ⟨fun _ i hi => by simp at hi, fun _ => ⟨[], rfl⟩⟩
  | cons task rest ih =>
    intro first
    rw [planInRange_cons]
    constructor
    · rintro ⟨out, h⟩
      obtain ⟨cur, later, hcur, hr, hl, -⟩ :=
        placeTasks_cons_ok breakDuration _ task rest out h
      obtain ⟨hfirst, rfl⟩ := (timeClip_eq_some _ _).mp hcur
      exact ⟨hfirst, hr, (ih _).mp ⟨later, hl⟩⟩
    · rintro ⟨h1, h2, h3⟩
      obtain ⟨later, hl⟩ := (ih _).mpr h3
      rw [timeClip_of_inDateRange _ h1]
      exact ⟨_, placeTasks_cons_of_ok breakDuration first task rest later h2 hl⟩

/-- With an invalid date for a cursor the loop returns only when there is no task. -/
theorem placeTasks_none_ok (breakDuration : Int) (tasks : List Task) (out : List Assignment)
    (h : placeTasks breakDuration none tasks = .ok out) : tasks = [] := by
  cases tasks with
  | nil => rfl
  | cons task rest =>
    obtain ⟨cur, later, hcur, -⟩ := placeTasks_cons_ok breakDuration none task rest out h
    cases hcur

/-- The cursor after `setHours`: the start hour on the local day of the clock,
clipped to the range of `Date`. -/
theorem setHours_now (clock : Clock) (hour : Int) :
    setHours clock clock.now (some hour) = timeClip (onLocalDay clock (hour * msPerHour)) :=
  rfl

theorem mem_decimalDigitChars (c : Char) (v : Nat) (h : digitValue c = some v) (hv : v < 10) :
    c ∈ decimalDigitChars ∧ v = c.toNat - 48 := by
  unfold digitValue at h
  split_ifs at h with h1 h2 h3
  · simp only [Option.some.injEq] at h
    refine ⟨?_, h.symm⟩
    obtain ⟨hlo, hhi⟩ := h1
    rw [← Char.ofNat_toNat c]
    generalize c.toNat = n at hlo hhi
    interval_cases n <;> decide
  · simp only [Option.some.injEq] at h
    omega
  · simp only [Option.some.injEq] at h
    omega

theorem parseIntChars_two_digits :
    ∀ a ∈ decimalDigitChars, ∀ b ∈ decimalDigitChars,
      (a != ':') = true ∧ (b != ':') = true
      ∧ parseIntChars [a, b] = some (((a.toNat - 48) * 10 + (b.toNat - 48) : Nat) : Int) := by
  decide

theorem parseInt_firstSegment_of_wellFormedTime (s : String) (h : wellFormedTime s = true) :
    ∃ hour : Int, parseInt (firstSegment s) = some hour ∧ 0 ≤ hour ∧ hour ≤ 23 := by
  unfold wellFormedTime at h
  split at h
  · rename_i a b c d hs
    split at h
    · rename_i h1 h2 m1 m2 ha hb hc hd
      simp only [Bool.and_eq_true, decide_eq_true_eq] at h
      obtain ⟨⟨⟨⟨⟨hh1, hh2⟩, -⟩, -⟩, hhour⟩, -⟩ := h
      obtain ⟨hamem, hav⟩ := mem_decimalDigitChars a h1 ha hh1
      obtain ⟨hbmem, hbv⟩ := mem_decimalDigitChars b h2 hb hh2
      obtain ⟨hna, hnb, hparse⟩ := parseIntChars_two_digits a hamem b hbmem
      refine ⟨((h1 * 10 + h2 : Nat) : Int), ?_, by omega, by omega⟩
      have hseg : (firstSegment s).toList = [a, b] := by
        show s.toList.takeWhile (fun c => c != ':') = [a, b]
        have hcolon : ((':' : Char) != ':') = false := by decide
        rw [hs]
        simp only [List.takeWhile, hna, hnb, hcolon]
      unfold parseInt
      rw [hseg, hparse, hav, hbv]
    · cases h
  · cases h

theorem forall₂_map_eq {R : Assignment → Task → Prop} {out : List Assignment}
    {tasks : List Task} (h : List.Forall₂ R out tasks) (hid : ∀ a t, R a t → a.taskId = t._id) :
    out.map (fun a => a.taskId) = tasks.map (fun t => t._id) := by
  induction h with
  | nil => rfl
  | cons hat _ ih => simp only [List.map_cons, hid _ _ hat, ih]

theorem forall₂_exists_mem {R : Assignment → Task → Prop} {out : List Assignment}
    {tasks : List Task} (h : List.Forall₂ R out tasks) :
    ∀ a ∈ out, ∃ t ∈ tasks, R a t := by
  induction h with
  | nil => intro a ha; cases ha
  | cons hat _ ih =>
    intro a ha
    rcases List.mem_cons.mp ha with rfl | ha
    · exact ⟨_, List.mem_cons_self _ _, hat⟩
    · obtain ⟨t, ht, hr⟩ := ih a ha
      exact ⟨t, List.mem_cons_of_mem _ ht, hr⟩

/-- A returned list of assignments is the loop's output on the sorted tasks, and
the sorted tasks are a permutation of the input. -/
theorem fallbackOptimization_ok_inv (tasks : List Task) (schedule : List Schedule)
    (userPreferences : UserPreferences) (clock : Clock) (out : List Assignment)
    (h : fallbackOptimization tasks schedule userPreferences clock = .ok out) :
    ∃ (sortedTasks : List Task) (currentTime : Option Int),
      sortedTasks.Perm tasks
      ∧ placeTasks userPreferences.breakDuration currentTime sortedTasks = .ok out := by
  simp only [fallbackOptimization, bind, Except.bind] at h
  cases hs : sortTasks clock.now tasks with
  | error e => rw [hs] at h; cases h
  | ok sortedTasks =>
    rw [hs] at h
    exact ⟨sortedTasks, _, sortTasks_perm clock.now tasks sortedTasks hs, h⟩

theorem plannedLastEnd_perm (first breakDuration : Int) {l₁ l₂ : List Task}
    (h : l₁.Perm l₂) :
    plannedLastEnd first breakDuration l₁ = plannedLastEnd first breakDuration l₂ := by
  unfold plannedLastEnd
  rw [(h.map _).sum_eq, h.length_eq]

/-- When no duration and no break is negative, the starts and ends of the plan lie
between the first start and the last end. -/
theorem planInRange_iff_of_nonneg (breakDuration : Int) (hbreak : 0 ≤ breakDuration) :
    ∀ (tasks : List Task) (first : Int), (∀ t ∈ tasks, 0 ≤ t.estimatedDuration) →
      tasks ≠ [] →
      (PlanInRange first breakDuration tasks
        ↔ InDateRange first ∧ InDateRange (plannedLastEnd first breakDuration tasks)) := by
  intro tasks
  induction tasks with
  | nil => intro _ _ h; exact absurd rfl h
  | cons task rest ih =>
    intro first hpos _
    have hd := hpos task (List.mem_cons_self _ _)
    rw [planInRange_cons]
    by_cases hrest : rest = []
    · subst hrest
      have hlast : plannedLastEnd first breakDuration [task]
          = first + task.estimatedDuration * 60000 := by
        simp [plannedLastEnd]
      have hnil : PlanInRange (first + task.estimatedDuration * 60000 + breakDuration * 60000)
          breakDuration [] := fun i hi => by simp at hi
      rw [hlast]
      exact ⟨fun h => ⟨h.1, h.2.1⟩, fun h => ⟨h.1, h.2, hnil⟩⟩
    · rw [ih _ (fun t ht => hpos t (List.mem_cons_of_mem _ ht)) hrest]
      have hsum : 0 ≤ (rest.map fun t => t.estimatedDuration).sum := by
        apply List.sum_nonneg
        intro x hx
        obtain ⟨t, ht, rfl⟩ := List.mem_map.mp hx
        exact hpos t (List.mem_cons_of_mem _ ht)
      have hlen : 0 ≤ ((rest.length : Int) - 1) := by
        have := List.length_pos.mpr hrest
        omega
      have hgap : 0 ≤ ((rest.length : Int) - 1) * breakDuration := mul_nonneg hlen hbreak
      have hlast : plannedLastEnd
          (first + task.estimatedDuration * 60000 + breakDuration * 60000) breakDuration rest
          = plannedLastEnd first breakDuration (task :: rest) := by
        simp only [plannedLastEnd, List.map_cons, List.sum_cons, List.length_cons]
        push_cast
        ring
      have hval : plannedLastEnd
          (first + task.estimatedDuration * 60000 + breakDuration * 60000) breakDuration rest
          = first + task.estimatedDuration * 60000 + breakDuration * 60000
            + (rest.map fun t => t.estimatedDuration).sum * 60000
            + ((rest.length : Int) - 1) * breakDuration * 60000 := rfl
      rw [← hlast]
      generalize plannedLastEnd
        (first + task.estimatedDuration * 60000 + breakDuration * 60000) breakDuration rest
        = last at hval
      generalize ((rest.length : Int) - 1) * breakDuration = gap at hval hgap
      generalize (rest.map fun t => t.estimatedDuration).sum = total at hval hsum
      unfold InDateRange
      constructor
      · rintro ⟨⟨h1, h2⟩, ⟨h3, h4⟩, ⟨h5, h6⟩, ⟨h7, h8⟩⟩
        exact ⟨⟨h1, h2⟩, ⟨h7, h8⟩⟩
      · rintro ⟨⟨h1, h2⟩, ⟨h7, h8⟩⟩
        refine ⟨⟨h1, h2⟩, ⟨by omega, by omega⟩, ⟨by omega, by omega⟩, ⟨h7, h8⟩⟩

/-- When the method returns, the sort has returned and the loop has run over some
rearrangement of the tasks, every start and end of its plan a time value a
`Date` can hold. -/
theorem fallbackOptimization_ok_plan (tasks : List Task) (schedule : List Schedule)
    (userPreferences : UserPreferences) (clock : Clock) (out : List Assignment)
    (h : fallbackOptimization tasks schedule userPreferences clock = .ok out) :
    (tasks.length ≤ 1 ∨ ∀ t ∈ tasks, t.deadline ≠ none)
      ∧ (tasks = [] ∨ ∃ hour : Int,
          parseInt (firstSegment userPreferences.workingHours.start) = some hour
          ∧ ∃ sortedTasks : List Task, sortedTasks.Perm tasks
              ∧ PlanInRange (onLocalDay clock (hour * msPerHour))
                  userPreferences.breakDuration sortedTasks) := by
  simp only [fallbackOptimization, bind, Except.bind] at h
  cases hs : sortTasks clock.now tasks with
  | error e => rw [hs] at h; cases h
  | ok sortedTasks =>
    rw [hs] at h
    refine ⟨sortTasks_ok_deadlines clock.now tasks sortedTasks hs, ?_⟩
    have hperm := sortTasks_perm clock.now tasks sortedTasks hs
    cases hp : parseInt (firstSegment userPreferences.workingHours.start) with
    | none =>
      left
      rw [hp] at h
      have hnil := placeTasks_none_ok _ _ _ h
      subst hnil
      exact List.Perm.eq_nil hperm.symm
    | some hour =>
      right
      rw [hp, setHours_now] at h
      exact ⟨hour, rfl, sortedTasks, hperm, (placeTasks_ok_iff _ _ _).mp ⟨out, h⟩⟩

/-- The method returns when the sort can return and, in whatever order the tasks
are placed, every start and end of the plan is a time value a `Date` can hold. -/
theorem fallbackOptimization_ok_of_plan (tasks : List Task) (schedule : List Schedule)
    (userPreferences : UserPreferences) (clock : Clock)
    (hsort : tasks.length ≤ 1 ∨ ∀ t ∈ tasks, t.deadline ≠ none)
    (hplan : tasks = [] ∨ ∃ hour : Int,
      parseInt (firstSegment userPreferences.workingHours.start) = some hour
      ∧ ∀ sortedTasks : List Task, sortedTasks.Perm tasks →
          PlanInRange (onLocalDay clock (hour * msPerHour))
            userPreferences.breakDuration sortedTasks) :
    ∃ out, fallbackOptimization tasks schedule userPreferences clock = .ok out := by
  have hs : ∃ sortedTasks, sortTasks clock.now tasks = .ok sortedTasks := by
    rcases hsort with hshort | hall
    · exact ⟨tasks, sortTasks_isOk_short clock.now tasks hshort⟩
    · exact sortTasks_isOk clock.now tasks hall
  obtain ⟨sortedTasks, hs⟩ := hs
  have hperm := sortTasks_perm clock.now tasks sortedTasks hs
  have hplace : ∃ out, placeTasks userPreferences.breakDuration
      (setHours clock clock.now (parseInt (firstSegment userPreferences.workingHours.start)))
      sortedTasks = .ok out := by
    rcases hplan with hnil | ⟨hour, hhour, hrange⟩
    · subst hnil
      have hsnil : sortedTasks = [] := List.Perm.eq_nil hperm
      subst hsnil
      exact ⟨[], rfl⟩
    · rw [hhour, setHours_now]
      exact (placeTasks_ok_iff _ _ _).mpr (hrange sortedTasks hperm)
  obtain ⟨out, hout⟩ := hplace
  exact ⟨out, by simp only [fallbackOptimization, bind, Except.bind, hs]; exact hout⟩

/-- The first start of a plan in range is in range. -/
theorem planInRange_first (first breakDuration : Int) (tasks : List Task) (hne : tasks ≠ [])
    (h : PlanInRange first breakDuration tasks) : InDateRange first := by
  cases tasks with
  | nil => exact absurd rfl hne
  | cons task rest => exact ((planInRange_cons first breakDuration task rest).mp h).1

/-- C8 (as amended): whenever `fallbackOptimization` returns, it returns exactly as
many assignments as there are tasks, and their `taskId`s are a permutation of
the input tasks' ids.  It does return for every list of tasks that each have a
deadline and a duration that is not negative, and every preferences value whose
working-hours start is a well-formed `HH:MM` time and whose break is not
negative, provided the first start (the hour of the working-hours start on the
local day of the clock) and the end of the last task (the first start, all
durations and the breaks between the tasks later) are time values a `Date` can
hold.  An empty task list yields an empty list, whatever the preferences. -/
theorem fallbackOptimization_schedules_each_task_once :
    (∀ (tasks : List Task) (schedule : List Schedule) (userPreferences : UserPreferences)
        (clock : Clock) (out : List Assignment),
      fallbackOptimization tasks schedule userPreferences clock = .ok out →
      out.length = tasks.length
        ∧ (out.map fun a => a.taskId).Perm (tasks.map fun t => t._id))
    ∧ (∀ (tasks : List Task) (schedule : List Schedule) (userPreferences : UserPreferences)
        (clock : Clock),
      (∀ t ∈ tasks, t.deadline ≠ none) →
      wellFormedTime userPreferences.workingHours.start = true →
      (∀ t ∈ tasks, 0 ≤ t.estimatedDuration) → 0 ≤ userPreferences.breakDuration →
      (∀ hour : Int,
        parseInt (firstSegment userPreferences.workingHours.start) = some hour →
        InDateRange (onLocalDay clock (hour * msPerHour))
          ∧ InDateRange (plannedLastEnd (onLocalDay clock (hour * msPerHour))
              userPreferences.breakDuration tasks)) →
      ∃ out, fallbackOptimization tasks schedule userPreferences clock = .ok out
        ∧ out.length = tasks.length
        ∧ (out.map fun a => a.taskId).Perm (tasks.map fun t => t._id))
    ∧ (∀ (schedule : List Schedule) (userPreferences : UserPreferences) (clock : Clock),
      fallbackOptimization [] schedule userPreferences clock = .ok []) := by
  have hshape : ∀ (tasks : List Task) (schedule : List Schedule)
      (userPreferences : UserPreferences) (clock : Clock) (out : List Assignment),
      fallbackOptimization tasks schedule userPreferences clock = .ok out →
      out.length = tasks.length
        ∧ (out.map fun a => a.taskId).Perm (tasks.map fun t => t._id) := by
    intro tasks schedule userPreferences clock out h
    obtain ⟨sortedTasks, currentTime, hperm, hplace⟩ :=
      fallbackOptimization_ok_inv tasks schedule userPreferences clock out h
    obtain ⟨hpair, -, -⟩ :=
      placeTasks_spec userPreferences.breakDuration sortedTasks currentTime out hplace
    constructor
    · rw [hpair.length_eq]
      exact hperm.length_eq
    · rw [forall₂_map_eq hpair (fun a t h => h.1)]
      exact hperm.map _
  refine ⟨hshape, ?_, ?_⟩
  · intro tasks schedule userPreferences clock hdeadline hstart hpos hbreak hrange
    obtain ⟨hour, hhour, -, -⟩ :=
      parseInt_firstSegment_of_wellFormedTime userPreferences.workingHours.start hstart
    obtain ⟨hfirst, hlast⟩ := hrange hour hhour
    have hok : ∃ out, fallbackOptimization tasks schedule userPreferences clock = .ok out := by
      apply fallbackOptimization_ok_of_plan tasks schedule userPreferences clock
        (Or.inr hdeadline)
      by_cases hne : tasks = []
      · exact Or.inl hne
      · right
        refine ⟨hour, hhour, ?_⟩
        intro sortedTasks hperm
        have hsne : sortedTasks ≠ [] := fun hs => hne (by
          rw [hs] at hperm
          exact List.Perm.eq_nil hperm.symm)
        apply (planInRange_iff_of_nonneg userPreferences.breakDuration hbreak
          sortedTasks _ (fun t ht => hpos t (hperm.mem_iff.mp ht)) hsne).mpr
        rw [plannedLastEnd_perm _ _ hperm]
        exact ⟨hfirst, hlast⟩
    obtain ⟨out, hout⟩ := hok
    exact ⟨out, hout, hshape tasks schedule userPreferences clock out hout⟩
  · intro schedule userPreferences clock
    rfl

/-- C8, witness: two tasks, working hours from 09:00, breaks of 15 minutes. -/
theorem fallbackOptimization_schedules_each_task_once_witness :
    ∃ out, fallbackOptimization
        [⟨1, "personal", "low", "easy", 30, some 1800000000⟩,
         ⟨2, "exam", "urgent", "hard", 60, some 72000000⟩]
        [] ⟨⟨"09:00", "18:00"⟩, 15, 45⟩ (utcClock 100) = .ok out
      ∧ out.length
        = ([⟨1, "personal", "low", "easy", 30, some 1800000000⟩,
            ⟨2, "exam", "urgent", "hard", 60, some 72000000⟩] : List Task).length
      ∧ (out.map fun a => a.taskId).Perm
          (([⟨1, "personal", "low", "easy", 30, some 1800000000⟩,
             ⟨2, "exam", "urgent", "hard", 60, some 72000000⟩] : List Task).map fun t => t._id) :=
  fallbackOptimization_schedules_each_task_once.2.1
    [⟨1, "personal", "low", "easy", 30, some 1800000000⟩,
     ⟨2, "exam", "urgent", "hard", 60, some 72000000⟩]
    [] ⟨⟨"09:00", "18:00"⟩, 15, 45⟩ (utcClock 100) (by decide) (by decide) (by decide)
    (by decide)
    (by
      intro hour hhour
      have hh : parseInt (firstSegment "09:00") = some 9 := by decide
      have hhour9 : some 9 = some hour := hh.symm.trans hhour
      cases hhour9
      decide)

/-- C8, counterexample to the claim as stated: the working-hours start `09:00` is
well formed, yet for one task of 10000000000000 minutes the end of the task is
beyond the range of `Date` and `toISOString` throws a `RangeError`, and for two
tasks without a deadline the comparator throws a `TypeError`; no list of
assignments is returned. -/
theorem fallbackOptimization_schedules_each_task_once_fails :
    wellFormedTime "09:00" = true
    ∧ fallbackOptimization [⟨1, "exam", "urgent", "hard", 10000000000000, some 72000000⟩] []
        ⟨⟨"09:00", "18:00"⟩, 15, 45⟩ (utcClock 100) = .error .rangeError
    ∧ fallbackOptimization
        [⟨1, "other", "medium", "medium", 60, none⟩,
         ⟨2, "other", "medium", "medium", 30, none⟩] []
        ⟨⟨"09:00", "18:00"⟩, 15, 45⟩ (utcClock 100) = .error .typeError := by
  refine ⟨by decide, by decide, by decide⟩

/-- C9: for every assignment `fallbackOptimization` returns, the input holds a task
with the assignment's `taskId` whose `estimatedDuration`, in minutes, is the
assignment's `scheduledEndTime` minus its `scheduledStartTime`; when the task
ids are distinct that holds for the one task the `taskId` refers to. -/
theorem fallbackOptimization_duration (tasks : List Task) (schedule : List Schedule)
    (userPreferences : UserPreferences) (clock : Clock) (out : List Assignment)
    (h : fallbackOptimization tasks schedule userPreferences clock = .ok out) :
    (∀ a ∈ out, ∃ t ∈ tasks, t._id = a.taskId
      ∧ a.scheduledEndTime - a.scheduledStartTime = t.estimatedDuration * 60000)
    ∧ ((tasks.map fun t => t._id).Nodup →
      ∀ a ∈ out, ∀ t ∈ tasks, t._id = a.taskId →
        a.scheduledEndTime - a.scheduledStartTime = t.estimatedDuration * 60000) := by
  obtain ⟨sortedTasks, currentTime, hperm, hplace⟩ :=
    fallbackOptimization_ok_inv tasks schedule userPreferences clock out h
  obtain ⟨hpair, -, -⟩ :=
    placeTasks_spec userPreferences.breakDuration sortedTasks currentTime out hplace
  have hex : ∀ a ∈ out, ∃ t ∈ tasks, t._id = a.taskId
      ∧ a.scheduledEndTime - a.scheduledStartTime = t.estimatedDuration * 60000 := by
    intro a ha
    obtain ⟨t, ht, hid, hdur⟩ := forall₂_exists_mem hpair a ha
    exact ⟨t, hperm.mem_iff.mp ht, hid.symm, hdur⟩
  refine ⟨hex, ?_⟩
  intro hnodup a ha t ht hid
  obtain ⟨u, hu, huid, hdur⟩ := hex a ha
  have htu : t = u := List.inj_on_of_nodup_map hnodup ht hu (by rw [hid, huid])
  rw [htu]
  exact hdur

/-- C9, witness: of a personal task of 30 minutes and an exam of 60 minutes the
exam is placed first, from 09:00 to 10:00, which is 60 minutes. -/
theorem fallbackOptimization_duration_witness :
    fallbackOptimization
        [⟨1, "personal", "low", "easy", 30, some 1800000000⟩,
         ⟨2, "exam", "urgent", "hard", 60, some 72000000⟩]
        [] ⟨⟨"09:00", "18:00"⟩, 15, 45⟩ (utcClock 100)
      = .ok [⟨2, atClock 9 0, atClock 10 0, "Fallback scheduling based on priority"⟩,
             ⟨1, atClock 10 15, atClock 10 45, "Fallback scheduling based on priority"⟩]
    ∧ ∃ t ∈ ([⟨1, "personal", "low", "easy", 30, some 1800000000⟩,
              ⟨2, "exam", "urgent", "hard", 60, some 72000000⟩] : List Task),
        t._id = 2 ∧ atClock 10 0 - atClock 9 0 = t.estimatedDuration * 60000 :=
  ⟨by decide,
   (fallbackOptimization_duration
    [⟨1, "personal", "low", "easy", 30, some 1800000000⟩,
     ⟨2, "exam", "urgent", "hard", 60, some 72000000⟩]
    [] ⟨⟨"09:00", "18:00"⟩, 15, 45⟩ (utcClock 100)
    [⟨2, atClock 9 0, atClock 10 0, "Fallback scheduling based on priority"⟩,
     ⟨1, atClock 10 15, atClock 10 45, "Fallback scheduling based on priority"⟩]
    (by decide)).1 ⟨2, atClock 9 0, atClock 10 0, "Fallback scheduling based on priority"⟩
    (List.mem_cons_self _ _)⟩

/-- C10: for every two consecutive assignments `i` and `i + 1` that
`fallbackOptimization` returns, the start of assignment `i + 1` is the end of
assignment `i` plus the configured break duration, so the end of `i` plus the
break is not after the start of `i + 1`. -/
theorem fallbackOptimization_consecutive (tasks : List Task) (schedule : List Schedule)
    (userPreferences : UserPreferences) (clock : Clock) (out : List Assignment)
    (h : fallbackOptimization tasks schedule userPreferences clock = .ok out) :
    ∀ (i : Nat) (x y : Assignment), out[i]? = some x → out[i + 1]? = some y →
      y.scheduledStartTime = x.scheduledEndTime + userPreferences.breakDuration * 60000
      ∧ x.scheduledEndTime + userPreferences.breakDuration * 60000 ≤ y.scheduledStartTime := by
  obtain ⟨sortedTasks, currentTime, -, hplace⟩ :=
    fallbackOptimization_ok_inv tasks schedule userPreferences clock out h
  obtain ⟨-, -, hstep⟩ :=
    placeTasks_spec userPreferences.breakDuration sortedTasks currentTime out hplace
  intro i x y hx hy
  have heq := hstep i x y hx hy
  exact ⟨heq, le_of_eq heq.symm⟩

/-- C10, witness: three tasks and breaks of 10 minutes; the first assignment ends
at 9:00 and the second starts at 9:10. -/
theorem fallbackOptimization_consecutive_witness :
    fallbackOptimization
        [⟨1, "personal", "low", "easy", 30, some 1800000000⟩,
         ⟨2, "exam", "urgent", "hard", 60, some 72000000⟩,
         ⟨3, "lab", "medium", "medium", 45, some 180000000⟩]
        [] ⟨⟨"08:30", "18:00"⟩, 10, 45⟩ (utcClock 50000000)
      = .ok [⟨2, atClock 8 0, atClock 9 0, "Fallback scheduling based on priority"⟩,
             ⟨3, atClock 9 10, atClock 9 55, "Fallback scheduling based on priority"⟩,
             ⟨1, atClock 10 5, atClock 10 35, "Fallback scheduling based on priority"⟩]
    ∧ (atClock 9 10 = atClock 9 0 + 10 * 60000 ∧ atClock 9 0 + 10 * 60000 ≤ atClock 9 10) :=
  ⟨by decide,
   fallbackOptimization_consecutive
    [⟨1, "personal", "low", "easy", 30, some 1800000000⟩,
     ⟨2, "exam", "urgent", "hard", 60, some 72000000⟩,
     ⟨3, "lab", "medium", "medium", 45, some 180000000⟩]
    [] ⟨⟨"08:30", "18:00"⟩, 10, 45⟩ (utcClock 50000000)
    [⟨2, atClock 8 0, atClock 9 0, "Fallback scheduling based on priority"⟩,
     ⟨3, atClock 9 10, atClock 9 55, "Fallback scheduling based on priority"⟩,
     ⟨1, atClock 10 5, atClock 10 35, "Fallback scheduling based on priority"⟩]
    (by decide) 0 ⟨2, atClock 8 0, atClock 9 0, "Fallback scheduling based on priority"⟩
    ⟨3, atClock 9 10, atClock 9 55, "Fallback scheduling based on priority"⟩ rfl rfl⟩

/-- When every duration is positive and the break is not negative, the loop starts
every assignment at or after its `currentTime`, and each assignment ends before
or when every later one starts. -/
theorem placeTasks_disjoint (breakDuration : Int) (hbreak : 0 ≤ breakDuration) :
    ∀ (tasks : List Task) (currentTime : Option Int) (out : List Assignment),
      (∀ t ∈ tasks, 0 < t.estimatedDuration) →
      placeTasks breakDuration currentTime tasks = .ok out →
      (∀ a ∈ out, ∀ cur, currentTime = some cur → cur ≤ a.scheduledStartTime)
      ∧ out.Pairwise fun x y => x.scheduledEndTime ≤ y.scheduledStartTime := by
  intro tasks
  induction tasks with
  | nil =>
    intro currentTime out _ h
    simp only [placeTasks, pure, Except.pure, Except.ok.injEq] at h
    subst h
    refine ⟨?_, List.Pairwise.nil⟩
    intro a ha
    cases ha
  | cons task rest ih =>
    intro currentTime out hpos h
    obtain ⟨cur, later, rfl, -, hl, rfl⟩ :=
      placeTasks_cons_ok breakDuration currentTime task rest out h
    have hd := hpos task (List.mem_cons_self _ _)
    obtain ⟨hstart, hpair⟩ := ih _ later
      (fun t ht => hpos t (List.mem_cons_of_mem _ ht)) hl
    have hnext : ∀ a ∈ later,
        cur + task.estimatedDuration * 60000 + breakDuration * 60000
          ≤ a.scheduledStartTime := by
      intro a ha
      cases hc : timeClip (cur + task.estimatedDuration * 60000 + breakDuration * 60000) with
      | none =>
        rw [hc] at hl
        have hnil := placeTasks_none_ok _ _ _ hl
        subst hnil
        simp only [placeTasks, pure, Except.pure, Except.ok.injEq] at hl
        subst hl
        cases ha
      | some next =>
        obtain ⟨-, hval⟩ := (timeClip_eq_some _ _).mp hc
        have := hstart a ha next hc
        omega
    constructor
    · intro a ha c hc
      simp only [Option.some.injEq] at hc
      subst hc
      rcases List.mem_cons.mp ha with rfl | ha
      · exact le_rfl
      · have := hnext a ha
        nlinarith
    · refine List.Pairwise.cons ?_ hpair
      intro y hy
      have := hnext y hy
      simp only
      nlinarith

/-- C11: for every task list in which every `estimatedDuration` is positive and
every preferences value whose `breakDuration` is not negative, no two distinct
assignments `fallbackOptimization` returns overlap: for all `i < j` the end of
assignment `i` is not after the start of assignment `j`. -/
theorem fallbackOptimization_no_overlap (tasks : List Task) (schedule : List Schedule)
    (userPreferences : UserPreferences) (clock : Clock) (out : List Assignment)
    (hpos : ∀ t ∈ tasks, 0 < t.estimatedDuration)
    (hbreak : 0 ≤ userPreferences.breakDuration)
    (h : fallbackOptimization tasks schedule userPreferences clock = .ok out) :
    ∀ (i j : Nat) (x y : Assignment), i < j → out[i]? = some x → out[j]? = some y →
      x.scheduledEndTime ≤ y.scheduledStartTime := by
  obtain ⟨sortedTasks, currentTime, hperm, hplace⟩ :=
    fallbackOptimization_ok_inv tasks schedule userPreferences clock out h
  obtain ⟨-, hpair⟩ := placeTasks_disjoint userPreferences.breakDuration hbreak sortedTasks
    currentTime out (fun t ht => hpos t (hperm.mem_iff.mp ht)) hplace
  intro i j x y hij hx hy
  rw [List.pairwise_iff_getElem] at hpair
  obtain ⟨hi, rfl⟩ := List.getElem?_eq_some.mp hx
  obtain ⟨hj, rfl⟩ := List.getElem?_eq_some.mp hy
  exact hpair i j hi hj hij

/-- C11, witness: three tasks of 30, 60 and 45 minutes and breaks of 10 minutes;
the first assignment ends at 9:00 and the third starts at 10:05. -/
theorem fallbackOptimization_no_overlap_witness :
    fallbackOptimization
        [⟨1, "personal", "low", "easy", 30, some 1800000000⟩,
         ⟨2, "exam", "urgent", "hard", 60, some 72000000⟩,
         ⟨3, "lab", "medium", "medium", 45, some 180000000⟩]
        [] ⟨⟨"08:30", "18:00"⟩, 10, 45⟩ (utcClock 50000000)
      = .ok [⟨2, atClock 8 0, atClock 9 0, "Fallback scheduling based on priority"⟩,
             ⟨3, atClock 9 10, atClock 9 55, "Fallback scheduling based on priority"⟩,
             ⟨1, atClock 10 5, atClock 10 35, "Fallback scheduling based on priority"⟩]
    ∧ atClock 9 0 ≤ atClock 10 5 :=
  ⟨by decide,
   fallbackOptimization_no_overlap
    [⟨1, "personal", "low", "easy", 30, some 1800000000⟩,
     ⟨2, "exam", "urgent", "hard", 60, some 72000000⟩,
     ⟨3, "lab", "medium", "medium", 45, some 180000000⟩]
    [] ⟨⟨"08:30", "18:00"⟩, 10, 45⟩ (utcClock 50000000)
    [⟨2, atClock 8 0, atClock 9 0, "Fallback scheduling based on priority"⟩,
     ⟨3, atClock 9 10, atClock 9 55, "Fallback scheduling based on priority"⟩,
     ⟨1, atClock 10 5, atClock 10 35, "Fallback scheduling based on priority"⟩]
    (by decide) (by decide) (by decide) 0 2
    ⟨2, atClock 8 0, atClock 9 0, "Fallback scheduling based on priority"⟩
    ⟨1, atClock 10 5, atClock 10 35, "Fallback scheduling based on priority"⟩
    (by decide) rfl rfl⟩

/-- C12, the code at the failing input: the result of `fallbackOptimization` is the
same for every `schedule` argument, and with an existing entry from 9:30 to
10:30 and working hours from 09:00 a task of 60 minutes is placed from 9:00 to
10:00, which overlaps the entry. -/
theorem fallbackOptimization_ignores_schedule :
    (∀ (tasks : List Task) (schedule : List Schedule) (userPreferences : UserPreferences)
        (clock : Clock),
      fallbackOptimization tasks schedule userPreferences clock
        = fallbackOptimization tasks [] userPreferences clock)
    ∧ fallbackOptimization [⟨1, "exam", "urgent", "hard", 60, some 72000000⟩]
        [⟨1, atClock 9 30, atClock 10 30, true⟩] ⟨⟨"09:00", "18:00"⟩, 15, 45⟩ (utcClock 100)
      = .ok [⟨1, atClock 9 0, atClock 10 0, "Fallback scheduling based on priority"⟩]
    ∧ (atClock 9 0 < (⟨1, atClock 9 30, atClock 10 30, true⟩ : Schedule).endTime
      ∧ atClock 10 0 > (⟨1, atClock 9 30, atClock 10 30, true⟩ : Schedule).startTime) := by
  refine ⟨fun _ _ _ _ => rfl, by decide, by decide, by decide⟩

/-- C13, the code at the failing input: with working hours 09:00 to 18:00 a task of
600 minutes is placed from 9:00 to 19:00, past the end of the window; and with
working hours 09:30 to 18:00 a task is placed at 9:00, before the start of the
window, because only the hour of the start is read. -/
theorem fallbackOptimization_leaves_working_window :
    (fallbackOptimization [⟨1, "project", "high", "hard", 600, some 360000000⟩] []
        ⟨⟨"09:00", "18:00"⟩, 15, 45⟩ (utcClock 100)
      = .ok [⟨1, atClock 9 0, atClock 19 0, "Fallback scheduling based on priority"⟩]
      ∧ workingWindow ⟨⟨"09:00", "18:00"⟩, 15, 45⟩ (utcClock 100)
        = some (atClock 9 0, atClock 18 0)
      ∧ atClock 18 0 < atClock 19 0)
    ∧ (fallbackOptimization [⟨1, "project", "high", "hard", 60, some 360000000⟩] []
        ⟨⟨"09:30", "18:00"⟩, 15, 45⟩ (utcClock 100)
      = .ok [⟨1, atClock 9 0, atClock 10 0, "Fallback scheduling based on priority"⟩]
      ∧ workingWindow ⟨⟨"09:30", "18:00"⟩, 15, 45⟩ (utcClock 100)
        = some (atClock 9 30, atClock 18 0)
      ∧ atClock 9 0 < atClock 9 30) := by
  refine ⟨⟨by decide, by decide, by decide⟩, ⟨by decide, by decide, by decide⟩⟩

/-- When the comparator returns for two tasks with plain keys, both scores are
integers and the result is their difference. -/
theorem compareTasks_ok_plain (now : Int) (a b : Task) (ha : a.plainKeys) (hb : b.plainKeys)
    (c : JSNumber) (h : compareTasks now a b = .ok c) :
    ∃ sa sb : Int, calculateAIPriority a now = .ok (.num sa)
      ∧ calculateAIPriority b now = .ok (.num sb) ∧ c = .num (sb - sa) := by
  cases hda : a.deadline with
  | none =>
    have hcalc : calculateAIPriority a now = .error .typeError := by
      simp only [calculateAIPriority, hda]
    simp only [compareTasks, hcalc, bind, Except.bind] at h
    cases h
  | some da =>
    cases hdb : b.deadline with
    | none =>
      have hcalc : calculateAIPriority b now = .error .typeError := by
        simp only [calculateAIPriority, hdb]
      simp only [compareTasks, calculateAIPriority_plain a da now hda ha, hcalc, bind,
        Except.bind] at h
      cases h
    | some db =>
      have hsa := calculateAIPriority_plain a da now hda ha
      have hsb := calculateAIPriority_plain b db now hdb hb
      simp only [compareTasks, hsa, hsb, bind, Except.bind, pure, Except.pure, JSNumber.sub,
        Except.ok.injEq] at h
      exact ⟨_, _, hsa, hsb, h.symm⟩

/-- The comparator on two tasks whose scores are the numbers `sc` gives. -/
theorem compareTasks_scored (now : Int) (sc : Task → Int) (a b : Task)
    (ha : calculateAIPriority a now = .ok (.num (sc a)))
    (hb : calculateAIPriority b now = .ok (.num (sc b))) :
    compareTasks now a b = .ok (.num (sc b - sc a)) := by
  simp only [compareTasks, ha, hb, bind, Except.bind, pure, Except.pure, JSNumber.sub]

/-- The elements that join a run go on with it: in a descending run every score is
above the one before, in an ascending run no score is. -/
theorem extendRun_scored (now : Int) (sc : Task → Int) (isDescending : Bool) :
    ∀ (l : List Task) (previousElement : Task) (found : List Task × List Task),
      calculateAIPriority previousElement now = .ok (.num (sc previousElement)) →
      (∀ t ∈ l, calculateAIPriority t now = .ok (.num (sc t))) →
      extendRun now isDescending previousElement l = .ok found →
      (previousElement :: found.1).Pairwise fun x y =>
        (isDescending = true → sc x < sc y) ∧ (isDescending = false → sc y ≤ sc x) := by
  intro l
  induction l with
  | nil =>
    intro p found _ _ h
    simp only [extendRun, pure, Except.pure, Except.ok.injEq] at h
    subst h
    exact List.pairwise_singleton _ _
  | cons c rest ih =>
    intro p found hp hl h
    have hcs := hl c (List.mem_cons_self _ _)
    simp only [extendRun, bind, Except.bind, compareTasks_scored now sc c p hcs hp] at h
    by_cases hrun : (JSNumber.num (sc p - sc c)).isNegative = isDescending
    · rw [if_pos hrun] at h
      cases hr : extendRun now isDescending c rest with
      | error e => rw [hr] at h; cases h
      | ok f =>
        rw [hr] at h
        simp only [pure, Except.pure, Except.ok.injEq] at h
        subst h
        have htail := ih c f hcs (fun t ht => hl t (List.mem_cons_of_mem _ ht)) hr
        have hpc : (isDescending = true → sc p < sc c)
            ∧ (isDescending = false → sc c ≤ sc p) := by
          simp only [JSNumber.isNegative] at hrun
          constructor
          · intro hd
            rw [hd, decide_eq_true_eq] at hrun
            omega
          · intro hd
            rw [hd, decide_eq_false_iff_not] at hrun
            omega
        refine List.pairwise_cons.mpr ⟨?_, htail⟩
        intro x hx
        rcases List.mem_cons.mp hx with rfl | hx
        · exact hpc
        · have hcx := (List.pairwise_cons.mp htail).1 x hx
          constructor
          · intro hd
            have h1 := hpc.1 hd
            have h2 := hcx.1 hd
            omega
          · intro hd
            have h1 := hpc.2 hd
            have h2 := hcx.2 hd
            omega
    · rw [if_neg hrun] at h
      simp only [pure, Except.pure, Except.ok.injEq] at h
      subst h
      exact List.pairwise_singleton _ _

/-- A list of strictly rising scores holds at most one task of each score. -/
theorem filter_length_le_one (sc : Task → Int) (v : Int) :
    ∀ l : List Task, l.Pairwise (fun x y => sc x < sc y) →
      (l.filter fun t => decide (sc t = v)).length ≤ 1 := by
  intro l
  induction l with
  | nil => intro _; simp
  | cons a rest ih =>
    intro h
    obtain ⟨ha, hrest⟩ := List.pairwise_cons.mp h
    by_cases hav : sc a = v
    · have hnil : (rest.filter fun t => decide (sc t = v)) = [] := by
        rw [List.filter_eq_nil_iff]
        intro x hx
        have := ha x hx
        simp only [decide_eq_true_eq]
        omega
      simp only [List.filter_cons, hav, decide_True, if_true, hnil, List.length_singleton,
        le_refl]
    · simp only [List.filter_cons, hav, decide_False]
      exact ih hrest

theorem reverse_eq_of_length_le_one {α : Type} (l : List α) (h : l.length ≤ 1) :
    l.reverse = l := by
  match l, h with
  | [], _ => rfl
  | [a], _ => rfl

/-- The run `countAndMakeRun` returns is ordered by non-increasing score, and the
run followed by the rest holds the tasks of each score in the order of the
array. -/
theorem countAndMakeRun_scored (now : Int) (sc : Task → Int) (l : List Task)
    (found : List Task × List Task)
    (hl : ∀ t ∈ l, calculateAIPriority t now = .ok (.num (sc t)))
    (h : countAndMakeRun now l = .ok found) :
    found.1.Pairwise (fun x y => sc y ≤ sc x)
      ∧ ∀ v : Int, (found.1 ++ found.2).filter (fun t => decide (sc t = v))
          = l.filter (fun t => decide (sc t = v)) := by
  match l, hl, h with
  | [], _, h =>
    simp only [countAndMakeRun, pure, Except.pure, Except.ok.injEq] at h
    subst h
    exact ⟨List.Pairwise.nil, fun _ => rfl⟩
  | [only], _, h =>
    simp only [countAndMakeRun, pure, Except.pure, Except.ok.injEq] at h
    subst h
    exact ⟨List.pairwise_singleton _ _, fun _ => rfl⟩
  | elementHigh :: elementLow :: rest, hl, h =>
    have hh := hl elementHigh (List.mem_cons_self _ _)
    have hlo := hl elementLow (List.mem_cons_of_mem _ (List.mem_cons_self _ _))
    have hrest : ∀ t ∈ rest, calculateAIPriority t now = .ok (.num (sc t)) := fun t ht =>
      hl t (List.mem_cons_of_mem _ (List.mem_cons_of_mem _ ht))
    simp only [countAndMakeRun, bind, Except.bind,
      compareTasks_scored now sc elementLow elementHigh hlo hh] at h
    cases hr : extendRun now (JSNumber.num (sc elementHigh - sc elementLow)).isNegative
        elementLow rest with
    | error e => rw [hr] at h; cases h
    | ok f =>
      rw [hr] at h
      simp only [pure, Except.pure, Except.ok.injEq] at h
      obtain ⟨happ, -⟩ := extendRun_spec now _ rest elementLow f hr
      have htail := extendRun_scored now sc _ rest elementLow f hlo hrest hr
      have hwhole : (elementHigh :: elementLow :: f.1) ++ f.2
          = elementHigh :: elementLow :: rest := by
        simp only [List.cons_append, happ]
      by_cases hdesc : (JSNumber.num (sc elementHigh - sc elementLow)).isNegative = true
      · rw [if_pos hdesc] at h
        subst h
        have hfirst : sc elementHigh < sc elementLow := by
          simp only [JSNumber.isNegative, decide_eq_true_eq] at hdesc
          omega
        have hrise : (elementHigh :: elementLow :: f.1).Pairwise
            (fun x y => sc x < sc y) := by
          have htail2 : (elementLow :: f.1).Pairwise (fun x y => sc x < sc y) :=
            htail.imp (fun hxy => hxy.1 hdesc)
          refine List.pairwise_cons.mpr ⟨?_, htail2⟩
          intro x hx
          rcases List.mem_cons.mp hx with rfl | hx
          · exact hfirst
          · have := (List.pairwise_cons.mp htail2).1 x hx
            omega
        refine ⟨?_, ?_⟩
        · rw [List.pairwise_reverse]
          exact hrise.imp (fun hxy => le_of_lt hxy)
        · intro v
          show ((elementHigh :: elementLow :: f.1).reverse ++ f.2).filter
              (fun t => decide (sc t = v)) = _
          rw [List.filter_append, List.filter_reverse,
            reverse_eq_of_length_le_one _ (filter_length_le_one sc v _ hrise),
            ← List.filter_append, hwhole]
      · rw [if_neg hdesc] at h
        subst h
        have hfirst : sc elementLow ≤ sc elementHigh := by
          simp only [JSNumber.isNegative, decide_eq_true_eq] at hdesc
          omega
        have hfalse : (JSNumber.num (sc elementHigh - sc elementLow)).isNegative = false := by
          simpa using hdesc
        have htail2 : (elementLow :: f.1).Pairwise (fun x y => sc y ≤ sc x) :=
          htail.imp (fun hxy => hxy.2 hfalse)
        refine ⟨?_, ?_⟩
        · refine List.pairwise_cons.mpr ⟨?_, htail2⟩
          intro x hx
          rcases List.mem_cons.mp hx with rfl | hx
          · exact hfirst
          · have := (List.pairwise_cons.mp htail2).1 x hx
            omega
        · intro v
          show ((elementHigh :: elementLow :: f.1) ++ f.2).filter
              (fun t => decide (sc t = v)) = _
          rw [hwhole]

/-- The binary search over a window ordered by non-increasing score: the tasks in
front of the place it finds score at least as high as the pivot, the tasks
behind it score lower. -/
theorem insertionPoint_scored (now : Int) (sc : Task → Int) (pivot : Task)
    (hp : calculateAIPriority pivot now = .ok (.num (sc pivot))) :
    ∀ (steps : Nat) (window : List Task) (left : Nat), window.length ≤ steps →
      (∀ t ∈ window, calculateAIPriority t now = .ok (.num (sc t))) →
      window.Pairwise (fun x y => sc y ≤ sc x) →
      insertionPoint now pivot steps window = .ok left →
      left ≤ window.length ∧ (∀ m ∈ window.take left, sc pivot ≤ sc m)
        ∧ (∀ m ∈ window.drop left, sc m < sc pivot) := by
  intro steps
  induction steps with
  | zero =>
    intro window left hlen _ _ h
    have hnil : window = [] := List.eq_nil_of_length_eq_zero (by omega)
    subst hnil
    simp only [insertionPoint, pure, Except.pure, Except.ok.injEq] at h
    subst h
    exact ⟨le_refl _, fun m hm => by simp at hm, fun m hm => by simp at hm⟩
  | succ n ih =>
    intro window left hlen hw hsorted h
    simp only [insertionPoint] at h
    cases hd : window.drop (window.length / 2) with
    | nil =>
      have hle := List.drop_eq_nil_iff.mp hd
      have hnil : window = [] := List.eq_nil_of_length_eq_zero (by omega)
      subst hnil
      rw [hd] at h
      simp only [pure, Except.pure, Except.ok.injEq] at h
      subst h
      exact ⟨le_refl _, fun m hm => by simp at hm, fun m hm => by simp at hm⟩
    | cons middle behind =>
      rw [hd] at h
      have hsplit : window = window.take (window.length / 2) ++ middle :: behind := by
        rw [← hd]
        exact (List.take_append_drop _ _).symm
      have hfrontlen : (window.take (window.length / 2)).length = window.length / 2 := by
        rw [List.length_take]
        omega
      generalize window.length / 2 = mid at h hsplit hfrontlen hd
      generalize window.take mid = front at h hsplit hfrontlen
      subst hsplit
      have hms := hw middle (by simp)
      obtain ⟨hfront, hback, hcross⟩ := List.pairwise_append.mp hsorted
      obtain ⟨hmb, hbehind⟩ := List.pairwise_cons.mp hback
      simp only [List.length_append, List.length_cons] at hlen
      simp only [bind, Except.bind, compareTasks_scored now sc pivot middle hp hms] at h
      by_cases hneg : (JSNumber.num (sc middle - sc pivot)).isNegative = true
      · rw [if_pos hneg] at h
        have hlt : sc middle < sc pivot := by
          simp only [JSNumber.isNegative, decide_eq_true_eq] at hneg
          omega
        obtain ⟨h0, h1, h2⟩ := ih front left (by omega)
          (fun t ht => hw t (List.mem_append_left _ ht)) hfront h
        refine ⟨?_, ?_, ?_⟩
        · simp only [List.length_append, List.length_cons]
          omega
        · intro m hm
          rw [List.take_append_eq_append_take, Nat.sub_eq_zero_of_le h0, List.take_zero,
            List.append_nil] at hm
          exact h1 m hm
        · intro m hm
          rw [List.drop_append_eq_append_drop, Nat.sub_eq_zero_of_le h0, List.drop_zero] at hm
          rcases List.mem_append.mp hm with hm | hm
          · exact h2 m hm
          · rcases List.mem_cons.mp hm with rfl | hb
            · exact hlt
            · have := hmb m hb
              omega
      · rw [if_neg hneg] at h
        have hge : sc pivot ≤ sc middle := by
          simp only [JSNumber.isNegative, decide_eq_true_eq] at hneg
          omega
        cases hf : insertionPoint now pivot n behind with
        | error e => rw [hf] at h; cases h
        | ok found =>
          rw [hf] at h
          simp only [pure, Except.pure, Except.ok.injEq] at h
          subst h
          obtain ⟨h0, h1, h2⟩ := ih behind found (by omega)
            (fun t ht => hw t (List.mem_append_right _ (List.mem_cons_of_mem _ ht))) hbehind hf
          have hsub : mid + 1 + found - front.length = found + 1 := by omega
          refine ⟨?_, ?_, ?_⟩
          · simp only [List.length_append, List.length_cons]
            omega
          · intro m hm
            rw [List.take_append_eq_append_take, hsub, List.take_succ_cons] at hm
            rcases List.mem_append.mp hm with hm | hm
            · have := hcross m (List.mem_of_mem_take hm) middle (List.mem_cons_self _ _)
              omega
            · rcases List.mem_cons.mp hm with rfl | hm
              · exact hge
              · exact h1 m hm
          · intro m hm
            rw [List.drop_append_eq_append_drop, hsub, List.drop_succ_cons,
              List.drop_eq_nil_iff.mpr (by omega), List.nil_append] at hm
            exact h2 m hm

/-- Putting the pivot at the place the binary search finds keeps the run ordered
and puts the pivot behind the tasks of its score. -/
theorem insert_scored (sc : Task → Int) (pivot : Task) (sorted : List Task) (left : Nat)
    (hsorted : sorted.Pairwise (fun x y => sc y ≤ sc x))
    (h1 : ∀ m ∈ sorted.take left, sc pivot ≤ sc m)
    (h2 : ∀ m ∈ sorted.drop left, sc m < sc pivot) :
    (sorted.take left ++ pivot :: sorted.drop left).Pairwise (fun x y => sc y ≤ sc x)
      ∧ ∀ v : Int, (sorted.take left ++ pivot :: sorted.drop left).filter
            (fun t => decide (sc t = v))
          = (sorted ++ [pivot]).filter (fun t => decide (sc t = v)) := by
  have hsplit : sorted.take left ++ sorted.drop left = sorted := List.take_append_drop _ _
  have hparts := hsorted
  rw [← hsplit] at hparts
  obtain ⟨hfront, hback, hcross⟩ := List.pairwise_append.mp hparts
  constructor
  · refine List.pairwise_append.mpr ⟨hfront, ?_, ?_⟩
    · exact List.pairwise_cons.mpr ⟨fun m hm => le_of_lt (h2 m hm), hback⟩
    · intro x hx y hy
      rcases List.mem_cons.mp hy with rfl | hy
      · exact h1 x hx
      · exact hcross x hx y hy
  · intro v
    have hfilter : sorted.filter (fun t => decide (sc t = v))
        = (sorted.take left).filter (fun t => decide (sc t = v))
          ++ (sorted.drop left).filter (fun t => decide (sc t = v)) := by
      rw [← List.filter_append, hsplit]
    rw [List.filter_append, List.filter_append, hfilter]
    by_cases hpv : sc pivot = v
    · have hnil : (sorted.drop left).filter (fun t => decide (sc t = v)) = [] := by
        rw [List.filter_eq_nil_iff]
        intro x hx
        have := h2 x hx
        simp only [decide_eq_true_eq]
        omega
      simp only [List.filter_cons, hpv, decide_True, if_true, hnil, List.filter_nil,
        List.append_nil]
    · simp only [List.filter_cons, hpv, decide_False, List.filter_nil, List.append_nil]
      simp

/-- Binary insertion into a run ordered by non-increasing score gives a list in
that order which holds the tasks of each score in the order of the run
followed by the inserted tasks. -/
theorem binaryInsertionSort_scored (now : Int) (sc : Task → Int) :
    ∀ (rest sorted out : List Task),
      (∀ t ∈ sorted ++ rest, calculateAIPriority t now = .ok (.num (sc t))) →
      sorted.Pairwise (fun x y => sc y ≤ sc x) →
      binaryInsertionSort now sorted rest = .ok out →
      out.Pairwise (fun x y => sc y ≤ sc x)
        ∧ ∀ v : Int, out.filter (fun t => decide (sc t = v))
            = (sorted ++ rest).filter (fun t => decide (sc t = v)) := by
  intro rest
  induction rest with
  | nil =>
    intro sorted out _ hsorted h
    simp only [binaryInsertionSort, pure, Except.pure, Except.ok.injEq] at h
    subst h
    exact ⟨hsorted, fun v => by rw [List.append_nil]⟩
  | cons pivot rest ih =>
    intro sorted out hsc hsorted h
    simp only [binaryInsertionSort, bind, Except.bind] at h
    cases hl : insertionPoint now pivot sorted.length sorted with
    | error e => rw [hl] at h; cases h
    | ok left =>
      rw [hl] at h
      simp only at h
      have hp := hsc pivot (List.mem_append_right _ (List.mem_cons_self _ _))
      obtain ⟨-, h1, h2⟩ := insertionPoint_scored now sc pivot hp sorted.length sorted left
        (le_refl _) (fun t ht => hsc t (List.mem_append_left _ ht)) hsorted hl
      obtain ⟨hnew, hfilter⟩ := insert_scored sc pivot sorted left hsorted h1 h2
      have hsc2 : ∀ t ∈ (sorted.take left ++ pivot :: sorted.drop left) ++ rest,
          calculateAIPriority t now = .ok (.num (sc t)) := by
        intro t ht
        rcases List.mem_append.mp ht with ht | ht
        · rcases List.mem_append.mp ht with ht | ht
          · exact hsc t (List.mem_append_left _ (List.mem_of_mem_take ht))
          · rcases List.mem_cons.mp ht with rfl | ht
            · exact hp
            · exact hsc t (List.mem_append_left _ (List.mem_of_mem_drop ht))
        · exact hsc t (List.mem_append_right _ (List.mem_cons_of_mem _ ht))
      obtain ⟨hout, hfout⟩ := ih _ out hsc2 hnew h
      refine ⟨hout, fun v => ?_⟩
      rw [hfout v, List.filter_append, hfilter v, ← List.filter_append]
      simp

/-- The sort orders tasks with plain keys by non-increasing score and keeps tasks
of equal score in input order. -/
theorem sortTasks_ordered (now : Int) :
    ∀ (l out : List Task), (∀ t ∈ l, t.plainKeys) → sortTasks now l = .ok out →
      out.Pairwise (fun x y => ∃ sx sy : Int, calculateAIPriority x now = .ok (.num sx)
        ∧ calculateAIPriority y now = .ok (.num sy) ∧ sy ≤ sx)
      ∧ ∀ v : Int, out.filter (fun t => decide (calculateAIPriority t now = .ok (.num v)))
          = l.filter (fun t => decide (calculateAIPriority t now = .ok (.num v))) := by
  intro l out hplain h
  have hperm := sortTasks_perm now l out h
  have hdl := sortTasks_ok_deadlines now l out h
  unfold sortTasks at h
  by_cases hlen : l.length < 2
  · rw [if_pos hlen] at h
    simp only [pure, Except.pure, Except.ok.injEq] at h
    subst h
    refine ⟨?_, fun _ => rfl⟩
    match l, hlen with
    | [], _ => exact List.Pairwise.nil
    | [a], _ => exact List.pairwise_singleton _ _
  · rw [if_neg hlen] at h
    simp only [bind, Except.bind] at h
    have hall : ∀ t ∈ l, t.deadline ≠ none := by
      rcases hdl with hshort | hall
      · omega
      · exact hall
    have hscored : ∀ t ∈ l, calculateAIPriority t now = .ok (.num
        ((fun t : Task => specScore t.category t.priority t.difficulty
          (t.deadline.getD 0 - now)) t)) := by
      intro t ht
      cases hd : t.deadline with
      | none => exact absurd hd (hall t ht)
      | some d =>
        have := calculateAIPriority_plain t d now hd (hplain t ht)
        simpa [hd] using this
    generalize (fun t : Task => specScore t.category t.priority t.difficulty
      (t.deadline.getD 0 - now)) = sc at hscored
    cases hf : countAndMakeRun now l with
    | error e => rw [hf] at h; cases h
    | ok found =>
      rw [hf] at h
      obtain ⟨hrunperm, -⟩ := countAndMakeRun_spec now l found hf
      obtain ⟨hrun, hrunfilter⟩ := countAndMakeRun_scored now sc l found hscored hf
      obtain ⟨hout, hfout⟩ := binaryInsertionSort_scored now sc found.2 found.1 out
        (fun t ht => hscored t (hrunperm.mem_iff.mp ht)) hrun h
      have houtscored : ∀ t ∈ out, calculateAIPriority t now = .ok (.num (sc t)) :=
        fun t ht => hscored t (hperm.mem_iff.mp ht)
      constructor
      · refine hout.imp_of_mem ?_
        intro x y hx hy hxy
        exact ⟨sc x, sc y, houtscored x hx, houtscored y hy, hxy⟩
      · intro v
        have hconv : ∀ (m : List Task),
            (∀ t ∈ m, calculateAIPriority t now = .ok (.num (sc t))) →
            m.filter (fun t => decide (calculateAIPriority t now = .ok (.num v)))
              = m.filter (fun t => decide (sc t = v)) := by
          intro m hm
          apply List.filter_congr
          intro t ht
          rw [hm t ht]
          simp
        rw [hconv out houtscored, hconv l hscored, hfout v, hrunfilter v]

/-- Where the code does what C14 says: when the category, difficulty and priority
of every task are not names of members that every object inherits (so that
every score is a number), the assignments `fallbackOptimization` returns are
ordered by non-increasing `calculateAIPriority` score of their tasks, evaluated
at one fixed current time, and tasks with equal scores appear in the same
relative order as in the input list. -/
theorem fallbackOptimization_ordered_by_score (tasks : List Task) (schedule : List Schedule)
    (userPreferences : UserPreferences) (clock : Clock) (out : List Assignment)
    (hplain : ∀ t ∈ tasks, t.plainKeys)
    (h : fallbackOptimization tasks schedule userPreferences clock = .ok out) :
    OrderedByScore clock.now tasks out := by
  simp only [fallbackOptimization, bind, Except.bind] at h
  cases hs : sortTasks clock.now tasks with
  | error e => rw [hs] at h; cases h
  | ok sortedTasks =>
    rw [hs] at h
    obtain ⟨hpair, -, -⟩ := placeTasks_spec userPreferences.breakDuration sortedTasks _ out h
    obtain ⟨hordered, hstable⟩ := sortTasks_ordered clock.now tasks sortedTasks hplain hs
    exact ⟨sortedTasks, hpair.imp (fun _ _ hat => hat.1),
      sortTasks_perm clock.now tasks sortedTasks hs, hordered, hstable⟩

/-- C14, the code at the failing input: a task of category `constructor` scores
`NaN`, every comparison with it counts as a tie, and the sort leaves a task of
score 30 in front of an exam of score 100; no rearrangement of these tasks is
ordered by score, since one of them has no score to order by. -/
theorem fallbackOptimization_ordered_by_score_fails_on_inherited_key :
    fallbackOptimization
        [⟨1, "personal", "low", "easy", 30, some 1800000000⟩,
         ⟨2, "constructor", "medium", "medium", 30, some 1800000000⟩,
         ⟨3, "exam", "urgent", "hard", 60, some 72000000⟩]
        [] ⟨⟨"09:00", "18:00"⟩, 15, 45⟩ (utcClock 100)
      = .ok [⟨1, atClock 9 0, atClock 9 30, "Fallback scheduling based on priority"⟩,
             ⟨2, atClock 9 45, atClock 10 15, "Fallback scheduling based on priority"⟩,
             ⟨3, atClock 10 30, atClock 11 30, "Fallback scheduling based on priority"⟩]
    ∧ calculateAIPriority ⟨1, "personal", "low", "easy", 30, some 1800000000⟩ 100
      = .ok (.num 30)
    ∧ calculateAIPriority ⟨3, "exam", "urgent", "hard", 60, some 72000000⟩ 100
      = .ok (.num 100)
    ∧ ¬ OrderedByScore 100
        [⟨1, "personal", "low", "easy", 30, some 1800000000⟩,
         ⟨2, "constructor", "medium", "medium", 30, some 1800000000⟩,
         ⟨3, "exam", "urgent", "hard", 60, some 72000000⟩]
        [⟨1, atClock 9 0, atClock 9 30, "Fallback scheduling based on priority"⟩,
         ⟨2, atClock 9 45, atClock 10 15, "Fallback scheduling based on priority"⟩,
         ⟨3, atClock 10 30, atClock 11 30, "Fallback scheduling based on priority"⟩] := by
  refine ⟨by decide, by decide, by decide, ?_⟩
  rintro ⟨sortedTasks, -, hperm, hpair, -⟩
  have hnum : sortedTasks.Pairwise (fun x y =>
      (∃ s : Int, calculateAIPriority x 100 = .ok (.num s))
        ∧ ∃ s : Int, calculateAIPriority y 100 = .ok (.num s)) :=
    hpair.imp (fun ⟨sx, sy, hx, hy, _⟩ => ⟨⟨sx, hx⟩, ⟨sy, hy⟩⟩)
  have hall := (List.Perm.pairwise_iff (fun hxy => ⟨hxy.2, hxy.1⟩) hperm).mp hnum
  obtain ⟨s, hs⟩ := ((List.pairwise_cons.mp hall).1 _ (List.mem_cons_self _ _)).2
  have hnan : calculateAIPriority
      ⟨2, "constructor", "medium", "medium", 30, some 1800000000⟩ 100 = .ok .nan := by decide
  rw [hnan] at hs
  cases hs

/-- C15 (as amended): `fallbackOptimization` does not change the tasks themselves.
After a call that returns, the list passed in holds the same tasks with the
same field values, each as often as before (it is a rearrangement of the list
before the call, sorted in place), and the assignments are those of
`fallbackOptimization`. -/
theorem fallbackOptimization_keeps_tasks (tasks : List Task) (schedule : List Schedule)
    (userPreferences : UserPreferences) (clock : Clock) (out : List Assignment)
    (after : List Task)
    (h : fallbackOptimizationInPlace tasks schedule userPreferences clock = .ok (out, after)) :
    fallbackOptimization tasks schedule userPreferences clock = .ok out
      ∧ after.Perm tasks := by
  simp only [fallbackOptimizationInPlace, bind, Except.bind] at h
  cases hs : sortTasks clock.now tasks with
  | error e => rw [hs] at h; cases h
  | ok sortedTasks =>
    rw [hs] at h
    simp only at h
    cases hp : placeTasks userPreferences.breakDuration
        (setHours clock clock.now (parseInt (firstSegment userPreferences.workingHours.start)))
        sortedTasks with
    | error e => rw [hp] at h; cases h
    | ok placed =>
      rw [hp] at h
      simp only [pure, Except.pure, Except.ok.injEq, Prod.mk.injEq] at h
      obtain ⟨rfl, rfl⟩ := h
      refine ⟨?_, sortTasks_perm clock.now tasks sortedTasks hs⟩
      simp only [fallbackOptimization, bind, Except.bind, hs]
      exact hp

/-- C15, witness: a personal task followed by an exam; after the call the list
holds the exam followed by the personal task. -/
theorem fallbackOptimization_keeps_tasks_witness :
    fallbackOptimization
        [⟨1, "personal", "low", "easy", 30, some 1800000000⟩,
         ⟨2, "exam", "urgent", "hard", 60, some 72000000⟩]
        [] ⟨⟨"09:00", "18:00"⟩, 15, 45⟩ (utcClock 100)
      = .ok [⟨2, atClock 9 0, atClock 10 0, "Fallback scheduling based on priority"⟩,
             ⟨1, atClock 10 15, atClock 10 45, "Fallback scheduling based on priority"⟩]
    ∧ List.Perm
        [(⟨2, "exam", "urgent", "hard", 60, some 72000000⟩ : Task),
         ⟨1, "personal", "low", "easy", 30, some 1800000000⟩]
        [⟨1, "personal", "low", "easy", 30, some 1800000000⟩,
         ⟨2, "exam", "urgent", "hard", 60, some 72000000⟩] :=
  fallbackOptimization_keeps_tasks
    [⟨1, "personal", "low", "easy", 30, some 1800000000⟩,
     ⟨2, "exam", "urgent", "hard", 60, some 72000000⟩]
    [] ⟨⟨"09:00", "18:00"⟩, 15, 45⟩ (utcClock 100)
    [⟨2, atClock 9 0, atClock 10 0, "Fallback scheduling based on priority"⟩,
     ⟨1, atClock 10 15, atClock 10 45, "Fallback scheduling based on priority"⟩]
    [⟨2, "exam", "urgent", "hard", 60, some 72000000⟩,
     ⟨1, "personal", "low", "easy", 30, some 1800000000⟩]
    (by decide)

/-- C15, counterexample to the claim as stated: called with a personal task
followed by an exam, `fallbackOptimization` leaves the caller's list holding
the exam followed by the personal task, which is not the order before the
call. -/
theorem fallbackOptimization_reorders_input :
    ∃ (out : List Assignment) (after : List Task),
      fallbackOptimizationInPlace
          [⟨1, "personal", "low", "easy", 30, some 1800000000⟩,
           ⟨2, "exam", "urgent", "hard", 60, some 72000000⟩]
          [] ⟨⟨"09:00", "18:00"⟩, 15, 45⟩ (utcClock 100) = .ok (out, after)
      ∧ after ≠ [⟨1, "personal", "low", "easy", 30, some 1800000000⟩,
                 ⟨2, "exam", "urgent", "hard", 60, some 72000000⟩] :=
  ⟨[⟨2, atClock 9 0, atClock 10 0, "Fallback scheduling based on priority"⟩,
    ⟨1, atClock 10 15, atClock 10 45, "Fallback scheduling based on priority"⟩],
   [⟨2, "exam", "urgent", "hard", 60, some 72000000⟩,
    ⟨1, "personal", "low", "easy", 30, some 1800000000⟩],
   by decide, by decide⟩

/-- C16 (as amended): `fallbackOptimization` returns a list of assignments only when
(a) the task list has at most one task or every task has a deadline, and (b)
the task list is empty, or the working-hours start begins with a number that
`parseInt` can read (as every `HH:MM` time does) and that hour of the local day
of the clock is a time value a `Date` can hold.  When no duration and no break
is negative, it returns exactly when (a) holds and the task list is empty or,
beyond (b), the end of the last task (the first start, all durations and the
breaks between the tasks later) is a time value a `Date` can hold.  In every
other case the method throws. -/
theorem fallbackOptimization_returns_iff :
    (∀ (tasks : List Task) (schedule : List Schedule) (userPreferences : UserPreferences)
        (clock : Clock),
      (∃ out, fallbackOptimization tasks schedule userPreferences clock = .ok out) →
      (tasks.length ≤ 1 ∨ ∀ t ∈ tasks, t.deadline ≠ none)
        ∧ (tasks = [] ∨ ∃ hour : Int,
            parseInt (firstSegment userPreferences.workingHours.start) = some hour
            ∧ InDateRange (onLocalDay clock (hour * msPerHour))))
    ∧ (∀ (tasks : List Task) (schedule : List Schedule) (userPreferences : UserPreferences)
        (clock : Clock),
      (∀ t ∈ tasks, 0 ≤ t.estimatedDuration) → 0 ≤ userPreferences.breakDuration →
      ((∃ out, fallbackOptimization tasks schedule userPreferences clock = .ok out)
        ↔ ((tasks.length ≤ 1 ∨ ∀ t ∈ tasks, t.deadline ≠ none)
          ∧ (tasks = [] ∨ ∃ hour : Int,
              parseInt (firstSegment userPreferences.workingHours.start) = some hour
              ∧ InDateRange (onLocalDay clock (hour * msPerHour))
              ∧ InDateRange (plannedLastEnd (onLocalDay clock (hour * msPerHour))
                  userPreferences.breakDuration tasks))))) := by
  constructor
  · rintro tasks schedule userPreferences clock ⟨out, h⟩
    obtain ⟨hsort, hplan⟩ :=
      fallbackOptimization_ok_plan tasks schedule userPreferences clock out h
    refine ⟨hsort, ?_⟩
    rcases hplan with hnil | ⟨hour, hhour, sortedTasks, hperm, hrange⟩
    · exact Or.inl hnil
    · by_cases hne : tasks = []
      · exact Or.inl hne
      · right
        have hsne : sortedTasks ≠ [] := fun hs => hne (by
          rw [hs] at hperm
          exact List.Perm.eq_nil hperm.symm)
        exact ⟨hour, hhour, planInRange_first _ _ _ hsne hrange⟩
  · intro tasks schedule userPreferences clock hpos hbreak
    constructor
    · rintro ⟨out, h⟩
      obtain ⟨hsort, hplan⟩ :=
        fallbackOptimization_ok_plan tasks schedule userPreferences clock out h
      refine ⟨hsort, ?_⟩
      rcases hplan with hnil | ⟨hour, hhour, sortedTasks, hperm, hrange⟩
      · exact Or.inl hnil
      · by_cases hne : tasks = []
        · exact Or.inl hne
        · right
          have hsne : sortedTasks ≠ [] := fun hs => hne (by
            rw [hs] at hperm
            exact List.Perm.eq_nil hperm.symm)
          have hboth := (planInRange_iff_of_nonneg userPreferences.breakDuration hbreak
            sortedTasks _ (fun t ht => hpos t (hperm.mem_iff.mp ht)) hsne).mp hrange
          rw [plannedLastEnd_perm _ _ hperm] at hboth
          exact ⟨hour, hhour, hboth.1, hboth.2⟩
    · rintro ⟨hsort, hplan⟩
      apply fallbackOptimization_ok_of_plan tasks schedule userPreferences clock hsort
      rcases hplan with hnil | ⟨hour, hhour, hfirst, hlast⟩
      · exact Or.inl hnil
      · by_cases hne : tasks = []
        · exact Or.inl hne
        · right
          refine ⟨hour, hhour, ?_⟩
          intro sortedTasks hperm
          have hsne : sortedTasks ≠ [] := fun hs => hne (by
            rw [hs] at hperm
            exact List.Perm.eq_nil hperm.symm)
          apply (planInRange_iff_of_nonneg userPreferences.breakDuration hbreak
            sortedTasks _ (fun t ht => hpos t (hperm.mem_iff.mp ht)) hsne).mpr
          rw [plannedLastEnd_perm _ _ hperm]
          exact ⟨hfirst, hlast⟩

/-- C16, witness: an exam of 60 minutes and a personal task of 30 minutes, working
hours from 09:00 and breaks of 15 minutes; the plan runs from 9:00 to 10:45. -/
theorem fallbackOptimization_returns_iff_witness :
    (∃ out, fallbackOptimization
        [⟨1, "personal", "low", "easy", 30, some 1800000000⟩,
         ⟨2, "exam", "urgent", "hard", 60, some 72000000⟩]
        [] ⟨⟨"09:00", "18:00"⟩, 15, 45⟩ (utcClock 100) = .ok out)
      ↔ ((([⟨1, "personal", "low", "easy", 30, some 1800000000⟩,
            ⟨2, "exam", "urgent", "hard", 60, some 72000000⟩] : List Task).length ≤ 1
          ∨ ∀ t ∈ ([⟨1, "personal", "low", "easy", 30, some 1800000000⟩,
              ⟨2, "exam", "urgent", "hard", 60, some 72000000⟩] : List Task),
            t.deadline ≠ none)
        ∧ (([⟨1, "personal", "low", "easy", 30, some 1800000000⟩,
             ⟨2, "exam", "urgent", "hard", 60, some 72000000⟩] : List Task) = []
          ∨ ∃ hour : Int,
            parseInt (firstSegment
              (⟨⟨"09:00", "18:00"⟩, 15, 45⟩ : UserPreferences).workingHours.start) = some hour
            ∧ InDateRange (onLocalDay (utcClock 100) (hour * msPerHour))
            ∧ InDateRange (plannedLastEnd (onLocalDay (utcClock 100) (hour * msPerHour))
                (⟨⟨"09:00", "18:00"⟩, 15, 45⟩ : UserPreferences).breakDuration
                [⟨1, "personal", "low", "easy", 30, some 1800000000⟩,
                 ⟨2, "exam", "urgent", "hard", 60, some 72000000⟩]))) :=
  fallbackOptimization_returns_iff.2
    [⟨1, "personal", "low", "easy", 30, some 1800000000⟩,
     ⟨2, "exam", "urgent", "hard", 60, some 72000000⟩]
    [] ⟨⟨"09:00", "18:00"⟩, 15, 45⟩ (utcClock 100) (by decide) (by decide)

/-- C16, counterexample to the claim as stated: with the working-hours start
`soon`, `parseInt` gives `NaN`, the cursor is an invalid date and `toISOString`
throws a `RangeError` for the first task; two tasks of which one has no
deadline make the comparator throw a `TypeError`; and with the start
`9999999999:00` the cursor is beyond the range of `Date`, which again is an
invalid date and a `RangeError`. -/
theorem fallbackOptimization_throws :
    fallbackOptimization [⟨1, "exam", "urgent", "hard", 60, some 72000000⟩] []
        ⟨⟨"soon", "18:00"⟩, 15, 45⟩ (utcClock 100) = .error .rangeError
    ∧ fallbackOptimization
        [⟨1, "exam", "urgent", "hard", 60, some 72000000⟩,
         ⟨2, "other", "medium", "medium", 60, none⟩] []
        ⟨⟨"09:00", "18:00"⟩, 15, 45⟩ (utcClock 100) = .error .typeError
    ∧ fallbackOptimization [⟨1, "exam", "urgent", "hard", 60, some 72000000⟩] []
        ⟨⟨"9999999999:00", "18:00"⟩, 15, 45⟩ (utcClock 100) = .error .rangeError := by
  refine ⟨by decide, by decide, by decide⟩

/-- C17 (as amended): `calculateAIPriority` returns a value for every task whose
deadline is a timestamp, and only for those; the value is an integer score
from 0 to 100 when category, difficulty and priority are not names of members
inherited from `Object.prototype`. -/
theorem calculateAIPriority_returns_iff :
    (∀ (task : Task) (now : Int),
      (∃ v, calculateAIPriority task now = .ok v) ↔ task.deadline ≠ none)
    ∧ (∀ (task : Task) (now : Int), task.deadline ≠ none → task.plainKeys →
      ∃ s : Int, calculateAIPriority task now = .ok (.num s) ∧ 0 ≤ s ∧ s ≤ 100) := by
  refine ⟨calculateAIPriority_ok_iff, ?_⟩
  intro task now hd hk
  cases hdead : task.deadline with
  | none => exact absurd hdead hd
  | some d => exact ⟨_, calculateAIPriority_plain task d now hdead hk, specScore_range _ _ _ _⟩

/-- C17, witness: a lab task due in 50 hours scores 60. -/
theorem calculateAIPriority_returns_iff_witness :
    ∃ s : Int, calculateAIPriority ⟨3, "lab", "medium", "medium", 45, some 180000000⟩ 0
      = .ok (.num s) ∧ 0 ≤ s ∧ s ≤ 100 :=
  calculateAIPriority_returns_iff.2 ⟨3, "lab", "medium", "medium", 45, some 180000000⟩ 0
    (by decide) (by decide)

/-- C17, counterexample to the claim as stated: for a task whose deadline is
`null`, as in the result of `fallbackParsing`, `task.deadline.getTime()` throws
a `TypeError` and no score is returned. -/
theorem calculateAIPriority_throws_without_deadline :
    calculateAIPriority ⟨1, "other", "medium", "medium", 60, none⟩ 0 = .error .typeError
    ∧ ¬ ∃ v, calculateAIPriority ⟨1, "other", "medium", "medium", 60, none⟩ 0 = .ok v := by
  refine ⟨rfl, ?_⟩
  rintro ⟨v, hv⟩
  cases hv

/-! Parsed tasks -/

/-- The value `list.includes(v) ? v : dflt` is a string of the list or the default;
it is `v` exactly when `v` is a string of the list. -/
theorem includes_or_default (list : List String) (v : JSValue) (dflt : String) :
    ((∃ s ∈ list, v = .string s)
        → (if includesString list v then v else JSValue.string dflt) = v)
    ∧ ((¬ ∃ s ∈ list, v = .string s)
        → (if includesString list v then v else JSValue.string dflt) = .string dflt) := by
  constructor
  · rintro ⟨s, hs, rfl⟩
    simp [includesString, hs]
  · intro hnot
    cases v with
    | string s =>
      have hs : s ∉ list := fun hmem => hnot ⟨s, hmem, rfl⟩
      simp [includesString, hs]
    | _ => simp [includesString]

theorem includes_or_default_mem (list : List String) (v : JSValue) (dflt : String)
    (hd : dflt ∈ list) :
    ∃ s ∈ list, (if includesString list v then v else JSValue.string dflt) = .string s := by
  by_cases h : ∃ s ∈ list, v = .string s
  · obtain ⟨s, hs, hv⟩ := h
    exact ⟨s, hs, by rw [(includes_or_default list v dflt).1 ⟨s, hs, hv⟩, hv]⟩
  · exact ⟨dflt, hd, (includes_or_default list v dflt).2 h⟩

/-- C18: for every parsed object, the category of the result of
`validateParsedTask` is one of the nine fixed categories, its priority one of
low, medium, high, urgent and its difficulty one of easy, medium, hard; a field
that already holds a value of its enumeration is returned unchanged, and any
other value is replaced by `other`, `medium` and `medium` respectively. -/
theorem validateParsedTask_enumerations (rt : Runtime) (task : ParsedTask) :
    ((∃ c ∈ validCategories, (validateParsedTask rt task).category = .string c)
      ∧ (∃ p ∈ validPriorities, (validateParsedTask rt task).priority = .string p)
      ∧ (∃ d ∈ validDifficulties, (validateParsedTask rt task).difficulty = .string d))
    ∧ (((∃ c ∈ validCategories, task.category = .string c)
          → (validateParsedTask rt task).category = task.category)
      ∧ ((∃ p ∈ validPriorities, task.priority = .string p)
          → (validateParsedTask rt task).priority = task.priority)
      ∧ ((∃ d ∈ validDifficulties, task.difficulty = .string d)
          → (validateParsedTask rt task).difficulty = task.difficulty))
    ∧ (((¬ ∃ c ∈ validCategories, task.category = .string c)
          → (validateParsedTask rt task).category = .string "other")
      ∧ ((¬ ∃ p ∈ validPriorities, task.priority = .string p)
          → (validateParsedTask rt task).priority = .string "medium")
      ∧ ((¬ ∃ d ∈ validDifficulties, task.difficulty = .string d)
          → (validateParsedTask rt task).difficulty = .string "medium")) :=
  ⟨⟨includes_or_default_mem validCategories task.category "other" (by decide),
    includes_or_default_mem validPriorities task.priority "medium" (by decide),
    includes_or_default_mem validDifficulties task.difficulty "medium" (by decide)⟩,
   ⟨(includes_or_default validCategories task.category "other").1,
    (includes_or_default validPriorities task.priority "medium").1,
    (includes_or_default validDifficulties task.difficulty "medium").1⟩,
   ⟨(includes_or_default validCategories task.category "other").2,
    (includes_or_default validPriorities task.priority "medium").2,
    (includes_or_default validDifficulties task.difficulty "medium").2⟩⟩

/-- C18, witness: a parsed object with the category `exam` and the priority
`asap` keeps the category. -/
theorem validateParsedTask_enumerations_witness :
    (validateParsedTask ⟨fun _ => .nan, fun _ => none⟩
        ⟨.string "Revise", .undefined, .string "exam", .string "asap", .number (.finite 3),
         .number (.finite 90), .null, .undefined, .undefined, .undefined⟩).category
      = .string "exam" :=
  (validateParsedTask_enumerations ⟨fun _ => .nan, fun _ => none⟩
    ⟨.string "Revise", .undefined, .string "exam", .string "asap", .number (.finite 3),
     .number (.finite 90), .null, .undefined, .undefined, .undefined⟩).2.1.1
    ⟨"exam", by decide, rfl⟩

/-- The clamp `Math.max(15, Math.min(480, x))` of a number that is not `NaN` lies
between 15 and 480. -/
theorem clamp_number (x : NumberValue) (hx : x ≠ .nan) :
    ∃ q : ℚ, NumberValue.max (.finite 15) (NumberValue.min (.finite 480) x) = .finite q
      ∧ 15 ≤ q ∧ q ≤ 480 := by
  cases x with
  | nan => exact absurd rfl hx
  | infinity =>
    exact ⟨Max.max 15 480, rfl, le_max_left _ _, max_le (by norm_num) le_rfl⟩
  | negInfinity => exact ⟨15, rfl, le_rfl, by norm_num⟩
  | finite a =>
    exact ⟨Max.max 15 (Min.min 480 a), rfl, le_max_left _ _,
      max_le (by norm_num) (min_le_left _ _)⟩

/-- C19: for every parsed object whose `estimatedDuration` is absent (`undefined`
or `null`) or is any number, negative, zero, arbitrarily large, infinite or
`NaN`, the `estimatedDuration` that `validateParsedTask` returns is a number
`d` with `15 ≤ d ≤ 480`. -/
theorem validateParsedTask_duration_range (rt : Runtime) (task : ParsedTask)
    (h : task.estimatedDuration = .undefined ∨ task.estimatedDuration = .null
      ∨ ∃ x, task.estimatedDuration = .number x) :
    ∃ q : ℚ, (validateParsedTask rt task).estimatedDuration = .number (.finite q)
      ∧ 15 ≤ q ∧ q ≤ 480 := by
  have hclamp : ∃ x : NumberValue, x ≠ .nan
      ∧ toNumber rt (task.estimatedDuration.or (.number (.finite 60))) = x := by
    rcases h with hu | hn | ⟨x, hx⟩
    · refine ⟨.finite 60, by simp, ?_⟩
      rw [hu]
      rfl
    · refine ⟨.finite 60, by simp, ?_⟩
      rw [hn]
      rfl
    · rw [hx]
      cases x with
      | nan => exact ⟨.finite 60, by simp, rfl⟩
      | infinity => exact ⟨.infinity, by simp, rfl⟩
      | negInfinity => exact ⟨.negInfinity, by simp, rfl⟩
      | finite a =>
        by_cases ha : a = 0
        · refine ⟨.finite 60, by simp, ?_⟩
          simp [JSValue.or, JSValue.truthy, ha, toNumber]
        · refine ⟨.finite a, by simp, ?_⟩
          simp [JSValue.or, JSValue.truthy, ha, toNumber]
  obtain ⟨x, hx, hval⟩ := hclamp
  obtain ⟨q, hq, hlo, hhi⟩ := clamp_number x hx
  refine ⟨q, ?_, hlo, hhi⟩
  show JSValue.number (NumberValue.max (.finite 15) (NumberValue.min (.finite 480)
    (toNumber rt (task.estimatedDuration.or (.number (.finite 60)))))) = _
  rw [hval, hq]

/-- C19, witness: an `estimatedDuration` of 100000 minutes is cut to 480. -/
theorem validateParsedTask_duration_range_witness :
    ∃ q : ℚ, (validateParsedTask ⟨fun _ => .nan, fun _ => none⟩
        ⟨.string "Thesis", .undefined, .string "project", .undefined, .undefined,
         .number (.finite 100000), .null, .undefined, .undefined, .undefined⟩).estimatedDuration
      = .number (.finite q) ∧ 15 ≤ q ∧ q ≤ 480 :=
  validateParsedTask_duration_range ⟨fun _ => .nan, fun _ => none⟩
    ⟨.string "Thesis", .undefined, .string "project", .undefined, .undefined,
     .number (.finite 100000), .null, .undefined, .undefined, .undefined⟩
    (Or.inr (Or.inr ⟨.finite 100000, rfl⟩))

/-- C20 (as amended): for every input string that is not empty, `fallbackParsing`
returns a task whose title is a non-empty string, whose category is `other`
and whose `estimatedDuration` is 60, which lies between 15 and 480. -/
theorem fallbackParsing_fields (doc : Compromise) (input : String) (h : input ≠ "") :
    (∃ title : String, (fallbackParsing doc input).title = .string title ∧ title ≠ "")
    ∧ (fallbackParsing doc input).category = .string "other"
    ∧ ∃ q : ℚ, (fallbackParsing doc input).estimatedDuration = .number (.finite q)
        ∧ 15 ≤ q ∧ q ≤ 480 := by
  refine ⟨⟨substringFromStart input 100, rfl, ?_⟩, rfl, ⟨60, rfl, by norm_num, by norm_num⟩⟩
  intro hempty
  apply h
  have hdata : takeCodeUnits 100 input.toList = [] := by
    have := congrArg String.toList hempty
    simpa [substringFromStart] using this
  have hnil : input.toList = [] := by
    cases hl : input.toList with
    | nil => rfl
    | cons c cs =>
      rw [hl] at hdata
      have hunits : codeUnits c ≤ 100 := by
        unfold codeUnits
        split_ifs <;> omega
      simp only [takeCodeUnits, if_pos hunits] at hdata
      cases hdata
  exact String.ext hnil

/-- C20, witness: the input `finish lab report`. -/
theorem fallbackParsing_fields_witness :
    (∃ title : String,
        (fallbackParsing ⟨fun _ => [], fun _ => []⟩ "finish lab report").title = .string title
          ∧ title ≠ "")
    ∧ (fallbackParsing ⟨fun _ => [], fun _ => []⟩ "finish lab report").category
        = .string "other"
    ∧ ∃ q : ℚ, (fallbackParsing ⟨fun _ => [], fun _ => []⟩ "finish lab report").estimatedDuration
        = .number (.finite q) ∧ 15 ≤ q ∧ q ≤ 480 :=
  fallbackParsing_fields ⟨fun _ => [], fun _ => []⟩ "finish lab report" (by decide)

/-- C20, counterexample to the claim as stated: for the empty input string the
title `input.substring(0, 100)` is the empty string. -/
theorem fallbackParsing_empty_title :
    (fallbackParsing ⟨fun _ => [], fun _ => []⟩ "").title = .string ""
    ∧ ¬ ∃ title : String,
        (fallbackParsing ⟨fun _ => [], fun _ => []⟩ "").title = .string title ∧ title ≠ "" := by
  refine ⟨rfl, ?_⟩
  rintro ⟨title, htitle, hne⟩
  have h : JSValue.string "" = JSValue.string title := htitle
  simp only [JSValue.string.injEq] at h
  exact hne h.symm

/-! The two urgency formulas -/

theorem specTimeBucket_range (timeLeft : Int) :
    10 ≤ specTimeBucket timeLeft ∧ specTimeBucket timeLeft ≤ 40 := by
  unfold specTimeBucket
  split_ifs <;> omega

theorem specCategoryBucket_range (category : String) :
    10 ≤ specCategoryBucket category ∧ specCategoryBucket category ≤ 35 := by
  unfold specCategoryBucket
  split_ifs <;> omega

/-- For a task with a deadline and a priority and a difficulty of the
enumerations, `getUrgencyScore` is the sum of the time, priority and difficulty
buckets of the specification, which is at most 90. -/
theorem getUrgencyScore_enum (task : Task) (deadline now : Int)
    (hdl : task.deadline = some deadline)
    (hp : task.priority ∈ ["low", "medium", "high", "urgent"])
    (hd : task.difficulty ∈ ["easy", "medium", "hard"]) :
    getUrgencyScore task now
        = .ok (.num (specTimeBucket (deadline - now) + specPriorityBucket task.priority
            + specDifficultyBucket task.difficulty))
      ∧ specTimeBucket (deadline - now) + specPriorityBucket task.priority
          + specDifficultyBucket task.difficulty ≤ 90 := by
  have ht := specTimeBucket_range (deadline - now)
  simp only [List.mem_cons, List.mem_singleton, List.not_mem_nil, or_false] at hp hd
  simp only [getUrgencyScore, hdl, timeScore_eq_spec, zero_add]
  rcases hp with hp | hp | hp | hp <;> rcases hd with hd | hd | hd <;>
    simp [hp, hd, specPriorityBucket, specDifficultyBucket] <;> omega

theorem specDifficultyBucket_range (difficulty : String) :
    5 ≤ specDifficultyBucket difficulty ∧ specDifficultyBucket difficulty ≤ 20 := by
  unfold specDifficultyBucket
  split_ifs <;> omega

theorem specPriorityBucket_range (priority : String) :
    5 ≤ specPriorityBucket priority ∧ specPriorityBucket priority ≤ 30 := by
  unfold specPriorityBucket
  split_ifs <;> omega

/-- Where the code does what C28 says: for every task with a deadline whose
priority is one of low, medium, high, urgent and whose difficulty is one of easy,
medium, hard, and for every current time, `getUrgencyScore` never exceeds 90;
and when the category is not the name of a member that every object inherits,
`calculateAIPriority(task)` equals `min(100, getUrgencyScore(task) + C)` with `C`
the category table value (15 for an unrecognised category), so that
`getUrgencyScore` is never greater than `calculateAIPriority`. -/
theorem urgency_formulas_differ_by_category :
    (∀ (task : Task) (deadline now : Int), task.deadline = some deadline →
      task.priority ∈ ["low", "medium", "high", "urgent"] →
      task.difficulty ∈ ["easy", "medium", "hard"] →
      ∃ u : Int, getUrgencyScore task now = .ok (.num u) ∧ u ≤ 90)
    ∧ (∀ (task : Task) (deadline now : Int), task.deadline = some deadline →
      task.priority ∈ ["low", "medium", "high", "urgent"] →
      task.difficulty ∈ ["easy", "medium", "hard"] →
      task.category ∉ objectPrototypeKeys →
      ∃ u s : Int, getUrgencyScore task now = .ok (.num u)
        ∧ calculateAIPriority task now = .ok (.num s)
        ∧ s = min 100 (u + specCategoryBucket task.category) ∧ u ≤ s) := by
  constructor
  · intro task deadline now hdl hp hd
    obtain ⟨hu, hle⟩ := getUrgencyScore_enum task deadline now hdl hp hd
    exact ⟨_, hu, hle⟩
  · intro task deadline now hdl hp hd hc
    obtain ⟨hu, hle⟩ := getUrgencyScore_enum task deadline now hdl hp hd
    have hplain : task.plainKeys := by
      refine ⟨hc, ?_, ?_⟩
      · simp only [List.mem_cons, List.mem_singleton, List.not_mem_nil, or_false] at hd
        rcases hd with hd | hd | hd <;> rw [hd] <;> decide
      · simp only [List.mem_cons, List.mem_singleton, List.not_mem_nil, or_false] at hp
        rcases hp with hp | hp | hp | hp <;> rw [hp] <;> decide
    have hs := calculateAIPriority_plain task deadline now hdl hplain
    have ht := specTimeBucket_range (deadline - now)
    have hcat := specCategoryBucket_range task.category
    have hdif := specDifficultyBucket_range task.difficulty
    have hpri := specPriorityBucket_range task.priority
    refine ⟨_, _, hu, hs, ?_, ?_⟩
    · unfold specScore
      rw [max_eq_right (by omega)]
      congr 1
      omega
    · unfold specScore
      rw [max_eq_right (by omega)]
      exact le_min (by omega) (by omega)

/-- C28, the code at the failing input: for a task of the unrecognised category
`constructor`, of medium priority and medium difficulty, `getUrgencyScore` is 60
while `calculateAIPriority` is `NaN`, not `min(100, 60 + 15)`; the `switch` of
`getUrgencyScore` is not misled by the category, the table read of
`calculateAIPriority` is. -/
theorem urgency_formulas_differ_fails_on_inherited_key :
    getUrgencyScore ⟨1, "constructor", "medium", "medium", 60, some 0⟩ 0 = .ok (.num 60)
    ∧ specCategoryBucket "constructor" = 15
    ∧ calculateAIPriority ⟨1, "constructor", "medium", "medium", 60, some 0⟩ 0 = .ok .nan
    ∧ calculateAIPriority ⟨1, "constructor", "medium", "medium", 60, some 0⟩ 0
      ≠ .ok (.num (min 100 (60 + specCategoryBucket "constructor"))) := by
  have hnan : calculateAIPriority ⟨1, "constructor", "medium", "medium", 60, some 0⟩ 0
      = .ok .nan := by decide
  refine ⟨by decide, by decide, hnan, ?_⟩
  rw [hnan]
  intro h
  cases h

/-! Free slots: order, and entries outside the query -/

/-- When every entry ends at or after its start, the slots of a scan start at or
after the scan's `currentTime`, and each slot starts before and ends at or
before the start of every later slot. -/
theorem scanSchedules_increasing (endDate duration : Int) :
    ∀ (schedules : List Schedule) (currentTime : Int),
      (∀ e ∈ schedules, e.startTime ≤ e.endTime) →
      (∀ slot ∈ scanSchedules endDate duration currentTime schedules,
        currentTime ≤ slot.startTime)
      ∧ (scanSchedules endDate duration currentTime schedules).Pairwise
          (fun x y => x.startTime < y.startTime ∧ x.endTime ≤ y.startTime) := by
  intro schedules
  induction schedules with
  | nil =>
    intro currentTime _
    unfold scanSchedules
    split_ifs with hc
    · refine ⟨?_, List.pairwise_singleton _ _⟩
      intro slot hslot
      simp only [List.mem_singleton] at hslot
      subst hslot
      exact le_rfl
    · refine ⟨?_, List.Pairwise.nil⟩
      intro slot hslot
      cases hslot
  | cons s rest ih =>
    intro currentTime hwf
    have hs := hwf s (List.mem_cons_self _ _)
    obtain ⟨hstart, hpair⟩ := ih (max currentTime s.endTime)
      (fun e he => hwf e (List.mem_cons_of_mem _ he))
    have h1 : currentTime ≤ max currentTime s.endTime := le_max_left _ _
    have h2 : s.endTime ≤ max currentTime s.endTime := le_max_right _ _
    unfold scanSchedules
    split_ifs with hc
    · constructor
      · intro slot hslot
        rcases List.mem_append.mp hslot with hpush | hlater
        · simp only [List.mem_singleton] at hpush
          subst hpush
          exact le_rfl
        · exact le_trans h1 (hstart slot hlater)
      · refine List.pairwise_append.mpr ⟨List.pairwise_singleton _ _, hpair, ?_⟩
        intro x hx y hy
        simp only [List.mem_singleton] at hx
        subst hx
        have := hstart y hy
        simp only
        omega
    · constructor
      · intro slot hslot
        simp only [List.nil_append] at hslot
        exact le_trans h1 (hstart slot hslot)
      · simpa only [List.nil_append] using hpair

/-- C29: for every list of entries sorted by `startTime` in which each entry has
`startTime ≤ endTime`, the slots `findAvailableSlots` returns are in strictly
increasing order of `startTime` and pairwise disjoint: each slot ends at or
before the start of every later slot. -/
theorem findAvailableSlots_increasing (schedules : List Schedule) (startDate endDate d : Int)
    (_hsorted : SortedByStart schedules) (hwf : ∀ e ∈ schedules, e.startTime ≤ e.endTime) :
    (availableSlots schedules startDate endDate d).Pairwise
      (fun x y => x.startTime < y.startTime ∧ x.endTime ≤ y.startTime) :=
  (scanSchedules_increasing endDate d schedules startDate hwf).2

/-- C29, witness: the entries 9:00 to 10:00 and 11:00 to 12:00 in the window 9:00
to 13:00 give the slots 10:00 to 11:00 and 12:00 to 13:00. -/
theorem findAvailableSlots_increasing_witness :
    List.Pairwise (fun x y : Slot => x.startTime < y.startTime ∧ x.endTime ≤ y.startTime)
      [⟨atClock 10 0, atClock 11 0, 60⟩, ⟨atClock 12 0, atClock 13 0, 60⟩] :=
  availableSlots_two_entries ▸ findAvailableSlots_increasing
    [⟨1, atClock 9 0, atClock 10 0, true⟩, ⟨1, atClock 11 0, atClock 12 0, true⟩]
    (atClock 9 0) (atClock 13 0) 60 (by decide) (by decide)

theorem mem_find_iff (collection : List Schedule) (userId : Nat) (startDate endDate : Int)
    (x : Schedule) :
    x ∈ Schedule.find collection userId startDate endDate
      ↔ x ∈ collection ∧ x.userId = userId ∧ startDate ≤ x.startTime
        ∧ x.endTime ≤ endDate ∧ x.isActive = true := by
  unfold Schedule.find
  rw [(List.perm_insertionSort _ _).mem_iff, List.mem_filter]
  simp only [Bool.and_eq_true, beq_iff_eq, decide_eq_true_eq]
  tauto

/-- C25 (as amended): for every set of schedule entries, every user and every
window, no slot the free-slot query returns overlaps an active entry of that
user that lies inside the window (`startTime ≥ startDate` and
`endTime ≤ endDate`), the only entries the query selects. -/
theorem findAvailableSlots_avoids_selected (collection : List Schedule) (userId : Nat)
    (startDate endDate d : Int) (slot : Slot) (x : Schedule)
    (hslot : slot ∈ Schedule.findAvailableSlots collection userId startDate endDate d)
    (hx : x ∈ collection) (huser : x.userId = userId) (hactive : x.isActive = true)
    (hstart : startDate ≤ x.startTime) (hend : x.endTime ≤ endDate) :
    ¬ (slot.startTime < x.endTime ∧ slot.endTime > x.startTime) := by
  haveI : IsTotal Schedule (fun a b => a.startTime ≤ b.startTime) :=
    ⟨fun a b => le_total a.startTime b.startTime⟩
  haveI : IsTrans Schedule (fun a b => a.startTime ≤ b.startTime) :=
    ⟨fun a b c hab hbc => le_trans hab hbc⟩
  have hsorted : SortedByStart (Schedule.find collection userId startDate endDate) :=
    List.sorted_insertionSort (fun a b : Schedule => a.startTime ≤ b.startTime) _
  exact (scanSchedules_sound endDate d _ startDate hsorted slot hslot).2 x
    ((mem_find_iff collection userId startDate endDate x).mpr
      ⟨hx, huser, hstart, hend, hactive⟩)

theorem findAvailableSlots_one_entry :
    Schedule.findAvailableSlots [⟨1, atClock 10 0, atClock 11 0, true⟩] 1
        (atClock 9 0) (atClock 13 0) 60
      = [⟨atClock 9 0, atClock 10 0, 60⟩, ⟨atClock 11 0, atClock 13 0, 120⟩] := by
  simp [Schedule.findAvailableSlots, Schedule.find, availableSlots, scanSchedules, atClock,
    minutesBetween]
  norm_num

/-- C25, witness: the entry 10:00 to 11:00 lies inside the window 9:00 to 13:00,
and the returned slot 9:00 to 10:00 does not overlap it. -/
theorem findAvailableSlots_avoids_selected_witness :
    ¬ ((⟨atClock 9 0, atClock 10 0, 60⟩ : Slot).startTime
        < (⟨1, atClock 10 0, atClock 11 0, true⟩ : Schedule).endTime
      ∧ (⟨atClock 9 0, atClock 10 0, 60⟩ : Slot).endTime
        > (⟨1, atClock 10 0, atClock 11 0, true⟩ : Schedule).startTime) :=
  findAvailableSlots_avoids_selected [⟨1, atClock 10 0, atClock 11 0, true⟩] 1
    (atClock 9 0) (atClock 13 0) 60 ⟨atClock 9 0, atClock 10 0, 60⟩
    ⟨1, atClock 10 0, atClock 11 0, true⟩
    (by rw [findAvailableSlots_one_entry]; exact List.mem_cons_self _ _)
    (List.mem_cons_self _ _) rfl rfl (by decide) (by decide)

/-- C25, counterexample to the claim as stated: an active entry from 8:00 to 10:00
starts before the window 9:00 to 13:00, so the query does not select it, and
the single slot returned, 9:00 to 13:00, overlaps it. -/
theorem findAvailableSlots_overlaps_straddling_entry :
    Schedule.findAvailableSlots [⟨1, atClock 8 0, atClock 10 0, true⟩] 1
        (atClock 9 0) (atClock 13 0) 60
      = [⟨atClock 9 0, atClock 13 0, 240⟩]
    ∧ (atClock 9 0 < (⟨1, atClock 8 0, atClock 10 0, true⟩ : Schedule).endTime
      ∧ atClock 13 0 > (⟨1, atClock 8 0, atClock 10 0, true⟩ : Schedule).startTime) := by
  constructor
  · simp [Schedule.findAvailableSlots, Schedule.find, availableSlots, scanSchedules, atClock,
      minutesBetween]
    norm_num
  · decide

/-! Parsed tasks: the clamp and a second validation -/

/-- C24 (as amended): for every parsed object whose `estimatedDuration` is a number
`d` other than 0 and `NaN`, `validateParsedTask` returns `d` clamped to
[15, 480]: 15 when `d < 15`, 480 when `d > 480` and `d` itself otherwise (so 480
for infinity and 15 for minus infinity); for 0 and for `NaN`, which `||` takes
for a missing value, it returns the default 60. -/
theorem validateParsedTask_duration_clamp (rt : Runtime) (task : ParsedTask) :
    (∀ q : ℚ, task.estimatedDuration = .number (.finite q) → q ≠ 0 →
      (validateParsedTask rt task).estimatedDuration
        = .number (.finite (if q < 15 then 15 else if q > 480 then 480 else q)))
    ∧ (task.estimatedDuration = .number .infinity →
      (validateParsedTask rt task).estimatedDuration = .number (.finite 480))
    ∧ (task.estimatedDuration = .number .negInfinity →
      (validateParsedTask rt task).estimatedDuration = .number (.finite 15))
    ∧ (task.estimatedDuration = .number (.finite 0) ∨ task.estimatedDuration = .number .nan →
      (validateParsedTask rt task).estimatedDuration = .number (.finite 60)) := by
  refine ⟨?_, ?_, ?_, ?_⟩
  · intro q hq hne
    have hval : (validateParsedTask rt task).estimatedDuration
        = .number (.finite (Max.max 15 (Min.min 480 q))) := by
      simp [validateParsedTask, hq, JSValue.or, JSValue.truthy, hne, toNumber,
        NumberValue.min, NumberValue.max]
    rw [hval]
    congr 2
    split_ifs with h1 h2
    · rw [min_eq_right (by linarith), max_eq_left (by linarith)]
    · rw [min_eq_left (by linarith), max_eq_right (by norm_num)]
    · rw [min_eq_right (by linarith), max_eq_right (by linarith)]
  · intro h
    simp [validateParsedTask, h, JSValue.or, JSValue.truthy, toNumber, NumberValue.min,
      NumberValue.max]
    norm_num
  · intro h
    simp [validateParsedTask, h, JSValue.or, JSValue.truthy, toNumber, NumberValue.min,
      NumberValue.max]
  · rintro (h | h) <;>
      simp [validateParsedTask, h, JSValue.or, JSValue.truthy, toNumber, NumberValue.min,
        NumberValue.max] <;> norm_num

/-- C24, witness: an `estimatedDuration` of 5 minutes is raised to 15. -/
theorem validateParsedTask_duration_clamp_witness :
    (validateParsedTask ⟨fun _ => .nan, fun _ => none⟩
        ⟨.string "Quiz", .undefined, .string "exam", .undefined, .undefined,
         .number (.finite 5), .null, .undefined, .undefined, .undefined⟩).estimatedDuration
      = .number (.finite (if (5 : ℚ) < 15 then 15 else if (5 : ℚ) > 480 then 480 else 5)) :=
  (validateParsedTask_duration_clamp ⟨fun _ => .nan, fun _ => none⟩
    ⟨.string "Quiz", .undefined, .string "exam", .undefined, .undefined,
     .number (.finite 5), .null, .undefined, .undefined, .undefined⟩).1 5 rfl (by norm_num)

/-- C24, counterexample to the claim as stated: the number 0 is less than 15, yet
`validateParsedTask` returns 60 for it, not 15. -/
theorem validateParsedTask_duration_zero :
    (validateParsedTask ⟨fun _ => .nan, fun _ => none⟩
        ⟨.string "Quiz", .undefined, .string "exam", .undefined, .undefined,
         .number (.finite 0), .null, .undefined, .undefined, .undefined⟩).estimatedDuration
      = .number (.finite 60)
    ∧ (validateParsedTask ⟨fun _ => .nan, fun _ => none⟩
        ⟨.string "Quiz", .undefined, .string "exam", .undefined, .undefined,
         .number (.finite 0), .null, .undefined, .undefined, .undefined⟩).estimatedDuration
      ≠ .number (.finite 15) := by
  have hval : (validateParsedTask ⟨fun _ => .nan, fun _ => none⟩
        ⟨.string "Quiz", .undefined, .string "exam", .undefined, .undefined,
         .number (.finite 0), .null, .undefined, .undefined, .undefined⟩).estimatedDuration
      = .number (.finite 60) := by
    simp [validateParsedTask, JSValue.or, JSValue.truthy, toNumber, NumberValue.min,
      NumberValue.max]
    norm_num
  refine ⟨hval, ?_⟩
  rw [hval]
  intro h
  simp only [JSValue.number.injEq, NumberValue.finite.injEq] at h
  norm_num at h

theorem or_or_self (a b : JSValue) : (a.or b).or b = a.or b := by
  unfold JSValue.or
  by_cases ha : a.truthy = true
  · rw [if_pos ha, if_pos ha]
  · rw [if_neg ha]
    exact ite_self b

theorem includes_or_default_idem (list : List String) (v : JSValue) (dflt : String)
    (hd : dflt ∈ list) :
    (if includesString list (if includesString list v then v else JSValue.string dflt)
      then (if includesString list v then v else JSValue.string dflt)
      else JSValue.string dflt)
      = (if includesString list v then v else JSValue.string dflt) := by
  obtain ⟨s, hs, hval⟩ := includes_or_default_mem list v dflt hd
  rw [hval]
  simp [includesString, hs]

/-- The clamped duration is a number from 15 to 480 or `NaN`, whatever the value
it is computed from. -/
theorem clamp_cases (x : NumberValue) :
    NumberValue.max (.finite 15) (NumberValue.min (.finite 480) x) = .nan
      ∨ ∃ q : ℚ, NumberValue.max (.finite 15) (NumberValue.min (.finite 480) x) = .finite q
        ∧ 15 ≤ q ∧ q ≤ 480 := by
  by_cases hx : x = .nan
  · left
    rw [hx]
    rfl
  · exact Or.inr (clamp_number x hx)

/-- Where the code does what C30 says: `validateParsedTask` is idempotent on every
parsed object whose validated `estimatedDuration` is not `NaN` (as when the field
is absent, a number, or any value that converts to a number): then
`validateParsedTask(validateParsedTask(t))` equals `validateParsedTask(t)` field
by field. -/
theorem validateParsedTask_idempotent (rt : Runtime) (task : ParsedTask)
    (h : (validateParsedTask rt task).estimatedDuration ≠ .number .nan) :
    validateParsedTask rt (validateParsedTask rt task) = validateParsedTask rt task := by
  have hduration : JSValue.number (NumberValue.max (.finite 15) (NumberValue.min (.finite 480)
      (toNumber rt ((validateParsedTask rt task).estimatedDuration.or
        (.number (.finite 60))))))
      = (validateParsedTask rt task).estimatedDuration := by
    have hshape : (validateParsedTask rt task).estimatedDuration
        = .number (NumberValue.max (.finite 15) (NumberValue.min (.finite 480)
            (toNumber rt (task.estimatedDuration.or (.number (.finite 60)))))) := rfl
    rcases clamp_cases (toNumber rt (task.estimatedDuration.or (.number (.finite 60))))
      with hnan | ⟨q, hq, hlo, hhi⟩
    · rw [hshape, hnan] at h
      exact absurd rfl h
    · rw [hshape, hq]
      have hne : q ≠ 0 := by
        intro h0
        rw [h0] at hlo
        norm_num at hlo
      simp only [JSValue.or, JSValue.truthy, hne, ne_eq, not_false_eq_true, decide_True,
        if_true, toNumber, NumberValue.min, NumberValue.max]
      rw [min_eq_right hhi, max_eq_right hlo]
  have hdeadline : (if (validateParsedTask rt task).deadline.truthy
      then JSValue.date (newDate rt (validateParsedTask rt task).deadline) else JSValue.null)
      = (validateParsedTask rt task).deadline := by
    have hshape : (validateParsedTask rt task).deadline
        = if task.deadline.truthy then .date (newDate rt task.deadline) else .null := rfl
    rw [hshape]
    by_cases ht : task.deadline.truthy = true
    · rw [if_pos ht]
      rfl
    · rw [if_neg ht]
      rfl
  have htags : (match (validateParsedTask rt task).tags with
      | .array items => JSValue.array (items.take 10)
      | _ => JSValue.array []) = (validateParsedTask rt task).tags := by
    have hshape : (validateParsedTask rt task).tags
        = match task.tags with
          | .array items => JSValue.array (items.take 10)
          | _ => JSValue.array [] := rfl
    rw [hshape]
    cases task.tags <;> simp [List.take_take]
  have hgoal : validateParsedTask rt (validateParsedTask rt task)
      = { title := ((validateParsedTask rt task).title).or (.string "Untitled Task"),
          description := ((validateParsedTask rt task).description).or (.string ""),
          category :=
            if includesString validCategories (validateParsedTask rt task).category
            then (validateParsedTask rt task).category else .string "other",
          priority :=
            if includesString validPriorities (validateParsedTask rt task).priority
            then (validateParsedTask rt task).priority else .string "medium",
          difficulty :=
            if includesString validDifficulties (validateParsedTask rt task).difficulty
            then (validateParsedTask rt task).difficulty else .string "medium",
          estimatedDuration :=
            .number (NumberValue.max (.finite 15) (NumberValue.min (.finite 480)
              (toNumber rt ((validateParsedTask rt task).estimatedDuration.or
                (.number (.finite 60)))))),
          deadline :=
            if (validateParsedTask rt task).deadline.truthy
            then .date (newDate rt (validateParsedTask rt task).deadline) else .null,
          subject := ((validateParsedTask rt task).subject).or .null,
          location := ((validateParsedTask rt task).location).or .null,
          tags :=
            match (validateParsedTask rt task).tags with
            | .array items => .array (items.take 10)
            | _ => .array [] } := rfl
  rw [hgoal, hduration, hdeadline, htags]
  have htitle : ((validateParsedTask rt task).title).or (.string "Untitled Task")
      = (validateParsedTask rt task).title := or_or_self task.title _
  have hdescription : ((validateParsedTask rt task).description).or (.string "")
      = (validateParsedTask rt task).description := or_or_self task.description _
  have hsubject : ((validateParsedTask rt task).subject).or .null
      = (validateParsedTask rt task).subject := or_or_self task.subject _
  have hlocation : ((validateParsedTask rt task).location).or .null
      = (validateParsedTask rt task).location := or_or_self task.location _
  have hcategory := includes_or_default_idem validCategories task.category "other"
    (by decide)
  have hpriority := includes_or_default_idem validPriorities task.priority "medium"
    (by decide)
  have hdifficulty := includes_or_default_idem validDifficulties task.difficulty "medium"
    (by decide)
  have hc : (if includesString validCategories (validateParsedTask rt task).category
      then (validateParsedTask rt task).category else JSValue.string "other")
      = (validateParsedTask rt task).category := hcategory
  have hp : (if includesString validPriorities (validateParsedTask rt task).priority
      then (validateParsedTask rt task).priority else JSValue.string "medium")
      = (validateParsedTask rt task).priority := hpriority
  have hd : (if includesString validDifficulties (validateParsedTask rt task).difficulty
      then (validateParsedTask rt task).difficulty else JSValue.string "medium")
      = (validateParsedTask rt task).difficulty := hdifficulty
  rw [htitle, hdescription, hsubject, hlocation, hc, hp, hd]

/-- C30, the code at the failing input: the string `soon` is no number, so
`ToNumber` gives `NaN` (as the runtime chosen here does) and the validated
`estimatedDuration` is `NaN`, outside the 15 to 480 minutes the comment on that
line promises; a second validation takes `NaN` for a missing value and returns
60, so validating twice is not validating once. -/
theorem validateParsedTask_not_idempotent :
    (validateParsedTask ⟨fun _ => .nan, fun _ => none⟩
        ⟨.string "Essay", .undefined, .string "assignment", .undefined, .undefined,
         .string "soon", .null, .undefined, .undefined, .undefined⟩).estimatedDuration
      = .number .nan
    ∧ (validateParsedTask ⟨fun _ => .nan, fun _ => none⟩
        (validateParsedTask ⟨fun _ => .nan, fun _ => none⟩
          ⟨.string "Essay", .undefined, .string "assignment", .undefined, .undefined,
           .string "soon", .null, .undefined, .undefined, .undefined⟩)).estimatedDuration
      = .number (.finite 60)
    ∧ validateParsedTask ⟨fun _ => .nan, fun _ => none⟩
        (validateParsedTask ⟨fun _ => .nan, fun _ => none⟩
          ⟨.string "Essay", .undefined, .string "assignment", .undefined, .undefined,
           .string "soon", .null, .undefined, .undefined, .undefined⟩)
      ≠ validateParsedTask ⟨fun _ => .nan, fun _ => none⟩
          ⟨.string "Essay", .undefined, .string "assignment", .undefined, .undefined,
           .string "soon", .null, .undefined, .undefined, .undefined⟩ := by
  have h1 : (validateParsedTask ⟨fun _ => .nan, fun _ => none⟩
        ⟨.string "Essay", .undefined, .string "assignment", .undefined, .undefined,
         .string "soon", .null, .undefined, .undefined, .undefined⟩).estimatedDuration
      = .number .nan := by
    simp [validateParsedTask, JSValue.or, JSValue.truthy, toNumber, NumberValue.min,
      NumberValue.max]
  have h2 : (validateParsedTask ⟨fun _ => .nan, fun _ => none⟩
        (validateParsedTask ⟨fun _ => .nan, fun _ => none⟩
          ⟨.string "Essay", .undefined, .string "assignment", .undefined, .undefined,
           .string "soon", .null, .undefined, .undefined, .undefined⟩)).estimatedDuration
      = .number (.finite 60) := by
    simp [validateParsedTask, JSValue.or, JSValue.truthy, toNumber, NumberValue.min,
      NumberValue.max]
    norm_num
  refine ⟨h1, h2, ?_⟩
  intro heq
  have hfield := congrArg ParsedTask.estimatedDuration heq
  rw [h1, h2] at hfield
  cases hfield

/-- C23, the code at the failing input: with the working-hours start `09:30` the
only task is placed at 9:00 of the current day, not at 9:30; the minutes of the
start are never read. -/
theorem fallbackOptimization_drops_start_minutes :
    fallbackOptimization [⟨1, "exam", "urgent", "hard", 60, some 72000000⟩] []
        ⟨⟨"09:30", "18:00"⟩, 15, 45⟩ (utcClock 100)
      = .ok [⟨1, atClock 9 0, atClock 10 0, "Fallback scheduling based on priority"⟩]
    ∧ wellFormedTime "09:30" = true
    ∧ clockTimeOfDay "09:30" = some (atClock 9 30)
    ∧ startOfLocalDay (utcClock 100) = 0
    ∧ atClock 9 0 ≠ startOfLocalDay (utcClock 100) + atClock 9 30 := by
  refine ⟨by decide, by decide, by decide, by decide, by decide⟩

/-! The task routes -/

/-- C21, the code at the failing input: with one task of each priority the query
with the sort key `priority` answers in the order urgent, medium, low, high,
which is the descending order of the strings; the medium and the low task come
before the high one. -/
theorem getTasks_priority_sort_is_alphabetical :
    (getTasks
        [⟨1, "Notes", "pending", 0, ⟨1, "lab", "low", "medium", 30, some 100000⟩⟩,
         ⟨1, "Essay", "pending", 0, ⟨2, "lab", "high", "medium", 30, some 100000⟩⟩,
         ⟨1, "Exam", "pending", 0, ⟨3, "lab", "urgent", "medium", 30, some 100000⟩⟩,
         ⟨1, "Quiz", "pending", 0, ⟨4, "lab", "medium", "medium", 30, some 100000⟩⟩]
        1 none none none (some "priority") 0).status = 200
    ∧ (getTasks
        [⟨1, "Notes", "pending", 0, ⟨1, "lab", "low", "medium", 30, some 100000⟩⟩,
         ⟨1, "Essay", "pending", 0, ⟨2, "lab", "high", "medium", 30, some 100000⟩⟩,
         ⟨1, "Exam", "pending", 0, ⟨3, "lab", "urgent", "medium", 30, some 100000⟩⟩,
         ⟨1, "Quiz", "pending", 0, ⟨4, "lab", "medium", "medium", 30, some 100000⟩⟩]
        1 none none none (some "priority") 0).tasks.map (fun entry => entry.1.task.priority)
      = ["urgent", "medium", "low", "high"] := by
  constructor <;> decide

theorem newTask_none_of_title (body : TaskBody) (userId newId : Nat) (now : Int)
    (h : requiredTrimmed body.title = none) : newTask body userId newId now = none := by
  simp [newTask, h]

theorem newTask_none_of_category (body : TaskBody) (userId newId : Nat) (now : Int)
    (h : requiredEnum categoryEnum body.category = none) :
    newTask body userId newId now = none := by
  unfold newTask
  cases requiredTrimmed body.title <;> simp [h]

theorem newTask_none_of_duration (body : TaskBody) (userId newId : Nat) (now : Int)
    (h : requiredValue body.estimatedDuration = none) :
    newTask body userId newId now = none := by
  unfold newTask
  cases requiredTrimmed body.title <;> cases requiredEnum categoryEnum body.category <;>
    cases defaultedEnum priorityEnum "medium" body.priority <;>
    cases defaultedEnum difficultyEnum "medium" body.difficulty <;>
    cases defaultedEnum statusEnum "pending" body.status <;> simp [h]

theorem newTask_none_of_deadline (body : TaskBody) (userId newId : Nat) (now : Int)
    (h : requiredValue body.deadline = none) : newTask body userId newId now = none := by
  unfold newTask
  cases requiredTrimmed body.title <;> cases requiredEnum categoryEnum body.category <;>
    cases defaultedEnum priorityEnum "medium" body.priority <;>
    cases defaultedEnum difficultyEnum "medium" body.difficulty <;>
    cases defaultedEnum statusEnum "pending" body.status <;>
    cases requiredValue body.estimatedDuration <;> simp [h]

/-- C22, the code on every body that lacks a required field: whichever of `title`,
`category`, `estimatedDuration` and `deadline` is missing, `POST /tasks` stores
nothing and answers with status 500 and the message `Server error`, not with
status 400. -/
theorem createTask_missing_field_answers_500 :
    (∀ (store : List StoredTask) (userId : Nat) (body : TaskBody) (newId : Nat) (now : Int),
      createTask store userId { body with title := .absent } newId now
        = (⟨500, "Server error", []⟩, store))
    ∧ (∀ (store : List StoredTask) (userId : Nat) (body : TaskBody) (newId : Nat) (now : Int),
      createTask store userId { body with category := .absent } newId now
        = (⟨500, "Server error", []⟩, store))
    ∧ (∀ (store : List StoredTask) (userId : Nat) (body : TaskBody) (newId : Nat) (now : Int),
      createTask store userId { body with estimatedDuration := .absent } newId now
        = (⟨500, "Server error", []⟩, store))
    ∧ (∀ (store : List StoredTask) (userId : Nat) (body : TaskBody) (newId : Nat) (now : Int),
      createTask store userId { body with deadline := .absent } newId now
        = (⟨500, "Server error", []⟩, store))
    ∧ createTask [] 1
        ⟨.absent, .value "Essay", .value "assignment", .absent, .absent, .absent, .value 90,
         .absent⟩ 1 0
      = (⟨500, "Server error", []⟩, []) := by
  refine ⟨?_, ?_, ?_, ?_, by decide⟩
  · intro store userId body newId now
    have h : newTask { ({ body with title := .absent } : TaskBody) with userId := .value userId }
        userId newId now = none := newTask_none_of_title _ _ _ _ rfl
    simp only [createTask, h, serverError]
  · intro store userId body newId now
    have h : newTask { ({ body with category := .absent } : TaskBody) with userId := .value userId }
        userId newId now = none := newTask_none_of_category _ _ _ _ rfl
    simp only [createTask, h, serverError]
  · intro store userId body newId now
    have h : newTask { ({ body with estimatedDuration := .absent } : TaskBody) with userId := .value userId }
        userId newId now = none := newTask_none_of_duration _ _ _ _ rfl
    simp only [createTask, h, serverError]
  · intro store userId body newId now
    have h : newTask { ({ body with deadline := .absent } : TaskBody) with userId := .value userId }
        userId newId now = none := newTask_none_of_deadline _ _ _ _ rfl
    simp only [createTask, h, serverError]

/-- C26, the code when the remote parse fails: `fallbackParsing` always returns the
deadline `null`; the document built from its result lacks the required
deadline, so for every text `POST /tasks/from-text` stores nothing and never
answers 201, and for the text `finish lab report` it answers with status 500
and the message `Server error`. -/
theorem createTaskFromText_fallback_fails :
    (∀ (doc : Compromise) (input : String), (fallbackParsing doc input).deadline = .null)
    ∧ (∀ (lib : Mongoose) (rt : Runtime) (doc : Compromise) (store : List StoredTask)
        (userId : Nat) (text : String) (newId : Nat) (now : Int),
      (createTaskFromText lib rt doc store userId text none newId now).1.status ≠ 201
        ∧ (createTaskFromText lib rt doc store userId text none newId now).2 = store)
    ∧ createTaskFromText ⟨fun _ => none, fun _ => none, fun _ => none⟩
        ⟨fun _ => .nan, fun _ => none⟩ ⟨fun _ => [], fun _ => []⟩ [] 1 "finish lab report"
        none 1 0
      = (⟨500, "Server error", []⟩, []) := by
  have hfail : ∀ (lib : Mongoose) (rt : Runtime) (doc : Compromise) (userId : Nat)
      (text : String) (newId : Nat) (now : Int),
      (if otherFieldsCast lib (parseTaskInput rt doc text none)
        then newTask (bodyOfParsedTask lib (parseTaskInput rt doc text none)) userId newId now
        else none) = none := by
    intro lib rt doc userId text newId now
    have hnone : newTask (bodyOfParsedTask lib (parseTaskInput rt doc text none)) userId newId
        now = none := newTask_none_of_deadline _ _ _ _ rfl
    rw [hnone]
    exact ite_self none
  refine ⟨fun _ _ => rfl, ?_, ?_⟩
  · intro lib rt doc store userId text newId now
    unfold createTaskFromText
    by_cases ht : text = ""
    · simp only [ht, if_true]
      exact ⟨by decide, trivial⟩
    · simp only [ht, if_false, hfail, serverError]
      exact ⟨by decide, trivial⟩
  · unfold createTaskFromText
    rw [if_neg (by decide)]
    simp only [hfail, serverError]

theorem replaceFirst_keeps (selected : StoredTask → Bool) (f : StoredTask → StoredTask) :
    ∀ (store : List StoredTask) (t : StoredTask), t ∈ store → selected t = false →
      t ∈ replaceFirst selected f store := by
  intro store
  induction store with
  | nil => intro t ht; cases ht
  | cons s rest ih =>
    intro t ht hsel
    unfold replaceFirst
    rcases List.mem_cons.mp ht with rfl | ht
    · rw [hsel]
      exact List.mem_cons_self _ _
    · split_ifs
      · exact List.mem_cons_of_mem _ ht
      · exact List.mem_cons_of_mem _ (ih t ht hsel)

/-- An update by one user leaves every task of every other user in the store. -/
theorem updateTask_keeps_other_users (store : List StoredTask) (userId taskId : Nat)
    (body : TaskBody) (now : Int) (t : StoredTask) (ht : t ∈ store) (hu : t.userId ≠ userId) :
    t ∈ (updateTask store userId taskId body now).2 := by
  have hsel : (fun s : StoredTask => decide (s.task._id = taskId) && decide (s.userId = userId)) t
      = false := by
    simp [hu]
  unfold updateTask
  by_cases hacc : updateAccepted body = true
  · rw [if_pos hacc]
    cases hfind : store.find?
        (fun s => decide (s.task._id = taskId) && decide (s.userId = userId)) with
    | none => exact ht
    | some found =>
      simp only
      cases calculateAIPriority (applyUpdate body found).task now with
      | ok p => exact replaceFirst_keeps _ _ store t ht hsel
      | error e => exact replaceFirst_keeps _ _ store t ht hsel
  · rw [if_neg hacc]
    exact ht

/-- C27, the code at the failing input: user 1 owns task 7 and sends
`PUT /tasks/7` with a body that carries `userId: 2`; the handler answers 200
and the stored task is owned by user 2 afterwards.  The task of user 2 in the
store is left as it was. -/
theorem updateTask_changes_owner :
    updateTask
        [⟨1, "Essay", "pending", 0, ⟨7, "assignment", "high", "medium", 90, some 100000⟩⟩,
         ⟨2, "Quiz", "pending", 0, ⟨8, "exam", "medium", "medium", 30, some 100000⟩⟩]
        1 7 ⟨.value 2, .absent, .absent, .absent, .absent, .absent, .absent, .absent⟩ 0
      = (⟨200, "Task updated successfully",
          [(⟨2, "Essay", "pending", 0,
              ⟨7, "assignment", "high", "medium", 90, some 100000⟩⟩, .num 100)]⟩,
         [⟨2, "Essay", "pending", 0, ⟨7, "assignment", "high", "medium", 90, some 100000⟩⟩,
          ⟨2, "Quiz", "pending", 0, ⟨8, "exam", "medium", "medium", 30, some 100000⟩⟩])
    ∧ createTask [] 1
        ⟨.value 2, .value "Essay", .value "assignment", .value "high", .absent, .absent,
         .value 90, .value 100000⟩ 7 0
      = (⟨201, "Task created successfully",
          [(⟨1, "Essay", "pending", 0,
              ⟨7, "assignment", "high", "medium", 90, some 100000⟩⟩, .num 100)]⟩,
         [⟨1, "Essay", "pending", 0,
            ⟨7, "assignment", "high", "medium", 90, some 100000⟩⟩]) := by
  constructor <;> decide

end Campus
